import Mathlib

/-!
Verification development for the medorg backup synchronizer.

This file gives a shallow embedding of the core of the repository
(content fingerprinting, per-directory sidecar index, central index
synchronization, backup orchestration, discovery, restore context)
and proves properties of the embedded definitions.

Modelling conventions, used throughout:
* Python machine integers are Nat/Int; 32-bit arithmetic is explicit
  modulo 2^32.
* Filesystem paths are represented by their component lists
  (Python pathlib splits and joins components bijectively for
  canonical paths); an absolute path carries its opaque root string.
* The single-threaded cooperative asyncio scheduling of the source is
  modelled by sequential state passing in task-creation order; locks
  are no-ops under this model.
* Fallible Python code (raise) is modelled with Option/Except or an
  explicit raised flag.
-/

namespace Medorg

/-! ### Content fingerprinter (src/py/medorg/common/checksum.py)

The fingerprinter computes the MD5 digest of the file content fed in
chunks, base64-encodes the 16-byte digest and strips the trailing
two-character padding.  MD5 itself (Python hashlib, an external
collaborator) is embedded concretely below; bytes are Nat values,
reduced mod 256 where consumed. -/

/-- 32-bit truncation. -/
def w32 (n : Nat) : Nat := n % 4294967296

/-- 32-bit addition. -/
def wadd (a b : Nat) : Nat := (a + b) % 4294967296

/-- 32-bit bitwise complement (inputs are kept below 2^32). -/
def wnot (a : Nat) : Nat := 4294967295 - (a % 4294967296)

/-- 32-bit left rotation. -/
def wrotl (x n : Nat) : Nat :=
  ((x % 4294967296) * 2 ^ (n % 32) + (x % 4294967296) / 2 ^ (32 - n % 32)) % 4294967296

/-- MD5 per-step sine-derived constant table. -/
def mdK : List Nat :=
  [3614090360, 3905402710, 606105819, 3250441966, 4118548399, 1200080426, 2821735955,
   4249261313, 1770035416, 2336552879, 4294925233, 2304563134, 1804603682, 4254626195,
   2792965006, 1236535329, 4129170786, 3225465664, 643717713, 3921069994, 3593408605,
   38016083, 3634488961, 3889429448, 568446438, 3275163606, 4107603335, 1163531501,
   2850285829, 4243563512, 1735328473, 2368359562, 4294588738, 2272392833, 1839030562,
   4259657740, 2763975236, 1272893353, 4139469664, 3200236656, 681279174, 3936430074,
   3572445317, 76029189, 3654602809, 3873151461, 530742520, 3299628645, 4096336452,
   1126891415, 2878612391, 4237533241, 1700485571, 2399980690, 4293915773, 2240044497,
   1873313359, 4264355552, 2734768916, 1309151649, 4149444226, 3174756917, 718787259,
   3951481745]

/-- MD5 per-step rotation amounts. -/
def mdS : List Nat :=
  [7, 12, 17, 22, 7, 12, 17, 22, 7, 12, 17, 22, 7, 12, 17, 22,
   5, 9, 14, 20, 5, 9, 14, 20, 5, 9, 14, 20, 5, 9, 14, 20,
   4, 11, 16, 23, 4, 11, 16, 23, 4, 11, 16, 23, 4, 11, 16, 23,
   6, 10, 15, 21, 6, 10, 15, 21, 6, 10, 15, 21, 6, 10, 15, 21]

/-- One MD5 round step on state (a, b, c, d) with message-word accessor m. -/
def md5Step (m : Nat → Nat) (i : Nat) (st : Nat × Nat × Nat × Nat) :
    Nat × Nat × Nat × Nat :=
  let a := st.1; let b := st.2.1; let c := st.2.2.1; let d := st.2.2.2
  let fg : Nat × Nat :=
    if i < 16 then ((b &&& c) ||| (wnot b &&& d), i)
    else if i < 32 then ((d &&& b) ||| (wnot d &&& c), (5 * i + 1) % 16)
    else if i < 48 then (b ^^^ c ^^^ d, (3 * i + 5) % 16)
    else (c ^^^ (b ||| wnot d), (7 * i) % 16)
  let tmp := wadd (wadd (wadd a fg.1) (mdK.getD i 0)) (m fg.2)
  (d, wadd b (wrotl tmp (mdS.getD i 0)), b, c)

/-- Process one 64-byte block (given as 16 little-endian words). -/
def md5Block (ws : List Nat) (st : Nat × Nat × Nat × Nat) : Nat × Nat × Nat × Nat :=
  let r := (List.range 64).foldl (fun s i => md5Step (fun j => ws.getD j 0) i s) st
  (wadd st.1 r.1, wadd st.2.1 r.2.1, wadd st.2.2.1 r.2.2.1, wadd st.2.2.2 r.2.2.2)

/-- Split a list into chunks of size n (n is intended positive; the head
element is always consumed, so the function is total for every n). -/
def chunksOf : Nat → List Nat → List (List Nat)
  | _, [] => []
  | n, a :: as => (a :: as.take (n - 1)) :: chunksOf n (as.drop (n - 1))
termination_by _ l => l.length
decreasing_by simp only [List.length_cons, List.length_drop]; omega

/-- Assemble four consecutive bytes (little-endian) into a 32-bit word. -/
def leWord (b0 b1 b2 b3 : Nat) : Nat :=
  b0 % 256 + 256 * (b1 % 256) + 65536 * (b2 % 256) + 16777216 * (b3 % 256)

/-- Group a byte list into 32-bit little-endian words. -/
def leWords : List Nat → List Nat
  | b0 :: b1 :: b2 :: b3 :: rest => leWord b0 b1 b2 b3 :: leWords rest
  | [b0, b1, b2] => [leWord b0 b1 b2 0]
  | [b0, b1] => [leWord b0 b1 0 0]
  | [b0] => [leWord b0 0 0 0]
  | [] => []

/-- Little-endian 4-byte serialization of a 32-bit word. -/
def leBytes4 (x : Nat) : List Nat :=
  [x % 256, x / 256 % 256, x / 65536 % 256, x / 16777216 % 256]

/-- MD5 padding: append 0x80, zeros to 56 mod 64, then the bit length
as 8 little-endian bytes. -/
def md5Pad (msg : List Nat) : List Nat :=
  let len := msg.length
  let k := (119 - len % 64) % 64
  msg.map (· % 256) ++ 128 :: List.replicate k 0 ++
    [8 * len % 256, 8 * len / 256 % 256, 8 * len / 65536 % 256,
     8 * len / 16777216 % 256, 8 * len / 4294967296 % 256,
     8 * len / 1099511627776 % 256, 8 * len / 281474976710656 % 256,
     8 * len / 72057594037927936 % 256]

/-- MD5 final state after processing all padded blocks. -/
def md5FinalState (msg : List Nat) : Nat × Nat × Nat × Nat :=
  (chunksOf 64 (md5Pad msg)).foldl (fun st blk => md5Block (leWords blk) st)
    (1732584193, 4023233417, 2562383102, 271733878)

/-- Serialize an MD5 state into the 16-byte digest. -/
def md5DigestBytes (st : Nat × Nat × Nat × Nat) : List Nat :=
  leBytes4 st.1 ++ leBytes4 st.2.1 ++ leBytes4 st.2.2.1 ++ leBytes4 st.2.2.2

/-- MD5 digest (16 bytes) of a byte list. -/
def md5 (msg : List Nat) : List Nat := md5DigestBytes (md5FinalState msg)

/-- Standard base64 alphabet. -/
def b64Alphabet : List Char :=
  "ABCDEFGHIJKLMNOPQRSTUVWXYZabcdefghijklmnopqrstuvwxyz0123456789+/".toList

/-- Base64 alphabet lookup. -/
def b64char (i : Nat) : Char := b64Alphabet.getD i (Char.ofNat 65)

/-- Standard base64 encoding with padding of a byte list
(model of Python base64.b64encode, an external collaborator). -/
def b64encode : List Nat → List Char
  | b0 :: b1 :: b2 :: rest =>
      let n := (b0 % 256) * 65536 + (b1 % 256) * 256 + b2 % 256
      b64char (n / 262144) :: b64char (n / 4096 % 64) :: b64char (n / 64 % 64) ::
        b64char (n % 64) :: b64encode rest
  | [b0, b1] =>
      let n := (b0 % 256) * 65536 + (b1 % 256) * 256
      [b64char (n / 262144), b64char (n / 4096 % 64), b64char (n / 64 % 64), '=']
  | [b0] =>
      let n := (b0 % 256) * 65536
      [b64char (n / 262144), b64char (n / 4096 % 64), '=', '=']
  | [] => []

/-- Result of running the md5_generator coroutine on a chunk sequence:
the hashlib state accumulates the bytes of the chunks received before
the first falsy (empty) chunk; the return value base64-encodes the
digest and strips the two-character padding tail when present.
Mirrors checksum.md5_generator. -/
def md5_generator (chunks : List (List Nat)) : List Char :=
  let data := (chunks.takeWhile (fun c => !c.isEmpty)).flatten
  let tmp := b64encode (md5 data)
  if tmp.length = 24 ∧ (tmp.drop 22).take 2 = ['=', '='] then tmp.take 22 else tmp

/-- Buffered fingerprint computation: feeds the content to md5_generator
in 4096-byte chunks (checksum.calculate_md5). -/
def calculate_md5 (content : List Nat) : List Char :=
  md5_generator (chunksOf 4096 content)

/-- Streaming fingerprint computation: feeds the content to md5_generator
in 8192-byte chunks (checksum.async_calculate_md5). -/
def async_calculate_md5 (content : List Nat) : List Char :=
  md5_generator (chunksOf 8192 content)

/-- Canonical fingerprint as the specification words it: the standard
base64 encoding of the 16-byte MD5 digest with the trailing
two-character padding dropped. -/
def specCanonicalFingerprint (content : List Nat) : List Char :=
  (b64encode (md5 content)).dropLast.dropLast

/-! Lemmas for the fingerprinter. -/

theorem chunksOf_flatten_aux (n : Nat) :
    ∀ (len : Nat) (l : List Nat), l.length ≤ len → (chunksOf n l).flatten = l := by
  intro len
  induction len with
  | zero =>
    intro l hl
    have : l = [] := List.eq_nil_of_length_eq_zero (Nat.le_zero.mp hl)
    subst this; simp [chunksOf]
  | succ k ih =>
    intro l hl
    cases l with
    | nil => simp [chunksOf]
    | cons a as =>
      have hlt : (as.drop (n - 1)).length ≤ k := by
        simp only [List.length_drop]
        simp only [List.length_cons] at hl
        omega
      simp only [chunksOf, List.flatten_cons, ih _ hlt, List.cons_append]
      rw [List.take_append_drop]

theorem chunksOf_flatten (n : Nat) (l : List Nat) : (chunksOf n l).flatten = l :=
  chunksOf_flatten_aux n l.length l (Nat.le_refl _)

theorem chunksOf_ne_nil_aux (n : Nat) :
    ∀ (len : Nat) (l : List Nat), l.length ≤ len →
      ∀ c ∈ chunksOf n l, c.isEmpty = false := by
  intro len
  induction len with
  | zero =>
    intro l hl
    have : l = [] := List.eq_nil_of_length_eq_zero (Nat.le_zero.mp hl)
    subst this; simp [chunksOf]
  | succ k ih =>
    intro l hl c hc
    cases l with
    | nil => simp [chunksOf] at hc
    | cons a as =>
      simp only [chunksOf, List.mem_cons] at hc
      rcases hc with h | h
      · subst h; simp
      · have hlt : (as.drop (n - 1)).length ≤ k := by
          simp only [List.length_drop]
          simp only [List.length_cons] at hl
          omega
        exact ih _ hlt c h

theorem chunksOf_ne_nil (n : Nat) (l : List Nat) :
    ∀ c ∈ chunksOf n l, c.isEmpty = false :=
  chunksOf_ne_nil_aux n l.length l (Nat.le_refl _)

theorem takeWhile_all_eq {α : Type} (p : α → Bool) :
    ∀ l : List α, (∀ c ∈ l, p c = true) → l.takeWhile p = l := by
  intro l h
  induction l with
  | nil => rfl
  | cons a as ih =>
    have ha := h a (by simp)
    simp only [List.takeWhile_cons, ha, if_true]
    rw [ih (fun c hc => h c (by simp [hc]))]

theorem md5_generator_chunksOf (n : Nat) (content : List Nat) :
    md5_generator (chunksOf n content) =
      (let tmp := b64encode (md5 content)
       if tmp.length = 24 ∧ (tmp.drop 22).take 2 = ['=', '='] then tmp.take 22 else tmp) := by
  unfold md5_generator
  have h1 : (chunksOf n content).takeWhile (fun c => !c.isEmpty) = chunksOf n content := by
    apply takeWhile_all_eq
    intro c hc
    simp [chunksOf_ne_nil n content c hc]
  rw [h1, chunksOf_flatten]

theorem b64encode_digest_shape (st : Nat × Nat × Nat × Nat) :
    (b64encode (md5DigestBytes st)).length = 24 ∧
      ((b64encode (md5DigestBytes st)).drop 22).take 2 = ['=', '='] := by
  obtain ⟨a, b, c, d⟩ := st
  simp only [md5DigestBytes, leBytes4, List.cons_append, List.nil_append, b64encode]
  constructor <;> rfl

theorem md5_digest_length (content : List Nat) : (md5 content).length = 16 := by
  unfold md5 md5DigestBytes leBytes4
  simp

theorem calculate_md5_canonical (content : List Nat) :
    calculate_md5 content = (b64encode (md5 content)).take 22 ∧
      b64encode (md5 content) = (b64encode (md5 content)).take 22 ++ ['=', '='] := by
  have hshape := b64encode_digest_shape (md5FinalState content)
  have hmd5 : md5 content = md5DigestBytes (md5FinalState content) := rfl
  rw [← hmd5] at hshape
  obtain ⟨hlen, hpad⟩ := hshape
  constructor
  · unfold calculate_md5
    rw [md5_generator_chunksOf]
    exact if_pos ⟨hlen, hpad⟩
  · have hdlen : ((b64encode (md5 content)).drop 22).length = 2 := by
      rw [List.length_drop, hlen]
    have hdrop : (b64encode (md5 content)).drop 22 = ['=', '='] := by
      rw [← hpad]
      exact (List.take_of_length_le (le_of_eq hdlen)).symm
    calc b64encode (md5 content)
        = (b64encode (md5 content)).take 22 ++ (b64encode (md5 content)).drop 22 :=
          (List.take_append_drop 22 _).symm
      _ = (b64encode (md5 content)).take 22 ++ ['=', '='] := by rw [hdrop]

/-- C7: for every file content, the buffered and the streaming
fingerprint computations return identical output, namely the standard
base64 encoding of the 16-byte MD5 digest with its trailing
two-character padding removed, always yielding exactly 22 characters. -/
theorem fingerprint_canonical_equiv (content : List Nat) :
    calculate_md5 content = async_calculate_md5 content ∧
      calculate_md5 content = specCanonicalFingerprint content ∧
      b64encode (md5 content) = specCanonicalFingerprint content ++ ['=', '='] ∧
      (md5 content).length = 16 ∧
      (calculate_md5 content).length = 22 := by
  obtain ⟨hc, hsplit⟩ := calculate_md5_canonical content
  have hlen24 : (b64encode (md5 content)).length = 24 :=
    (b64encode_digest_shape (md5FinalState content)).1
  have hspec : specCanonicalFingerprint content = (b64encode (md5 content)).take 22 := by
    unfold specCanonicalFingerprint
    rw [List.dropLast_eq_take, List.dropLast_eq_take, List.length_take, hlen24,
      List.take_take]
    norm_num
  have ha : async_calculate_md5 content = (b64encode (md5 content)).take 22 := by
    unfold async_calculate_md5
    rw [md5_generator_chunksOf]
    have hpad := (b64encode_digest_shape (md5FinalState content)).2
    exact if_pos ⟨hlen24, hpad⟩
  refine ⟨by rw [hc, ha], by rw [hc, hspec], by rw [hspec]; exact hsplit, md5_digest_length content, ?_⟩
  rw [hc, List.length_take, hlen24]
  norm_num

/-! ### Sidecar index (src/py/medorg/common/bkp_file.py and
src/py/medorg/bkp_p/async_bkp_xml.py)

The in-memory document root of an AsyncBkpXml is the ordered list of
its fr elements; an fr element is identified with its typed record
(every element written by the source carries the four required
attributes, and documents that fail schema validation are replaced by
an empty root before they reach this layer, so the attribute-string
encoding round-trips losslessly and is elided).  The filesystem is an
oracle supplying content fingerprints; the returned Bool of visit_file
records whether the fingerprinter was invoked. -/

abbrev VolumeId := String

/-- Python pathlib path: an optional opaque absolute root (the walk's
source root resolves everything under it) plus relative components. -/
structure PyPath where
  base : Option String
  rel : List String
deriving DecidableEq, Repr

def PyPath.is_absolute (p : PyPath) : Bool := p.base.isSome

/-- Append one path component (the / operator of pathlib). -/
def PyPath.child (p : PyPath) (n : String) : PyPath := { p with rel := p.rel ++ [n] }

def PyPath.parent (p : PyPath) : PyPath := { p with rel := p.rel.dropLast }

def PyPath.name (p : PyPath) : String := (p.rel.getLast?).getD ""

/-- Path.relative_to: succeeds when the other path is an ancestor,
returning the remaining components; raises ValueError otherwise. -/
def PyPath.relative_to (p : PyPath) (dir : PyPath) : Option (List String) :=
  if p.base = dir.base ∧ dir.rel.isPrefixOf p.rel then
    some (p.rel.drop dir.rel.length)
  else none

/-- Sidecar record for one file (common/bkp_file.BkpFile). -/
structure BkpFile where
  name : String
  file_path : PyPath := ⟨none, []⟩
  size : Option Nat := none
  mtime : Option Int := none
  md5 : String := ""
  bkp_dests : List VolumeId := []
deriving DecidableEq, Repr

/-- Current on-disk stat of a file (the fields the source consults). -/
structure StatResult where
  st_size : Nat
  st_mtime : Int
deriving DecidableEq, Repr

/-- Filesystem oracle: content fingerprint of the file at a path
(the value async_calculate_md5 returns for its bytes). -/
structure FsOracle where
  contentMd5 : PyPath → String

/-- Lookup of an fr element by fname (AsyncBkpXml._lkup_elem). -/
def lkupBkp (root : List BkpFile) (key : String) : Option BkpFile :=
  root.find? (fun f => f.name == key)

/-- AsyncBkpXml.__getitem__: the stored record (BkpFile.from_file_elem
rebuilds name and file_path from the directory and key), or a
zero-valued record when the file is untracked. -/
def bkpXmlGet (dir : PyPath) (root : List BkpFile) (key : String) : BkpFile :=
  match lkupBkp root key with
  | some f => { f with name := key, file_path := dir.child key }
  | none => { name := key, file_path := dir.child key }

/-- Replace the first element matching the key, else append at the end. -/
def bkpXmlSetRec : List BkpFile → String → BkpFile → List BkpFile
  | [], _, v => [v]
  | f :: fs, key, v =>
      if f.name == key then v :: fs else f :: bkpXmlSetRec fs key v

/-- AsyncBkpXml.__setitem__ via BkpFile.update_file_elem: writes the
record into the root; a record with an empty md5 has it computed from
the file's bytes first. -/
def bkpXmlSet (fs : FsOracle) (root : List BkpFile) (key : String) (v : BkpFile) :
    List BkpFile :=
  let v2 := if v.md5 = "" then { v with md5 := fs.contentMd5 v.file_path } else v
  bkpXmlSetRec root key v2

/-- AsyncBkpXml._same_stats. -/
def same_stats (cand : BkpFile) (sr : StatResult) : Bool :=
  cand.mtime == some sr.st_mtime && cand.size == some sr.st_size

/-- AsyncBkpXml.visit_file: fetch the record for the file; when it has
no fingerprint or its recorded size/mtime differ from the current
stat, recompute the fingerprint and overwrite size/mtime/fingerprint;
otherwise change nothing.  The Bool records whether the fingerprinter
ran. -/
def visit_file (fs : FsOracle) (dir : PyPath) (root : List BkpFile) (entry : PyPath)
    (sr : StatResult) : List BkpFile × Bool :=
  if (bkpXmlGet dir root entry.name).md5 = "" ∨
      same_stats (bkpXmlGet dir root entry.name) sr = false then
    (bkpXmlSet fs root entry.name
      { bkpXmlGet dir root entry.name with
          size := some sr.st_size, mtime := some sr.st_mtime,
          md5 := fs.contentMd5 entry }, true)
  else (root, false)

/-- C6: when the stored record has a non-empty fingerprint and its
recorded size and mtime equal the current stat, visit_file leaves the
root unchanged and never invokes the fingerprinter; when the
fingerprint is empty or either stat field differs, it recomputes the
fingerprint and overwrites size, mtime and fingerprint (all other
fields kept). -/
theorem visit_file_staleness (fs : FsOracle) (dir : PyPath) (root : List BkpFile)
    (entry : PyPath) (sr : StatResult) :
    ((bkpXmlGet dir root entry.name).md5 ≠ "" ∧
        same_stats (bkpXmlGet dir root entry.name) sr = true →
      visit_file fs dir root entry sr = (root, false)) ∧
    ((bkpXmlGet dir root entry.name).md5 = "" ∨
        same_stats (bkpXmlGet dir root entry.name) sr = false →
      visit_file fs dir root entry sr =
        (bkpXmlSet fs root entry.name
          { bkpXmlGet dir root entry.name with
              size := some sr.st_size, mtime := some sr.st_mtime,
              md5 := fs.contentMd5 entry }, true)) := by
  constructor
  · rintro ⟨h1, h2⟩
    unfold visit_file
    rw [if_neg]
    push_neg
    exact ⟨h1, by simp [h2]⟩
  · intro h
    unfold visit_file
    rw [if_pos h]

/-- Concrete filesystem oracle for witnesses. -/
def fsOracleW : FsOracle := ⟨fun _ => "WWWWWWWWWWWWWWWWWWWWWW"⟩

/-- Concrete directory path for witnesses. -/
def dirW : PyPath := ⟨some "src", ["sub"]⟩

/-- Concrete sidecar root for witnesses. -/
def rootW : List BkpFile :=
  [{ name := "a.txt", file_path := dirW.child "a.txt", size := some 5,
     mtime := some 7, md5 := "m", bkp_dests := ["d1"] }]

/-- Witness for C6: on a record with matching stats the fast path fires,
and on a stale mtime the record is rewritten with a fresh fingerprint. -/
theorem visit_file_staleness_witness :
    visit_file fsOracleW dirW rootW (dirW.child "a.txt") ⟨5, 7⟩ = (rootW, false) ∧
      visit_file fsOracleW dirW rootW (dirW.child "a.txt") ⟨5, 8⟩ =
        ([{ name := "a.txt", file_path := dirW.child "a.txt", size := some 5,
            mtime := some 8, md5 := "WWWWWWWWWWWWWWWWWWWWWW",
            bkp_dests := ["d1"] }], true) := by
  constructor
  · exact (visit_file_staleness fsOracleW dirW rootW (dirW.child "a.txt") ⟨5, 7⟩).1
      ⟨by decide, by decide⟩
  · have := (visit_file_staleness fsOracleW dirW rootW (dirW.child "a.txt") ⟨5, 8⟩).2
      (Or.inr (by decide))
    rw [this]
    rfl

/-! ### Directory walk over one directory
(BackupXmlWalker._visit_files_and_dirs and AsyncBkpXml.commit)

The state of one directory: its regular non-reserved disk entries and
the persisted sidecar document (present iff the well-known sidecar
file exists; unparsable content arrives here as an empty root).  The
source queues the per-file visit tasks and the unlink of a zero-file
directory's document, runs the prune synchronously, then awaits the
queued tasks, and finally commit serializes the in-memory root back
to the document; visit_all inside commit is a no-op because every
stored element carries all four required attributes. -/

structure DirProcState where
  disk : List (String × StatResult)
  doc : Option (List BkpFile)
deriving Repr

/-- AsyncBkpXml.init_structs: parse the persisted document or start
with an empty root. -/
def init_structs (s : DirProcState) : List BkpFile := (s.doc).getD []

/-- AsyncBkpXml._remove_if_not_in_set. -/
def remove_if_not_in_set (root : List BkpFile) (names : List String) : List BkpFile :=
  root.filter (fun f => names.contains f.name)

/-- Outcome of processing one directory in the walk. -/
structure DirOutcome where
  rootAfter : List BkpFile
  docAfterPrune : Option (List BkpFile)
  docAfterCommit : Option (List BkpFile)
deriving Repr

/-- One directory's processing during the walk: load the root, queue
visits, unlink the document when the directory has zero files and a
document exists, prune the root to the observed file set, run the
queued visits, then commit the root back to the document
(BackupXmlWalker._walk_directory body for a single directory, file
part only). -/
def process_directory (fs : FsOracle) (dir : PyPath) (s : DirProcState) : DirOutcome :=
  let root0 := init_structs s
  let names := s.disk.map Prod.fst
  let docAfterPrune := if s.disk.length = 0 ∧ s.doc.isSome then none else s.doc
  let root1 := remove_if_not_in_set root0 names
  let root2 := s.disk.foldl
    (fun r nf => (visit_file fs dir r (dir.child nf.1) nf.2).1) root1
  ⟨root2, docAfterPrune, some root2⟩

/-- C3 exhibit: a directory with zero tracked files whose sidecar
document previously existed.  The prune step unlinks the persisted
document, but the unconditional commit then writes an empty document
back, so a written-out empty document is left at the sidecar filename
rather than none at all. -/
theorem empty_dir_commit_rewrites_doc :
    (process_directory fsOracleW dirW ⟨[], some rootW⟩).docAfterPrune = none ∧
      (process_directory fsOracleW dirW ⟨[], some rootW⟩).docAfterCommit = some [] ∧
      (process_directory fsOracleW dirW ⟨[], some rootW⟩).docAfterCommit ≠ none := by
  refine ⟨rfl, rfl, ?_⟩
  intro h
  simp [process_directory] at h

/-! ### Central index (src/py/medorg/common/types.py and
src/py/medorg/database/bdsa.py)

A BackupFile row of the backup_files table.  The schema declares
filename unique by itself (types.py line 38); src_path is the str of
the resolved source root, kept opaque; timestamp is the datetime
column, identified with its epoch seconds; destination tags are kept
as their unique name strings (the BackupDest table and the
association rows are determined by them).  The table state is the
list of rows in insertion (rowid) order; queries scan it in that
order and ORDER BY sorts it stably, matching the observed SQLite
behaviour the repository's tests rely on. -/

structure BackupFileRow where
  filename : List String
  src_path : String
  size : Option Nat := none
  timestamp : Option Int := none
  md5_hash : String := ""
  visited : Nat := 0
  backup_dest : List VolumeId := []
deriving DecidableEq, Repr

abbrev DbState := List BackupFileRow

/-- Map the first row with the given filename through f. -/
def updFirstByFilename (k : List String) (f : BackupFileRow → BackupFileRow) :
    DbState → DbState
  | [] => []
  | r :: rs =>
      if r.filename == k then f r :: rs else r :: updFirstByFilename k f rs

/-- Bdsa.add_tag_obj_to_backup_file: append the tag unless a tag of the
same name is already present, marking the row visited when it is
appended. -/
def add_tag_obj_to_backup_file (new_tag : VolumeId) (backup_file : BackupFileRow) :
    BackupFileRow :=
  if new_tag ∈ backup_file.backup_dest then backup_file
  else { backup_file with
           backup_dest := backup_file.backup_dest ++ [new_tag], visited := 1 }

/-- Bdsa.add_bkp_dests_to_backup_file: add each destination tag in turn. -/
def add_bkp_dests_to_backup_file (dest_names : List VolumeId)
    (backup_file : BackupFileRow) : BackupFileRow :=
  dest_names.foldl (fun b d => add_tag_obj_to_backup_file d b) backup_file

/-- Truthiness of the BkpFile fields checked by update_file:
an empty md5 or a missing/zero mtime raises ValueError. -/
def bkpFileFalsy (f : BkpFile) : Bool :=
  f.md5 == "" || f.mtime == none || f.mtime == some 0

/-- Outcome of Bdsa.update_file. -/
structure UpdateResult where
  db : DbState
  key : Option (List String)
  raised : Bool
deriving Repr

/-- Relative filename under which update_file keys a file: an absolute
path is taken relative to the source directory (ValueError when it is
not under it), a relative one is used as given. -/
def update_file_key (src_file : BkpFile) (src_dir : String) : Option (List String) :=
  if src_file.file_path.is_absolute then
    src_file.file_path.relative_to ⟨some src_dir, []⟩
  else some src_file.file_path.rel

/-- Replacement of a row's destination tags by the fetched tag list
(the backup_dest clear-and-assign of update_file). -/
def replaceTags (fetched : List VolumeId) (r : BackupFileRow) : BackupFileRow :=
  { r with backup_dest := fetched }

/-- Field overwrite an existing row receives from a successful
update_file: destination tags, size, md5, visited reset, timestamp and
src_path, all taken from the visited file. -/
def overwriteFrom (src_file : BkpFile) (src_dir : String) (r : BackupFileRow) :
    BackupFileRow :=
  { r with backup_dest := src_file.bkp_dests, size := src_file.size,
           md5_hash := src_file.md5, visited := 0, timestamp := src_file.mtime,
           src_path := src_dir }

/-- Bdsa.update_file: compute the path of the file relative to the
source directory, look up the row by filename alone, replace its
destination tags, validate md5/mtime, overwrite
size/md5/visited/timestamp/src_path, and append the row when it was
new.  A ValueError before the append leaves the table unchanged; in
the existing-row case the destination tags have already been
replaced when the validation raises. -/
def update_file (db : DbState) (src_file : BkpFile) (src_dir : String) : UpdateResult :=
  match update_file_key src_file src_dir with
  | none => ⟨db, none, true⟩
  | some k =>
    match db.find? (fun r => r.filename == k) with
    | none =>
        if bkpFileFalsy src_file then ⟨db, none, true⟩
        else
          ⟨db ++ [{ filename := k, src_path := src_dir, size := src_file.size,
                    timestamp := src_file.mtime, md5_hash := src_file.md5,
                    visited := 0, backup_dest := src_file.bkp_dests }],
            some k, false⟩
    | some _ =>
        if bkpFileFalsy src_file then
          ⟨updFirstByFilename k (replaceTags src_file.bkp_dests) db, none, true⟩
        else
          ⟨updFirstByFilename k (overwriteFrom src_file src_dir) db, some k, false⟩

/-- One step of the synchronizer's per-file visitor
(runners.create_update_db_file_entries my_walker): update the row from
the sidecar record and mark it visited; the md5/timestamp re-checks of
my_walker cannot fire after a successful update_file. -/
def sync_one (db : DbState) (src_dir : String) (f : BkpFile) : DbState × Bool :=
  let u := update_file db f src_dir
  match u.key with
  | some k =>
      if u.raised then (u.db, true)
      else (updFirstByFilename k (fun r => { r with visited := 1 }) u.db, false)
  | none => (u.db, true)

/-- Fold the synchronizer's visitor over the walked files; a raise
aborts the walk (remaining files are not visited). -/
def create_update_db_file_entries (db : DbState) (src_dir : String)
    (files : List BkpFile) : DbState × Bool :=
  files.foldl (fun acc f => if acc.2 then acc else sync_one acc.1 src_dir f)
    (db, false)

/-- Bdsa.delete_unvisited_files run through AsyncSessionWrapper.filter
(runners.remove_unvisited_files_from_database): every row has its
visited flag reset; rows that were not visited are deleted. -/
def remove_unvisited_files_from_database (db : DbState) : DbState :=
  (db.filter (fun r => !(r.visited == 0))).map (fun r => { r with visited := 0 })

/-- Sort key of the ORDER BY desc(size) query: NULL sizes sort below
every integer. -/
def sizeKey (r : BackupFileRow) : Nat :=
  match r.size with
  | none => 0
  | some n => n + 1

/-- Stable insertion into a descending-by-size list: the inserted row
goes before the first row whose key is not larger, so rows of equal
size keep their original relative order under the foldr below. -/
def insertByDesc (x : BackupFileRow) : List BackupFileRow → List BackupFileRow
  | [] => [x]
  | y :: ys => if sizeKey x < sizeKey y then y :: insertByDesc x ys else x :: y :: ys

/-- Bdsa.for_backup: the rows whose destination tags lack the given
name, ordered by descending size (stable sort over the table scanned
in insertion order). -/
def for_backup (db : DbState) (dest_name : VolumeId) : List BackupFileRow :=
  (db.filter (fun r => !(r.backup_dest.contains dest_name))).foldr insertByDesc []

/-- Bdsa._discover_one_file: tag every row whose fingerprint matches. -/
def _discover_one_file (db : DbState) (md5v : String) (tag : VolumeId) : DbState :=
  db.map (fun r =>
    if r.md5_hash == md5v then add_tag_obj_to_backup_file tag r else r)

/-- Bdsa.discovery: tag the rows matching each observed file's
fingerprint with the observed destination. -/
def discovery (db : DbState) (files : List BkpFile) (dest : VolumeId) : DbState :=
  files.foldl (fun d f => _discover_one_file d f.md5 dest) db

/-! Lemmas about updFirstByFilename. -/

theorem updFirstByFilename_nil (k : List String) (f : BackupFileRow → BackupFileRow) :
    updFirstByFilename k f [] = [] := rfl

theorem updFirstByFilename_cons (k : List String) (f : BackupFileRow → BackupFileRow)
    (r : BackupFileRow) (rs : DbState) :
    updFirstByFilename k f (r :: rs) =
      if r.filename == k then f r :: rs else r :: updFirstByFilename k f rs := rfl

theorem updFirstByFilename_length (k : List String) (f : BackupFileRow → BackupFileRow)
    (db : DbState) : (updFirstByFilename k f db).length = db.length := by
  induction db with
  | nil => rfl
  | cons r rs ih =>
    rw [updFirstByFilename_cons]
    split <;> simp [ih]

theorem updFirstByFilename_map_filename (k : List String)
    (f : BackupFileRow → BackupFileRow) (hf : ∀ r, (f r).filename = r.filename)
    (db : DbState) :
    (updFirstByFilename k f db).map (·.filename) = db.map (·.filename) := by
  induction db with
  | nil => rfl
  | cons r rs ih =>
    rw [updFirstByFilename_cons]
    split <;> simp [ih, hf]

theorem updFirstByFilename_comp (k : List String)
    (f g : BackupFileRow → BackupFileRow) (hg : ∀ r, (g r).filename = r.filename)
    (db : DbState) :
    updFirstByFilename k f (updFirstByFilename k g db) =
      updFirstByFilename k (fun r => f (g r)) db := by
  induction db with
  | nil => rfl
  | cons r rs ih =>
    rw [updFirstByFilename_cons, updFirstByFilename_cons]
    by_cases h : (r.filename == k) = true
    · rw [if_pos h, if_pos h, updFirstByFilename_cons,
        if_pos (by rw [hg r]; exact h)]
    · rw [if_neg h, if_neg h, updFirstByFilename_cons, if_neg h, ih]

theorem updFirstByFilename_mem_prop (k : List String)
    (f : BackupFileRow → BackupFileRow) (db : DbState) (P : BackupFileRow → Prop)
    (hs : ∀ r, r.filename = k → P (f r)) (h : ∃ r ∈ db, r.filename = k) :
    ∃ r ∈ updFirstByFilename k f db, P r := by
  induction db with
  | nil => simp at h
  | cons r rs ih =>
    rw [updFirstByFilename_cons]
    by_cases hr : (r.filename == k) = true
    · rw [if_pos hr]
      exact ⟨f r, by simp, hs r (by simpa using hr)⟩
    · rw [if_neg hr]
      obtain ⟨r0, hr0, hk0⟩ := h
      rcases List.mem_cons.mp hr0 with h1 | h1
      · subst h1; simp [hk0] at hr
      · obtain ⟨r2, hr2, hP⟩ := ih ⟨r0, h1, hk0⟩
        exact ⟨r2, List.mem_cons_of_mem _ hr2, hP⟩

theorem updFirstByFilename_append_fresh (k : List String)
    (f : BackupFileRow → BackupFileRow) (db : DbState) (x : BackupFileRow)
    (hdb : ∀ r ∈ db, r.filename ≠ k) (hx : x.filename = k) :
    updFirstByFilename k f (db ++ [x]) = db ++ [f x] := by
  induction db with
  | nil =>
    simp only [List.nil_append]
    rw [updFirstByFilename_cons, if_pos (by simp [hx])]
  | cons r rs ih =>
    rw [List.cons_append, updFirstByFilename_cons,
      if_neg (by simpa using hdb r (by simp))]
    simp only [List.cons_append, List.cons.injEq, true_and]
    exact ih (fun r hr => hdb r (by simp [hr]))

/-! C2: the counterexample scenario.  Two registered sources, both
containing a file with relative path f; synchronizing one after the
other yields a single row (the second sync finds the first source's
row by filename and redirects it), not two distinct rows. -/

/-- File f as walked from source root s1. -/
def fileS1 : BkpFile :=
  { name := "f", file_path := ⟨some "s1", ["f"]⟩, size := some 1,
    mtime := some 5, md5 := "m1" }

/-- File f as walked from source root s2. -/
def fileS2 : BkpFile :=
  { name := "f", file_path := ⟨some "s2", ["f"]⟩, size := some 2,
    mtime := some 6, md5 := "m2" }

/-- C2 counterexample: synchronizing two sources that contain the same
relative path yields one row, not two; the single surviving row
belongs to the last-synchronized source. -/
theorem central_index_pair_key_counterexample :
    (sync_one (sync_one [] "s1" fileS1).1 "s2" fileS2).1 =
      [{ filename := ["f"], src_path := "s2", size := some 2, timestamp := some 6,
         md5_hash := "m2", visited := 1, backup_dest := [] }] ∧
      ¬(sync_one (sync_one [] "s1" fileS1).1 "s2" fileS2).1.length = 2 := by
  have h1 : (sync_one (sync_one [] "s1" fileS1).1 "s2" fileS2).1 =
      [{ filename := ["f"], src_path := "s2", size := some 2, timestamp := some 6,
         md5_hash := "m2", visited := 1, backup_dest := [] }] := rfl
  refine ⟨h1, ?_⟩
  rw [h1]
  simp

/-- C2 as amended: central index rows are keyed by relative filename
alone.  When a row with the file's relative filename already exists
(no matter which source root it belongs to), update_file creates no
second row and redirects the existing row's src_path to the new
source; only when no row carries the filename is a row appended; and
the filename-uniqueness invariant is preserved. -/
theorem overwriteFrom_filename (src_file : BkpFile) (src_dir : String)
    (r : BackupFileRow) : (overwriteFrom src_file src_dir r).filename = r.filename :=
  rfl

theorem update_file_keyed_by_filename (db : DbState) (src_file : BkpFile)
    (src_dir : String) (k : List String)
    (hk : update_file_key src_file src_dir = some k)
    (hval : bkpFileFalsy src_file = false) :
    ((∃ r ∈ db, r.filename = k) →
      (update_file db src_file src_dir).db.length = db.length ∧
      ∃ r ∈ (update_file db src_file src_dir).db,
        r.filename = k ∧ r.src_path = src_dir) ∧
    ((∀ r ∈ db, r.filename ≠ k) →
      (update_file db src_file src_dir).db.length = db.length + 1) ∧
    ((db.map (·.filename)).Nodup →
      ((update_file db src_file src_dir).db.map (·.filename)).Nodup) := by
  unfold update_file
  rw [hk]
  simp only
  refine ⟨?_, ?_, ?_⟩
  · intro hex
    have hfind : (db.find? (fun r => r.filename == k)).isSome := by
      rw [List.find?_isSome]
      obtain ⟨r, hr, he⟩ := hex
      exact ⟨r, hr, by simp [he]⟩
    obtain ⟨r0, hr0⟩ := Option.isSome_iff_exists.mp hfind
    rw [hr0]
    simp only [hval, Bool.false_eq_true, if_false]
    constructor
    · exact updFirstByFilename_length _ _ _
    · exact updFirstByFilename_mem_prop _ _ _ _ (fun r hrk => ⟨hrk, rfl⟩) hex
  · intro hnone
    have hfind : db.find? (fun r => r.filename == k) = none := by
      rw [List.find?_eq_none]
      intro r hr
      simp [hnone r hr]
    rw [hfind]
    simp only [hval, Bool.false_eq_true, if_false]
    simp
  · intro hnd
    cases hfind : db.find? (fun r => r.filename == k) with
    | none =>
      simp only [hval, Bool.false_eq_true, if_false]
      have hnotin : ∀ r ∈ db, r.filename ≠ k := by
        intro r hr he
        have := List.find?_eq_none.mp hfind r hr
        simp [he] at this
      simp only [List.map_append, List.map_cons, List.map_nil]
      rw [List.nodup_append]
      refine ⟨hnd, List.nodup_singleton _, ?_⟩
      intro a ha
      simp only [List.mem_map] at ha
      obtain ⟨r, hr, he⟩ := ha
      simp only [List.mem_singleton]
      intro hak
      exact hnotin r hr (by rw [← he] at hak; exact hak)
    | some r0 =>
      simp only [hval, Bool.false_eq_true, if_false]
      rw [updFirstByFilename_map_filename _ _ (overwriteFrom_filename src_file src_dir)]
      exact hnd

/-- Witness for the amended C2: a concrete table with the row of the
first source; update_file for the second source keeps one row and
redirects it, rather than creating a second row. -/
theorem update_file_keyed_by_filename_witness :
    (update_file [{ filename := ["f"], src_path := "s1", size := some 1,
                    timestamp := some 5, md5_hash := "m1", visited := 0,
                    backup_dest := [] }] fileS2 "s2").db.length = 1 ∧
      ∃ r ∈ (update_file [{ filename := ["f"], src_path := "s1", size := some 1,
                            timestamp := some 5, md5_hash := "m1", visited := 0,
                            backup_dest := [] }] fileS2 "s2").db,
        r.filename = ["f"] ∧ r.src_path = "s2" := by
  have h := (update_file_keyed_by_filename
    [{ filename := ["f"], src_path := "s1", size := some 1, timestamp := some 5,
       md5_hash := "m1", visited := 0, backup_dest := [] }]
    fileS2 "s2" ["f"] (by decide) (by decide)).1
    ⟨{ filename := ["f"], src_path := "s1", size := some 1, timestamp := some 5,
       md5_hash := "m1", visited := 0, backup_dest := [] }, by simp, rfl⟩
  exact h

/-! C10: destination tagging is idempotent and duplicate-free. -/

theorem add_tag_md5 (t : VolumeId) (r : BackupFileRow) :
    (add_tag_obj_to_backup_file t r).md5_hash = r.md5_hash := by
  unfold add_tag_obj_to_backup_file
  split <;> rfl

theorem add_tag_mem_mono (t d : VolumeId) (r : BackupFileRow)
    (h : d ∈ r.backup_dest) :
    d ∈ (add_tag_obj_to_backup_file t r).backup_dest := by
  unfold add_tag_obj_to_backup_file
  split
  · exact h
  · exact List.mem_append_left _ h

theorem add_tag_self_mem (t : VolumeId) (r : BackupFileRow) :
    t ∈ (add_tag_obj_to_backup_file t r).backup_dest := by
  unfold add_tag_obj_to_backup_file
  split
  · assumption
  · exact List.mem_append_right _ (by simp)

theorem add_tag_id (t : VolumeId) (r : BackupFileRow) (h : t ∈ r.backup_dest) :
    add_tag_obj_to_backup_file t r = r := by
  unfold add_tag_obj_to_backup_file
  rw [if_pos h]

theorem add_tag_nodup (t : VolumeId) (r : BackupFileRow)
    (h : r.backup_dest.Nodup) :
    (add_tag_obj_to_backup_file t r).backup_dest.Nodup := by
  unfold add_tag_obj_to_backup_file
  split
  · exact h
  · simp only
    rw [List.nodup_append]
    exact ⟨h, List.nodup_singleton _, by simpa using fun hx => by simp_all⟩

/-- Per-row effect of discovery over a file list: tag the row once for
each observed file whose fingerprint matches. -/
def discoverRowF (files : List BkpFile) (dest : VolumeId) (r : BackupFileRow) :
    BackupFileRow :=
  files.foldl
    (fun r f => if r.md5_hash == f.md5 then add_tag_obj_to_backup_file dest r else r) r

theorem discovery_eq_map (db : DbState) (files : List BkpFile) (dest : VolumeId) :
    discovery db files dest = db.map (discoverRowF files dest) := by
  induction files generalizing db with
  | nil =>
    have h2 : db.map (discoverRowF [] dest) = db.map id :=
      List.map_congr_left (fun r _ => rfl)
    rw [h2, List.map_id]
    rfl
  | cons f fs ih =>
    have h1 : discovery db (f :: fs) dest =
        discovery (_discover_one_file db f.md5 dest) fs dest := rfl
    rw [h1, ih]
    unfold _discover_one_file
    rw [List.map_map]
    rfl

theorem discoverRowF_md5 (files : List BkpFile) (dest : VolumeId)
    (r : BackupFileRow) : (discoverRowF files dest r).md5_hash = r.md5_hash := by
  induction files generalizing r with
  | nil => rfl
  | cons f fs ih =>
    have h1 : discoverRowF (f :: fs) dest r =
        discoverRowF fs dest
          (if r.md5_hash == f.md5 then add_tag_obj_to_backup_file dest r else r) := rfl
    rw [h1, ih]
    split <;> simp [add_tag_md5]

theorem discoverRowF_mem_mono (files : List BkpFile) (dest d : VolumeId)
    (r : BackupFileRow) (h : d ∈ r.backup_dest) :
    d ∈ (discoverRowF files dest r).backup_dest := by
  induction files generalizing r with
  | nil => exact h
  | cons f fs ih =>
    have h1 : discoverRowF (f :: fs) dest r =
        discoverRowF fs dest
          (if r.md5_hash == f.md5 then add_tag_obj_to_backup_file dest r else r) := rfl
    rw [h1]
    apply ih
    split
    · exact add_tag_mem_mono _ _ _ h
    · exact h

theorem discoverRowF_tags (files : List BkpFile) (dest : VolumeId)
    (r : BackupFileRow) :
    ∀ f ∈ files, (discoverRowF files dest r).md5_hash = f.md5 →
      dest ∈ (discoverRowF files dest r).backup_dest := by
  induction files generalizing r with
  | nil => simp
  | cons g gs ih =>
    intro f hf hmd5
    have h1 : discoverRowF (g :: gs) dest r =
        discoverRowF gs dest
          (if r.md5_hash == g.md5 then add_tag_obj_to_backup_file dest r else r) := rfl
    rcases List.mem_cons.mp hf with h | h
    · subst h
      rw [h1] at hmd5 ⊢
      rw [discoverRowF_md5] at hmd5
      have hr : r.md5_hash = f.md5 := by
        by_cases hc : (r.md5_hash == f.md5) = true
        · simpa using hc
        · rw [if_neg hc] at hmd5
          exact hmd5
      have hstep : (if (r.md5_hash == f.md5) = true then
          add_tag_obj_to_backup_file dest r else r) =
            add_tag_obj_to_backup_file dest r := by
        rw [if_pos (by simp [hr])]
      rw [hstep]
      exact discoverRowF_mem_mono _ _ _ _ (add_tag_self_mem _ _)
    · rw [h1] at hmd5 ⊢
      exact ih _ f h hmd5

theorem discoverRowF_fix (files : List BkpFile) (dest : VolumeId)
    (r : BackupFileRow)
    (h : ∀ f ∈ files, r.md5_hash = f.md5 → dest ∈ r.backup_dest) :
    discoverRowF files dest r = r := by
  induction files generalizing r with
  | nil => rfl
  | cons g gs ih =>
    have h1 : discoverRowF (g :: gs) dest r =
        discoverRowF gs dest
          (if r.md5_hash == g.md5 then add_tag_obj_to_backup_file dest r else r) := rfl
    rw [h1]
    have hstep : (if r.md5_hash == g.md5 then add_tag_obj_to_backup_file dest r else r) = r := by
      split
      · exact add_tag_id _ _ (h g (by simp) (by simp_all))
      · rfl
    rw [hstep]
    exact ih r (fun f hf => h f (by simp [hf]))

theorem discoverRowF_nodup (files : List BkpFile) (dest : VolumeId)
    (r : BackupFileRow) (h : r.backup_dest.Nodup) :
    (discoverRowF files dest r).backup_dest.Nodup := by
  induction files generalizing r with
  | nil => exact h
  | cons g gs ih =>
    have h1 : discoverRowF (g :: gs) dest r =
        discoverRowF gs dest
          (if r.md5_hash == g.md5 then add_tag_obj_to_backup_file dest r else r) := rfl
    rw [h1]
    apply ih
    split
    · exact add_tag_nodup _ _ h
    · exact h

/-- C10: adding a destination tag an entry already carries is a
complete no-op, running discovery twice with the same observations
equals running it once, and destination tag lists stay duplicate-free
under discovery. -/
theorem destination_tagging_idempotent :
    (∀ (backup_file : BackupFileRow) (dest : VolumeId),
        dest ∈ backup_file.backup_dest →
          add_tag_obj_to_backup_file dest backup_file = backup_file) ∧
    (∀ (db : DbState) (files : List BkpFile) (dest : VolumeId),
        discovery (discovery db files dest) files dest = discovery db files dest) ∧
    (∀ (db : DbState) (files : List BkpFile) (dest : VolumeId),
        (∀ r ∈ db, r.backup_dest.Nodup) →
        ∀ r ∈ discovery db files dest, r.backup_dest.Nodup) := by
  refine ⟨fun r dest h => add_tag_id dest r h, ?_, ?_⟩
  · intro db files dest
    rw [discovery_eq_map, discovery_eq_map, List.map_map]
    apply List.map_congr_left
    intro r _
    show discoverRowF files dest (discoverRowF files dest r) = discoverRowF files dest r
    apply discoverRowF_fix
    intro f hf hmd5
    exact discoverRowF_tags files dest r f hf hmd5
  · intro db files dest h r hr
    rw [discovery_eq_map] at hr
    obtain ⟨r0, hr0, he⟩ := List.mem_map.mp hr
    subst he
    exact discoverRowF_nodup files dest r0 (h r0 hr0)

/-- Witness for C10: a concrete row already tagged with d1 is returned
unchanged by a repeated tag add. -/
theorem destination_tagging_idempotent_witness :
    add_tag_obj_to_backup_file "d1"
        { filename := ["f"], src_path := "s", backup_dest := ["d1", "d2"] } =
      { filename := ["f"], src_path := "s", backup_dest := ["d1", "d2"] } :=
  destination_tagging_idempotent.1 _ "d1" (by simp)

/-! C9: backup selection ordering. -/

theorem insertByDesc_cons (x y : BackupFileRow) (ys : List BackupFileRow) :
    insertByDesc x (y :: ys) =
      if sizeKey x < sizeKey y then y :: insertByDesc x ys else x :: y :: ys := rfl

theorem insertByDesc_perm (x : BackupFileRow) (l : List BackupFileRow) :
    List.Perm (insertByDesc x l) (x :: l) := by
  induction l with
  | nil => rfl
  | cons y ys ih =>
    rw [insertByDesc_cons]
    split
    · exact (ih.cons y).trans (List.Perm.swap x y ys)
    · rfl

theorem for_backup_perm (db : DbState) (dest_name : VolumeId) :
    List.Perm (for_backup db dest_name)
      (db.filter (fun r => !(r.backup_dest.contains dest_name))) := by
  unfold for_backup
  generalize db.filter (fun r => !(r.backup_dest.contains dest_name)) = l
  induction l with
  | nil => rfl
  | cons x xs ih =>
    simp only [List.foldr_cons]
    exact (insertByDesc_perm x _).trans (ih.cons x)

theorem insertByDesc_pairwise (x : BackupFileRow) (l : List BackupFileRow)
    (h : l.Pairwise (fun a b => sizeKey b ≤ sizeKey a)) :
    (insertByDesc x l).Pairwise (fun a b => sizeKey b ≤ sizeKey a) := by
  induction l with
  | nil => simp [insertByDesc]
  | cons y ys ih =>
    rw [insertByDesc_cons]
    rw [List.pairwise_cons] at h
    split
    · rw [List.pairwise_cons]
      constructor
      · intro z hz
        rcases List.mem_cons.mp ((insertByDesc_perm x ys).mem_iff.mp hz) with h1 | h1
        · subst h1; omega
        · exact h.1 z h1
      · exact ih h.2
    · rw [List.pairwise_cons]
      constructor
      · intro z hz
        rcases List.mem_cons.mp hz with h1 | h1
        · subst h1; omega
        · exact le_trans (h.1 z h1) (by omega)
      · rw [List.pairwise_cons]
        exact h

theorem for_backup_sorted (db : DbState) (dest_name : VolumeId) :
    (for_backup db dest_name).Pairwise (fun a b => sizeKey b ≤ sizeKey a) := by
  unfold for_backup
  generalize db.filter (fun r => !(r.backup_dest.contains dest_name)) = l
  induction l with
  | nil => simp
  | cons x xs ih =>
    simp only [List.foldr_cons]
    exact insertByDesc_pairwise x _ ih

theorem insertByDesc_filter_class (x : BackupFileRow) (l : List BackupFileRow)
    (s : Nat) :
    (insertByDesc x l).filter (fun r => sizeKey r == s) =
      if sizeKey x == s then x :: l.filter (fun r => sizeKey r == s)
      else l.filter (fun r => sizeKey r == s) := by
  induction l with
  | nil =>
    show [x].filter (fun r => sizeKey r == s) = _
    by_cases px : (sizeKey x == s) = true
    · rw [if_pos px]
      simp [List.filter_cons, px]
    · rw [if_neg px]
      simp [List.filter_cons, px]
  | cons y ys ih =>
    rw [insertByDesc_cons]
    by_cases hxy : sizeKey x < sizeKey y
    · rw [if_pos hxy, List.filter_cons, List.filter_cons]
      by_cases px : (sizeKey x == s) = true
      · have py : ¬((sizeKey y == s) = true) := by
          intro hy
          have h1 : sizeKey x = s := by simpa using px
          have h2 : sizeKey y = s := by simpa using hy
          omega
        simp only [py, cond_false, Bool.false_eq_true, if_false]
        rw [ih, if_pos px]
      · simp only [ih, if_neg px]
    · rw [if_neg hxy]
      by_cases px : (sizeKey x == s) = true
      · simp [List.filter_cons, px]
      · simp [List.filter_cons, px]

theorem sortDesc_filter_class (l : List BackupFileRow) (s : Nat) :
    (l.foldr insertByDesc []).filter (fun r => sizeKey r == s) =
      l.filter (fun r => sizeKey r == s) := by
  induction l with
  | nil => rfl
  | cons x xs ih =>
    simp only [List.foldr_cons]
    rw [insertByDesc_filter_class, List.filter_cons]
    split <;> simp_all

/-- C9: for every destination, for_backup returns exactly the rows
whose destination set lacks that destination, in descending size
order, and within each size class in original insertion (table) order.
NULL sizes sort below every integer (sizeKey). -/
theorem for_backup_ordering (db : DbState) (dest_name : VolumeId) :
    List.Perm (for_backup db dest_name)
        (db.filter (fun r => !(r.backup_dest.contains dest_name))) ∧
      (for_backup db dest_name).Pairwise (fun a b => sizeKey b ≤ sizeKey a) ∧
      ∀ s : Nat,
        (for_backup db dest_name).filter (fun r => sizeKey r == s) =
          db.filter
            (fun r => !(r.backup_dest.contains dest_name) && sizeKey r == s) := by
  refine ⟨for_backup_perm db dest_name, for_backup_sorted db dest_name, ?_⟩
  intro s
  unfold for_backup
  rw [sortDesc_filter_class, List.filter_filter]
  exact List.filter_congr (fun a _ => by rw [Bool.and_comm])

/-! C5: mark-and-sweep correctness. -/

/-- Some row for the filename is marked visited. -/
def hasVisitedRow (db : DbState) (name : List String) : Prop :=
  ∃ r ∈ db, r.filename = name ∧ r.visited ≠ 0

theorem hasVisitedRow_cons (r : BackupFileRow) (rs : DbState) (name : List String) :
    hasVisitedRow (r :: rs) name ↔
      (r.filename = name ∧ r.visited ≠ 0) ∨ hasVisitedRow rs name := by
  unfold hasVisitedRow
  constructor
  · rintro ⟨r0, hr0, hp⟩
    rcases List.mem_cons.mp hr0 with h | h
    · subst h; exact Or.inl hp
    · exact Or.inr ⟨r0, h, hp⟩
  · rintro (hp | ⟨r0, hr0, hp⟩)
    · exact ⟨r, by simp, hp⟩
    · exact ⟨r0, List.mem_cons_of_mem _ hr0, hp⟩

theorem hasVisitedRow_append (d1 d2 : DbState) (name : List String) :
    hasVisitedRow (d1 ++ d2) name ↔ hasVisitedRow d1 name ∨ hasVisitedRow d2 name := by
  unfold hasVisitedRow
  constructor
  · rintro ⟨r, hr, hp⟩
    rcases List.mem_append.mp hr with h | h
    · exact Or.inl ⟨r, h, hp⟩
    · exact Or.inr ⟨r, h, hp⟩
  · rintro (⟨r, hr, hp⟩ | ⟨r, hr, hp⟩)
    · exact ⟨r, List.mem_append_left _ hr, hp⟩
    · exact ⟨r, List.mem_append_right _ hr, hp⟩

theorem updFirst_hasVisitedRow_other (k : List String)
    (f : BackupFileRow → BackupFileRow) (hf : ∀ r, (f r).filename = r.filename)
    (db : DbState) (name : List String) (hne : name ≠ k) :
    hasVisitedRow (updFirstByFilename k f db) name ↔ hasVisitedRow db name := by
  induction db with
  | nil => rfl
  | cons r rs ih =>
    rw [updFirstByFilename_cons]
    by_cases hr : (r.filename == k) = true
    · rw [if_pos hr]
      have hrk : r.filename = k := by simpa using hr
      rw [hasVisitedRow_cons, hasVisitedRow_cons]
      have h1 : ¬((f r).filename = name) := by rw [hf, hrk]; exact fun h => hne h.symm
      have h2 : ¬(r.filename = name) := by rw [hrk]; exact fun h => hne h.symm
      simp [h1, h2]
    · rw [if_neg hr]
      rw [hasVisitedRow_cons, hasVisitedRow_cons, ih]

theorem update_file_eq_none_case (db : DbState) (f : BkpFile) (src_dir : String)
    (k : List String) (hk : update_file_key f src_dir = some k)
    (hfind : db.find? (fun r => r.filename == k) = none)
    (hval : bkpFileFalsy f = false) :
    update_file db f src_dir =
      ⟨db ++ [{ filename := k, src_path := src_dir, size := f.size,
                timestamp := f.mtime, md5_hash := f.md5, visited := 0,
                backup_dest := f.bkp_dests }], some k, false⟩ := by
  unfold update_file
  rw [hk]
  simp only [hfind, hval, Bool.false_eq_true, if_false]

theorem update_file_eq_some_case (db : DbState) (f : BkpFile) (src_dir : String)
    (k : List String) (r0 : BackupFileRow) (hk : update_file_key f src_dir = some k)
    (hfind : db.find? (fun r => r.filename == k) = some r0)
    (hval : bkpFileFalsy f = false) :
    update_file db f src_dir =
      ⟨updFirstByFilename k (overwriteFrom f src_dir) db, some k, false⟩ := by
  unfold update_file
  rw [hk]
  simp only [hfind, hval, Bool.false_eq_true, if_false]

theorem sync_one_eq (db d : DbState) (src_dir : String) (f : BkpFile)
    (k : List String) (h : update_file db f src_dir = ⟨d, some k, false⟩) :
    sync_one db src_dir f =
      (updFirstByFilename k (fun r => { r with visited := 1 }) d, false) := by
  unfold sync_one
  rw [h]
  rfl

theorem sync_one_spec (db : DbState) (src_dir : String) (f : BkpFile)
    (k : List String) (hval : bkpFileFalsy f = false)
    (hk : update_file_key f src_dir = some k) :
    (sync_one db src_dir f).2 = false ∧
      ∀ name, hasVisitedRow (sync_one db src_dir f).1 name ↔
        hasVisitedRow db name ∨ name = k := by
  cases hfind : db.find? (fun r => r.filename == k) with
  | none =>
    rw [sync_one_eq db _ src_dir f k
      (update_file_eq_none_case db f src_dir k hk hfind hval)]
    have hnotin : ∀ r ∈ db, r.filename ≠ k := by
      intro r hr he
      have := List.find?_eq_none.mp hfind r hr
      simp [he] at this
    rw [updFirstByFilename_append_fresh _ _ _ _ hnotin rfl]
    refine ⟨rfl, ?_⟩
    intro name
    simp only
    rw [hasVisitedRow_append]
    constructor
    · rintro (h | h)
      · exact Or.inl h
      · rcases h with ⟨r, hr, hp⟩
        rcases List.mem_singleton.mp hr with h
        subst h
        exact Or.inr hp.1.symm
    · rintro (h | h)
      · exact Or.inl h
      · subst h
        exact Or.inr ⟨⟨name, src_dir, f.size, f.mtime, f.md5, 1, f.bkp_dests⟩,
          by simp, rfl, by simp⟩
  | some r0 =>
    rw [sync_one_eq db _ src_dir f k
      (update_file_eq_some_case db f src_dir k r0 hk hfind hval)]
    rw [updFirstByFilename_comp _ _ _ (overwriteFrom_filename f src_dir)]
    have hex : ∃ r ∈ db, r.filename = k := by
      refine ⟨r0, List.mem_of_find?_eq_some hfind, ?_⟩
      have := List.find?_some hfind
      simpa using this
    refine ⟨rfl, ?_⟩
    intro name
    by_cases hn : name = k
    · subst hn
      refine ⟨fun _ => Or.inr rfl, fun _ => ?_⟩
      exact updFirstByFilename_mem_prop _ _ _
        (fun r => r.filename = name ∧ r.visited ≠ 0)
        (fun r hr => ⟨hr, by simp⟩) hex
    · rw [updFirst_hasVisitedRow_other k
        (fun r => { overwriteFrom f src_dir r with visited := 1 })
        (fun r => rfl) db name hn]
      simp [hn]

theorem create_update_cons (db : DbState) (src_dir : String) (f : BkpFile)
    (fs : List BkpFile) (hok : (sync_one db src_dir f).2 = false) :
    create_update_db_file_entries db src_dir (f :: fs) =
      create_update_db_file_entries (sync_one db src_dir f).1 src_dir fs := by
  unfold create_update_db_file_entries
  rw [List.foldl_cons]
  congr 1
  show (if false = true then (db, false) else sync_one db src_dir f) = _
  rw [if_neg (by simp)]
  exact Prod.ext_iff.mpr ⟨rfl, hok⟩

theorem sync_fold_spec (src_dir : String) :
    ∀ (files : List BkpFile) (db : DbState),
      (∀ f ∈ files, bkpFileFalsy f = false ∧ (update_file_key f src_dir).isSome) →
      (create_update_db_file_entries db src_dir files).2 = false ∧
        ∀ name, hasVisitedRow (create_update_db_file_entries db src_dir files).1 name ↔
          hasVisitedRow db name ∨
            name ∈ files.filterMap (fun f => update_file_key f src_dir) := by
  intro files
  induction files with
  | nil =>
    intro db _
    exact ⟨rfl, fun name => by simp [create_update_db_file_entries]⟩
  | cons f fs ih =>
    intro db hv
    obtain ⟨hval, hsome⟩ := hv f (by simp)
    obtain ⟨k, hk⟩ := Option.isSome_iff_exists.mp hsome
    obtain ⟨hok, hiff⟩ := sync_one_spec db src_dir f k hval hk
    rw [create_update_cons db src_dir f fs hok]
    obtain ⟨hok2, hiff2⟩ := ih (sync_one db src_dir f).1
      (fun g hg => hv g (by simp [hg]))
    refine ⟨hok2, ?_⟩
    intro name
    rw [hiff2, hiff]
    simp only [List.filterMap_cons, hk, List.mem_cons]
    tauto

theorem sweep_mem (d : DbState) (r : BackupFileRow) :
    r ∈ remove_unvisited_files_from_database d ↔
      ∃ r0 ∈ d, r0.visited ≠ 0 ∧ r = { r0 with visited := 0 } := by
  unfold remove_unvisited_files_from_database
  simp only [List.mem_map, List.mem_filter]
  constructor
  · rintro ⟨r0, ⟨hr0, hv⟩, he⟩
    exact ⟨r0, hr0, by simpa using hv, he.symm⟩
  · rintro ⟨r0, hr0, hv, he⟩
    exact ⟨r0, ⟨hr0, by simpa using hv⟩, he.symm⟩

/-- C5: synchronizing a source over the set of files found on disk and
then deleting the unvisited rows leaves the central index holding
exactly the rows for the files that were walked: every row not
visited during the pass is deleted, every visited row survives (with
its visited flag cleared for the next session). -/
theorem mark_and_sweep (db : DbState) (src_dir : String) (files : List BkpFile)
    (h0 : ∀ r ∈ db, r.visited = 0)
    (hv : ∀ f ∈ files, bkpFileFalsy f = false ∧ (update_file_key f src_dir).isSome) :
    (create_update_db_file_entries db src_dir files).2 = false ∧
      (∀ name,
        (∃ r ∈ remove_unvisited_files_from_database
            (create_update_db_file_entries db src_dir files).1, r.filename = name) ↔
          name ∈ files.filterMap (fun f => update_file_key f src_dir)) ∧
      ∀ (d : DbState) (r : BackupFileRow),
        r ∈ remove_unvisited_files_from_database d ↔
          ∃ r0 ∈ d, r0.visited ≠ 0 ∧ r = { r0 with visited := 0 } := by
  obtain ⟨hok, hiff⟩ := sync_fold_spec src_dir files db hv
  refine ⟨hok, ?_, sweep_mem⟩
  intro name
  have h1 : (∃ r ∈ remove_unvisited_files_from_database
      (create_update_db_file_entries db src_dir files).1, r.filename = name) ↔
      hasVisitedRow (create_update_db_file_entries db src_dir files).1 name := by
    constructor
    · rintro ⟨r, hr, he⟩
      obtain ⟨r0, hr0, hv0, heq⟩ := (sweep_mem _ _).mp hr
      exact ⟨r0, hr0, by rw [← he, heq], hv0⟩
    · rintro ⟨r0, hr0, he, hv0⟩
      exact ⟨{ r0 with visited := 0 }, (sweep_mem _ _).mpr ⟨r0, hr0, hv0, rfl⟩, he⟩
  rw [h1, hiff]
  have h2 : ¬hasVisitedRow db name := by
    rintro ⟨r, hr, _, hv0⟩
    exact hv0 (h0 r hr)
  simp [h2]

/-- Concrete walked file for the C5 witness. -/
def fileC5 : BkpFile :=
  { name := "a", file_path := ⟨some "s", ["sub", "a"]⟩, size := some 3,
    mtime := some 9, md5 := "h" }

/-- Witness for C5: starting from an index holding a row for a deleted
file, synchronizing the single remaining file and sweeping leaves
exactly that file's row. -/
theorem mark_and_sweep_witness :
    (∃ r ∈ remove_unvisited_files_from_database
        (create_update_db_file_entries
          [{ filename := ["gone"], src_path := "s", visited := 0 }] "s" [fileC5]).1,
      r.filename = ["sub", "a"]) ∧
    ¬(∃ r ∈ remove_unvisited_files_from_database
        (create_update_db_file_entries
          [{ filename := ["gone"], src_path := "s", visited := 0 }] "s" [fileC5]).1,
      r.filename = ["gone"]) := by
  have h := (mark_and_sweep
    [{ filename := ["gone"], src_path := "s", visited := 0 }] "s" [fileC5]
    (by intro r hr; rcases List.mem_singleton.mp hr with h; rw [h])
    (by intro f hf; rcases List.mem_singleton.mp hf with h; subst h
        exact ⟨by decide, by decide⟩)).2.1
  constructor
  · exact (h ["sub", "a"]).mpr (by decide)
  · intro hx
    have := (h ["gone"]).mp hx
    simp [fileC5, update_file_key, PyPath.is_absolute, PyPath.relative_to] at this
    
/-! ### Backup orchestrator (src/py/medorg/cli/runners.py)

The orchestration state: the per-directory sidecar roots held by the
AsyncBkpXmlManager instances (every manager commits its roots back to
disk on exit and later managers read them back, so one persistent map
is sound), the central index table, and the observable copy activity:
attempts records every async_copy_file invocation, copies the
successful ones.  The environment carries the filesystem oracles; the
copyOk oracle decides whether async_copy_file raises IOError for a
source path.  Directory creation failures are not modelled (no claim
concerns them). -/

structure BackupEnv where
  fs : FsOracle
  stat : PyPath → StatResult
  isFile : PyPath → Bool
  copyOk : PyPath → Bool
  baseName : String → String

structure World where
  sidecars : PyPath → List BkpFile
  db : DbState
  attempts : List PyPath
  copies : List PyPath

/-- Pointwise update of the sidecar map. -/
def updMap (m : PyPath → List BkpFile) (key : PyPath) (v : List BkpFile) :
    PyPath → List BkpFile :=
  fun x => if x = key then v else m x

/-- runners.generate_src_dest_full_paths: the absolute source path of a
row, and its destination path under destPath slash the source root's
final component slash the relative path; missing source files raise
FileNotFoundError (none). -/
def generate_src_dest_full_paths (env : BackupEnv) (file_entry : BackupFileRow)
    (dest_path : PyPath) : Option (PyPath × PyPath) :=
  let src_file_path : PyPath := ⟨some file_entry.src_path, file_entry.filename⟩
  match src_file_path.relative_to ⟨some file_entry.src_path, []⟩ with
  | none => none
  | some relative_path =>
    let dest_file_path : PyPath :=
      ⟨dest_path.base, dest_path.rel ++ env.baseName file_entry.src_path :: relative_path⟩
    if env.isFile src_file_path then some (src_file_path, dest_file_path) else none

/-- runners._backup_file: skip a vanished source; the assert on an
already-visited row aborts only this file's task; skip when the source
sidecar record already carries the destination (the at-most-once
guard); then invoke the copy, and on success write the record into the
destination sidecar and mark the row visited.  IOError from the copy
is caught and leaves everything except the attempt unchanged.  The
row object handed over by copy_best_files is identified by its
filename (unique in the table). -/
def _backup_file (env : BackupEnv) (dest_id : VolumeId)
    (src_file_path dest_file_path : PyPath) (key : List String) (w : World) : World :=
  if env.isFile src_file_path = false then w
  else
    match w.db.find? (fun r => r.filename == key) with
    | none => w
    | some file_entry =>
      if file_entry.visited ≠ 0 then w
      else
        let srcDir := src_file_path.parent
        let current_file_data_src := bkpXmlGet srcDir (w.sidecars srcDir) src_file_path.name
        if dest_id ∈ current_file_data_src.bkp_dests then w
        else
          let w1 := { w with attempts := w.attempts ++ [src_file_path] }
          if env.copyOk src_file_path = false then w1
          else
            let destDir := dest_file_path.parent
            let current_file_data_dest :=
              { current_file_data_src with file_path := dest_file_path }
            { w1 with
                sidecars := updMap w1.sidecars destDir
                  (bkpXmlSet env.fs (w1.sidecars destDir) dest_file_path.name
                    current_file_data_dest),
                copies := w1.copies ++ [src_file_path],
                db := updFirstByFilename key (fun r => { r with visited := 1 }) w1.db }

/-- Per-row step of copy_best_files. -/
def cbfStep (env : BackupEnv) (dest_path : PyPath) (dest_id : VolumeId)
    (acc : World × Bool) (file_entry : BackupFileRow) : World × Bool :=
  if acc.2 then acc
  else
    match generate_src_dest_full_paths env file_entry dest_path with
    | none => (acc.1, true)
    | some sd =>
        (_backup_file env dest_id sd.1 sd.2 file_entry.filename acc.1, false)

/-- runners.copy_best_files: materialize the selection, then run
_backup_file for each selected row; a missing source file during path
generation aborts the batch (FileNotFoundError propagates), a copy
failure does not. -/
def copy_best_files (env : BackupEnv) (dest_path : PyPath) (dest_id : VolumeId)
    (w : World) : World × Bool :=
  (for_backup w.db dest_id).foldl (cbfStep env dest_path dest_id) (w, false)

/-- Python set.add on the record's destination set. -/
def setAddDest (dest_id : VolumeId) (props : BkpFile) : BkpFile :=
  if dest_id ∈ props.bkp_dests then props
  else { props with bkp_dests := props.bkp_dests ++ [dest_id] }

/-- runners.update_source_directory_entries: for every visited row, add
the destination tag to the row, refresh the source sidecar record via
visit_file, add the destination to the record's set and write it back;
a missing source file fails the assert and aborts.  The asserts on
size/mtime/md5 cannot fire after visit_file has run. -/
def update_source_directory_entries (env : BackupEnv) (dest_id : VolumeId)
    (w : World) : World × Bool :=
  ((w.db.filter (fun r => !(r.visited == 0))).map (·.filename)).foldl
    (fun acc k =>
      if acc.2 then acc
      else
        match acc.1.db.find? (fun r => r.filename == k) with
        | none => acc
        | some file_entry =>
          let db1 := updFirstByFilename k (add_tag_obj_to_backup_file dest_id) acc.1.db
          let full_src : PyPath := ⟨some file_entry.src_path, file_entry.filename⟩
          if env.isFile full_src = false then ({ acc.1 with db := db1 }, true)
          else
            let dirP := full_src.parent
            let fname := full_src.name
            let root1 := (visit_file env.fs dirP (acc.1.sidecars dirP) full_src
              (env.stat full_src)).1
            let props2 := setAddDest dest_id (bkpXmlGet dirP root1 fname)
            let root2 := bkpXmlSet env.fs root1 fname props2
            ({ acc.1 with db := db1, sidecars := updMap acc.1.sidecars dirP root2 },
              false))
    (w, false)

/-- A registered source for the walk: its resolved root and its
directories, each with the regular files (name and stat) it holds. -/
structure SourceTree where
  root : String
  dirs : List (List String × List (String × StatResult))

/-- One directory of the synchronizing walk
(BackupXmlWalker._visit_files_and_dirs plus the my_walker callback of
runners.create_update_db_file_entries): prune the sidecar root to the
files on disk, visit them all, then run the per-file callback that
updates the central index and marks the row visited. -/
def sync_directory (env : BackupEnv) (src_root : String) (dirRel : List String)
    (files : List (String × StatResult)) (w : World) : World × Bool :=
  let dirPath : PyPath := ⟨some src_root, dirRel⟩
  let root1 := remove_if_not_in_set (w.sidecars dirPath) (files.map Prod.fst)
  let root2 := files.foldl
    (fun r nf => (visit_file env.fs dirPath r (dirPath.child nf.1) nf.2).1) root1
  let w1 := { w with sidecars := updMap w.sidecars dirPath root2 }
  files.foldl
    (fun acc nf =>
      if acc.2 then acc
      else
        let r := sync_one acc.1.db src_root (bkpXmlGet dirPath root2 nf.1)
        ({ acc.1 with db := r.1 }, r.2))
    (w1, false)

/-- Walk one registered source (runners.create_update_db_file_entries). -/
def sync_source (env : BackupEnv) (src : SourceTree) (w : World) : World × Bool :=
  src.dirs.foldl
    (fun acc d => if acc.2 then acc else sync_directory env src.root d.1 d.2 acc.1)
    (w, false)

/-- runners.backup_files: synchronize every registered source, sweep
the unvisited rows, copy the selected files, then propagate the new
destination back into rows and source sidecars. -/
def backup_files (env : BackupEnv) (sources : List SourceTree) (dest_path : PyPath)
    (dest_id : VolumeId) (w : World) : World × Bool :=
  let s1 := sources.foldl
    (fun acc src => if acc.2 then acc else sync_source env src acc.1) (w, false)
  if s1.2 then s1
  else
    let w2 := { s1.1 with db := remove_unvisited_files_from_database s1.1.db }
    let s3 := copy_best_files env dest_path dest_id w2
    if s3.2 then s3
    else update_source_directory_entries env dest_id s3.1

/-- Bdsa.clear_all_visited, run by DatabaseHandler.session_scope when
the session body completes. -/
def clear_all_visited (db : DbState) : DbState :=
  db.map (fun r => if r.visited ≠ 0 then { r with visited := 0 } else r)

/-- One CLI backup run: the backup_files session body followed by the
session teardown clearing all visited flags (the teardown does not
run when the body raises). -/
def backup_session (env : BackupEnv) (sources : List SourceTree) (dest_path : PyPath)
    (dest_id : VolumeId) (w : World) : World × Bool :=
  let r := backup_files env sources dest_path dest_id w
  if r.2 then r else ({ r.1 with db := clear_all_visited r.1.db }, false)

/-- Relative filenames of every file of a source. -/
def sourceKeys (src : SourceTree) : List (List String) :=
  src.dirs.flatMap (fun d => d.2.map (fun nf => d.1 ++ [nf.1]))

/-- Absolute source path of a row. -/
def rowSrcPath (r : BackupFileRow) : PyPath := ⟨some r.src_path, r.filename⟩

/-! Helper lemmas for the copy phase. -/

theorem find?_updFirst_other (k : List String) (f : BackupFileRow → BackupFileRow)
    (hf : ∀ r, (f r).filename = r.filename) (db : DbState) (name : List String)
    (hne : name ≠ k) :
    (updFirstByFilename k f db).find? (fun r => r.filename == name) =
      db.find? (fun r => r.filename == name) := by
  induction db with
  | nil => rfl
  | cons r rs ih =>
    rw [updFirstByFilename_cons]
    by_cases hr : (r.filename == k) = true
    · rw [if_pos hr]
      have hrk : r.filename = k := by simpa using hr
      have h1 : ((f r).filename == name) = false := by
        rw [hf, hrk]
        simp only [beq_eq_false_iff_ne, ne_eq]
        exact fun h => hne h.symm
      have h2 : (r.filename == name) = false := by
        rw [hrk]
        simp only [beq_eq_false_iff_ne, ne_eq]
        exact fun h => hne h.symm
      simp only [List.find?_cons, h1, h2]
    · rw [if_neg hr]
      by_cases h2 : (r.filename == name) = true
      · simp only [List.find?_cons, h2]
      · have h2f : (r.filename == name) = false := by simpa using h2
        simp only [List.find?_cons, h2f, ih]

theorem find?_updFirst_self (k : List String) (f : BackupFileRow → BackupFileRow)
    (hf : ∀ r, (f r).filename = r.filename) (db : DbState) (Y : BackupFileRow)
    (hfind : db.find? (fun r => r.filename == k) = some Y) :
    (updFirstByFilename k f db).find? (fun r => r.filename == k) = some (f Y) := by
  induction db with
  | nil => simp at hfind
  | cons r rs ih =>
    rw [updFirstByFilename_cons]
    by_cases hr : (r.filename == k) = true
    · rw [if_pos hr]
      simp only [List.find?_cons, hr] at hfind
      have hrY : r = Y := by simpa using hfind
      subst hrY
      have hfr : ((f r).filename == k) = true := by rw [hf]; exact hr
      simp only [List.find?_cons, hfr]
    · rw [if_neg hr]
      have hrf : (r.filename == k) = false := by simpa using hr
      simp only [List.find?_cons, hrf] at hfind
      simp only [List.find?_cons, hrf]
      exact ih hfind

theorem updFirst_mem_preserve (k : List String) (f : BackupFileRow → BackupFileRow)
    (db : DbState) (r : BackupFileRow) (hr : r ∈ db) (hne : r.filename ≠ k) :
    r ∈ updFirstByFilename k f db := by
  induction db with
  | nil => simp at hr
  | cons x xs ih =>
    rw [updFirstByFilename_cons]
    rcases List.mem_cons.mp hr with h | h
    · subst h
      rw [if_neg (by simpa using hne)]
      simp
    · split
      · exact List.mem_cons_of_mem _ h
      · exact List.mem_cons_of_mem _ (ih h)

theorem find?_of_nodup_mem (db : DbState) (Y : BackupFileRow)
    (hnd : (db.map (·.filename)).Nodup) (hY : Y ∈ db) :
    db.find? (fun r => r.filename == Y.filename) = some Y := by
  induction db with
  | nil => simp at hY
  | cons r rs ih =>
    rcases List.mem_cons.mp hY with h | h
    · subst h
      simp only [List.find?_cons, show (Y.filename == Y.filename) = true by simp]
    · have hne : r.filename ≠ Y.filename := by
        simp only [List.map_cons, List.nodup_cons] at hnd
        intro he
        exact hnd.1 (he ▸ List.mem_map_of_mem (·.filename) h)
      simp only [List.find?_cons,
        show (r.filename == Y.filename) = false by simpa using hne]
      exact ih (by simpa using (List.nodup_cons.mp (by simpa using hnd)).2) h

/-- Destination path a selected row is copied to. -/
def destPathOf (env : BackupEnv) (dest_path : PyPath) (Y : BackupFileRow) : PyPath :=
  ⟨dest_path.base, dest_path.rel ++ env.baseName Y.src_path :: Y.filename⟩

theorem generate_eq (env : BackupEnv) (Y : BackupFileRow) (dest_path : PyPath)
    (hfile : env.isFile (rowSrcPath Y) = true) :
    generate_src_dest_full_paths env Y dest_path =
      some (rowSrcPath Y, destPathOf env dest_path Y) := by
  have hrel : (PyPath.mk (some Y.src_path) Y.filename).relative_to
      ⟨some Y.src_path, []⟩ = some Y.filename := by
    unfold PyPath.relative_to
    rw [if_pos ⟨rfl, by simp [List.isPrefixOf]⟩]
    simp
  unfold generate_src_dest_full_paths
  simp only [hrel]
  rw [if_pos (show env.isFile ⟨some Y.src_path, Y.filename⟩ = true from hfile)]
  rfl

/-- C4 guard: when the source sidecar record of a file already carries
the destination VolumeId, _backup_file changes nothing: no copy is
invoked and no state is modified (all earlier early-exits also leave
the state unchanged). -/
theorem backup_file_no_copy_when_sidecar_has_dest (env : BackupEnv)
    (dest_id : VolumeId) (src_file_path dest_file_path : PyPath) (key : List String)
    (w : World)
    (h : dest_id ∈ (bkpXmlGet src_file_path.parent
      (w.sidecars src_file_path.parent) src_file_path.name).bkp_dests) :
    _backup_file env dest_id src_file_path dest_file_path key w = w := by
  unfold _backup_file
  split
  · rfl
  · cases hfind : w.db.find? (fun r => r.filename == key) with
    | none => rfl
    | some file_entry =>
      simp only
      by_cases hv : file_entry.visited ≠ 0
      · rw [if_pos hv]
      · rw [if_neg hv, if_pos h]

/-- The _backup_file transition in the regular case: source present,
row found unvisited, sidecar guard passes.  A failing copy records
only the attempt; a successful one also writes the destination
sidecar record, the copy, and the visited flag. -/
theorem backup_file_eq (env : BackupEnv) (dest_id : VolumeId)
    (s d : PyPath) (key : List String) (w : World) (Y : BackupFileRow)
    (hfile : env.isFile s = true)
    (hfind : w.db.find? (fun r => r.filename == key) = some Y)
    (hvis : Y.visited = 0)
    (hguard : dest_id ∉ (bkpXmlGet s.parent (w.sidecars s.parent) s.name).bkp_dests) :
    _backup_file env dest_id s d key w =
      if env.copyOk s = false then { w with attempts := w.attempts ++ [s] }
      else
        { w with
            attempts := w.attempts ++ [s],
            copies := w.copies ++ [s],
            sidecars := updMap w.sidecars d.parent
              (bkpXmlSet env.fs (w.sidecars d.parent) d.name
                { bkpXmlGet s.parent (w.sidecars s.parent) s.name with file_path := d }),
            db := updFirstByFilename key (fun r => { r with visited := 1 }) w.db } := by
  unfold _backup_file
  rw [if_neg (by rw [hfile]; simp), hfind]
  simp only
  rw [if_neg (by rw [hvis]; simp), if_neg hguard]

/-- The visited flags the copy phase writes into the table: each
successfully copied selected row is marked visited, in selection
order. -/
def markCopied (env : BackupEnv) (sel : List BackupFileRow) (db : DbState) : DbState :=
  sel.foldl
    (fun d Y =>
      if env.copyOk (rowSrcPath Y) = false then d
      else updFirstByFilename Y.filename (fun r => { r with visited := 1 }) d) db

theorem cbf_fold_spec (env : BackupEnv) (dest_path : PyPath) (dest_id : VolumeId) :
    ∀ (sel : List BackupFileRow) (w : World),
    (∀ p, env.isFile p = true) →
    (∀ Y ∈ sel, w.db.find? (fun r => r.filename == Y.filename) = some Y) →
    (∀ Y ∈ sel, Y.visited = 0) →
    (∀ Y ∈ sel, dest_id ∉ (bkpXmlGet (rowSrcPath Y).parent
        (w.sidecars (rowSrcPath Y).parent) (rowSrcPath Y).name).bkp_dests) →
    ((sel.map (·.filename)).Nodup) →
    (∀ Y ∈ sel, ∀ Z ∈ sel,
        (destPathOf env dest_path Y).parent ≠ (rowSrcPath Z).parent) →
    (sel.foldl (cbfStep env dest_path dest_id) (w, false)).2 = false ∧
      (sel.foldl (cbfStep env dest_path dest_id) (w, false)).1.attempts =
        w.attempts ++ sel.map rowSrcPath ∧
      (sel.foldl (cbfStep env dest_path dest_id) (w, false)).1.copies =
        w.copies ++
          (sel.filter (fun Y => env.copyOk (rowSrcPath Y))).map rowSrcPath ∧
      (sel.foldl (cbfStep env dest_path dest_id) (w, false)).1.db =
        markCopied env sel w.db ∧
      ∀ dir : PyPath, (∀ Y ∈ sel, (destPathOf env dest_path Y).parent ≠ dir) →
        (sel.foldl (cbfStep env dest_path dest_id) (w, false)).1.sidecars dir =
          w.sidecars dir := by
  intro sel
  induction sel with
  | nil =>
    intro w _ _ _ _ _ _
    exact ⟨rfl, by simp, by simp, rfl, fun dir _ => rfl⟩
  | cons Y rest ih =>
    intro w hfile h2 h3 h4 h5 h6
    have hYfile : env.isFile (rowSrcPath Y) = true := hfile _
    have hstep1 : cbfStep env dest_path dest_id (w, false) Y =
        (_backup_file env dest_id (rowSrcPath Y) (destPathOf env dest_path Y)
          Y.filename w, false) := by
      unfold cbfStep
      rw [if_neg (by simp)]
      rw [generate_eq env Y dest_path hYfile]
    have hbf := backup_file_eq env dest_id (rowSrcPath Y)
      (destPathOf env dest_path Y) Y.filename w Y hYfile
      (h2 Y (by simp)) (h3 Y (by simp)) (h4 Y (by simp))
    rw [List.foldl_cons, hstep1, hbf]
    by_cases hok : env.copyOk (rowSrcPath Y) = false
    · rw [if_pos hok]
      set w1 : World := { w with attempts := w.attempts ++ [rowSrcPath Y] } with hw1
      have hdb1 : w1.db = w.db := rfl
      have hsc1 : w1.sidecars = w.sidecars := rfl
      obtain ⟨c1, c2, c3, c4, c5⟩ := ih w1 hfile
        (fun Z hZ => by rw [hdb1]; exact h2 Z (by simp [hZ]))
        (fun Z hZ => h3 Z (by simp [hZ]))
        (fun Z hZ => by rw [hsc1]; exact h4 Z (by simp [hZ]))
        (by simpa using h5.of_cons)
        (fun Z hZ W hW => h6 Z (by simp [hZ]) W (by simp [hW]))
      refine ⟨c1, ?_, ?_, ?_, ?_⟩
      · rw [c2, hw1]
        simp
      · rw [c3]
        have : (Y :: rest).filter (fun Z => env.copyOk (rowSrcPath Z)) =
            rest.filter (fun Z => env.copyOk (rowSrcPath Z)) := by
          rw [List.filter_cons, if_neg (by simp [hok])]
        rw [this]
      · rw [c4, hdb1]
        unfold markCopied
        rw [List.foldl_cons, if_pos hok]
      · intro dir hd
        rw [c5 dir (fun Z hZ => hd Z (by simp [hZ])), hsc1]
    · rw [if_neg hok]
      have hokT : env.copyOk (rowSrcPath Y) = true := by
        cases h : env.copyOk (rowSrcPath Y)
        · exact absurd h hok
        · rfl
      set destDir := (destPathOf env dest_path Y).parent with hdd
      set w1 : World :=
        { w with
            attempts := w.attempts ++ [rowSrcPath Y],
            copies := w.copies ++ [rowSrcPath Y],
            sidecars := updMap w.sidecars destDir
              (bkpXmlSet env.fs (w.sidecars destDir) (destPathOf env dest_path Y).name
                { bkpXmlGet (rowSrcPath Y).parent (w.sidecars (rowSrcPath Y).parent)
                    (rowSrcPath Y).name with file_path := destPathOf env dest_path Y }),
            db := updFirstByFilename Y.filename (fun r => { r with visited := 1 }) w.db }
        with hw1
      have hdb1 : w1.db =
          updFirstByFilename Y.filename (fun r => { r with visited := 1 }) w.db := rfl
      have hscother : ∀ dir : PyPath, dir ≠ destDir → w1.sidecars dir = w.sidecars dir := by
        intro dir hd
        show updMap _ _ _ dir = _
        unfold updMap
        rw [if_neg hd]
      obtain ⟨c1, c2, c3, c4, c5⟩ := ih w1 hfile
        (fun Z hZ => by
          rw [hdb1]
          rw [find?_updFirst_other Y.filename (fun r => { r with visited := 1 })
            (fun r => rfl) w.db Z.filename ?hne]
          · exact h2 Z (by simp [hZ])
          · have hY : Y.filename ∉ rest.map (·.filename) := by
              simp only [List.map_cons, List.nodup_cons] at h5
              exact h5.1
            intro he
            exact hY (he ▸ List.mem_map_of_mem (·.filename) hZ)
        )
        (fun Z hZ => h3 Z (by simp [hZ]))
        (fun Z hZ => by
          rw [hscother (rowSrcPath Z).parent ?hne2]
          · exact h4 Z (by simp [hZ])
          · exact fun he => (h6 Y (by simp) Z (by simp [hZ])) he.symm)
        (by simpa using h5.of_cons)
        (fun Z hZ W hW => h6 Z (by simp [hZ]) W (by simp [hW]))
      refine ⟨c1, ?_, ?_, ?_, ?_⟩
      · rw [c2, hw1]
        simp
      · rw [c3]
        have : (Y :: rest).filter (fun Z => env.copyOk (rowSrcPath Z)) =
            Y :: rest.filter (fun Z => env.copyOk (rowSrcPath Z)) := by
          rw [List.filter_cons, if_pos (by simp [hokT])]
        rw [this, hw1]
        simp
      · rw [c4, hdb1]
        unfold markCopied
        rw [List.foldl_cons, if_neg (by simp [hokT])]
      · intro dir hd
        rw [c5 dir (fun Z hZ => hd Z (by simp [hZ]))]
        exact hscother dir (fun he => (hd Y (by simp)) (he ▸ rfl))

theorem for_backup_mem_iff (db : DbState) (dest_name : VolumeId)
    (Y : BackupFileRow) :
    Y ∈ for_backup db dest_name ↔
      Y ∈ db ∧ (Y.backup_dest.contains dest_name) = false := by
  rw [(for_backup_perm db dest_name).mem_iff, List.mem_filter]
  simp

theorem for_backup_map_nodup (db : DbState) (dest_name : VolumeId)
    (hnd : (db.map (·.filename)).Nodup) :
    ((for_backup db dest_name).map (·.filename)).Nodup := by
  have hperm := (for_backup_perm db dest_name).map (·.filename)
  rw [hperm.nodup_iff]
  exact hnd.sublist ((List.filter_sublist db).map (·.filename))

theorem copy_best_files_spec (env : BackupEnv) (dest_path : PyPath)
    (dest_id : VolumeId) (w : World)
    (hfile : ∀ p, env.isFile p = true)
    (hnodup : (w.db.map (·.filename)).Nodup)
    (hvis : ∀ r ∈ w.db, r.visited = 0)
    (hguard : ∀ r ∈ w.db, dest_id ∉ (bkpXmlGet (rowSrcPath r).parent
        (w.sidecars (rowSrcPath r).parent) (rowSrcPath r).name).bkp_dests)
    (hbase : ∀ r ∈ w.db, dest_path.base ≠ some r.src_path) :
    (copy_best_files env dest_path dest_id w).2 = false ∧
      (copy_best_files env dest_path dest_id w).1.attempts =
        w.attempts ++ (for_backup w.db dest_id).map rowSrcPath ∧
      (copy_best_files env dest_path dest_id w).1.copies =
        w.copies ++ ((for_backup w.db dest_id).filter
          (fun Y => env.copyOk (rowSrcPath Y))).map rowSrcPath ∧
      (copy_best_files env dest_path dest_id w).1.db =
        markCopied env (for_backup w.db dest_id) w.db ∧
      ∀ dir : PyPath,
        (∀ Y ∈ for_backup w.db dest_id, (destPathOf env dest_path Y).parent ≠ dir) →
        (copy_best_files env dest_path dest_id w).1.sidecars dir = w.sidecars dir := by
  have hsub : ∀ Y ∈ for_backup w.db dest_id, Y ∈ w.db :=
    fun Y hY => ((for_backup_mem_iff w.db dest_id Y).mp hY).1
  exact cbf_fold_spec env dest_path dest_id (for_backup w.db dest_id) w hfile
    (fun Y hY => find?_of_nodup_mem w.db Y hnodup (hsub Y hY))
    (fun Y hY => hvis Y (hsub Y hY))
    (fun Y hY => hguard Y (hsub Y hY))
    (for_backup_map_nodup w.db dest_id hnodup)
    (fun Y _ Z hZ => by
      intro he
      have h1 : (destPathOf env dest_path Y).parent.base = dest_path.base := rfl
      have h2 : (rowSrcPath Z).parent.base = some Z.src_path := rfl
      have := congrArg PyPath.base he
      rw [h1, h2] at this
      exact hbase Z (hsub Z hZ) this)

/-! Facts about markCopied. -/

theorem markCopied_find_other (env : BackupEnv) (sel : List BackupFileRow)
    (db : DbState) (name : List String)
    (h : ∀ Y ∈ sel, Y.filename ≠ name) :
    (markCopied env sel db).find? (fun r => r.filename == name) =
      db.find? (fun r => r.filename == name) := by
  induction sel generalizing db with
  | nil => rfl
  | cons Y rest ih =>
    unfold markCopied
    rw [List.foldl_cons]
    split
    · exact ih db (fun Z hZ => h Z (by simp [hZ]))
    · show (markCopied env rest _).find? _ = _
      rw [ih _ (fun Z hZ => h Z (by simp [hZ]))]
      exact find?_updFirst_other Y.filename (fun r => { r with visited := 1 })
        (fun r => rfl) db name (fun he => (h Y (by simp)) he.symm)

theorem markCopied_mem_preserve (env : BackupEnv) (sel : List BackupFileRow)
    (db : DbState) (r : BackupFileRow) (hr : r ∈ db)
    (h : ∀ Y ∈ sel, env.copyOk (rowSrcPath Y) = true → Y.filename ≠ r.filename) :
    r ∈ markCopied env sel db := by
  induction sel generalizing db with
  | nil => exact hr
  | cons Y rest ih =>
    unfold markCopied
    rw [List.foldl_cons]
    split
    · exact ih db hr (fun Z hZ hok => h Z (by simp [hZ]) hok)
    · show r ∈ markCopied env rest _
      refine ih _ ?_ (fun Z hZ hok => h Z (by simp [hZ]) hok)
      refine updFirst_mem_preserve _ _ _ _ hr ?_
      have hokT : env.copyOk (rowSrcPath Y) = true := by
        rename_i hc
        cases hcc : env.copyOk (rowSrcPath Y)
        · exact absurd hcc hc
        · rfl
      exact fun he => (h Y (by simp) hokT) (by rw [he])

theorem markCopied_find_visited (env : BackupEnv) (sel : List BackupFileRow)
    (db : DbState) (Y : BackupFileRow)
    (hnd : (sel.map (·.filename)).Nodup) (hY : Y ∈ sel)
    (hok : env.copyOk (rowSrcPath Y) = true)
    (hfind : db.find? (fun r => r.filename == Y.filename) = some Y) :
    (markCopied env sel db).find? (fun r => r.filename == Y.filename) =
      some { Y with visited := 1 } := by
  induction sel generalizing db with
  | nil => simp at hY
  | cons Z rest ih =>
    unfold markCopied
    rw [List.foldl_cons]
    rcases List.mem_cons.mp hY with hh | hh
    · subst hh
      rw [if_neg (by simp [hok])]
      show (markCopied env rest _).find? _ = _
      have hrest : ∀ W ∈ rest, W.filename ≠ Y.filename := by
        intro W hW he
        simp only [List.map_cons, List.nodup_cons] at hnd
        exact hnd.1 (he ▸ List.mem_map_of_mem (·.filename) hW)
      rw [markCopied_find_other env rest _ _ hrest]
      exact find?_updFirst_self Y.filename (fun r => { r with visited := 1 })
        (fun r => rfl) db Y hfind
    · have hne : Z.filename ≠ Y.filename := by
        intro he
        simp only [List.map_cons, List.nodup_cons] at hnd
        exact hnd.1 (he ▸ List.mem_map_of_mem (·.filename) hh)
      have hnd2 : (rest.map (·.filename)).Nodup := by
        simp only [List.map_cons, List.nodup_cons] at hnd
        exact hnd.2
      split
      · exact ih db hnd2 hh hfind
      · show (markCopied env rest _).find? _ = _
        refine ih _ hnd2 hh ?_
        rw [find?_updFirst_other Z.filename (fun r => { r with visited := 1 })
          (fun r => rfl) db Y.filename (fun he => hne he.symm)]
        exact hfind

/-- C8: partial failure containment in the copy batch.  When copying
one selected file fails with IOError, the batch still completes
(no abort), the failing file keeps its row untouched - visited stays
false and its destination set unchanged - so it is selected again by
the next run's query, while every other selected file whose copy
succeeds is copied and marked visited. -/
theorem partial_failure_containment (env : BackupEnv) (dest_path : PyPath)
    (dest_id : VolumeId) (w : World) (X : BackupFileRow)
    (hfile : ∀ p, env.isFile p = true)
    (hnodup : (w.db.map (·.filename)).Nodup)
    (hvis : ∀ r ∈ w.db, r.visited = 0)
    (hguard : ∀ r ∈ w.db, dest_id ∉ (bkpXmlGet (rowSrcPath r).parent
        (w.sidecars (rowSrcPath r).parent) (rowSrcPath r).name).bkp_dests)
    (hbase : ∀ r ∈ w.db, dest_path.base ≠ some r.src_path)
    (hX : X ∈ for_backup w.db dest_id)
    (hfailX : env.copyOk (rowSrcPath X) = false)
    (hcop0 : w.copies = []) :
    (copy_best_files env dest_path dest_id w).2 = false ∧
      rowSrcPath X ∈ (copy_best_files env dest_path dest_id w).1.attempts ∧
      rowSrcPath X ∉ (copy_best_files env dest_path dest_id w).1.copies ∧
      X ∈ (copy_best_files env dest_path dest_id w).1.db ∧
      X ∈ for_backup (copy_best_files env dest_path dest_id w).1.db dest_id ∧
      ∀ Y ∈ for_backup w.db dest_id, env.copyOk (rowSrcPath Y) = true →
        rowSrcPath Y ∈ (copy_best_files env dest_path dest_id w).1.copies ∧
        (copy_best_files env dest_path dest_id w).1.db.find?
            (fun r => r.filename == Y.filename) = some { Y with visited := 1 } := by
  obtain ⟨c1, c2, c3, c4, c5⟩ :=
    copy_best_files_spec env dest_path dest_id w hfile hnodup hvis hguard hbase
  have hselnd := for_backup_map_nodup w.db dest_id hnodup
  have hXdb : X ∈ w.db := ((for_backup_mem_iff w.db dest_id X).mp hX).1
  have hinj : ∀ Y ∈ for_backup w.db dest_id, Y.filename = X.filename → Y = X :=
    fun Y hY he => List.inj_on_of_nodup_map hselnd hY hX he
  refine ⟨c1, ?_, ?_, ?_, ?_, ?_⟩
  · rw [c2]
    exact List.mem_append_right _ (List.mem_map_of_mem rowSrcPath hX)
  · rw [c3, hcop0]
    intro hmem
    simp only [List.nil_append, List.mem_map, List.mem_filter] at hmem
    obtain ⟨Y, ⟨hYsel, hYok⟩, hYp⟩ := hmem
    have hfn : Y.filename = X.filename := by
      have := congrArg PyPath.rel hYp
      simpa [rowSrcPath] using this
    rw [hinj Y hYsel hfn] at hYok
    rw [hfailX] at hYok
    exact Bool.false_ne_true hYok
  · rw [c4]
    refine markCopied_mem_preserve env _ _ _ hXdb ?_
    intro Y hY hYok he
    rw [hinj Y hY he] at hYok
    rw [hfailX] at hYok
    exact Bool.false_ne_true hYok
  · rw [for_backup_mem_iff]
    constructor
    · rw [c4]
      refine markCopied_mem_preserve env _ _ _ hXdb ?_
      intro Y hY hYok he
      rw [hinj Y hY he] at hYok
      rw [hfailX] at hYok
      exact Bool.false_ne_true hYok
    · exact ((for_backup_mem_iff w.db dest_id X).mp hX).2
  · intro Y hYsel hYok
    constructor
    · rw [c3]
      refine List.mem_append_right _ ?_
      exact List.mem_map_of_mem rowSrcPath (List.mem_filter.mpr ⟨hYsel, by simp [hYok]⟩)
    · rw [c4]
      exact markCopied_find_visited env _ _ Y hselnd hYsel hYok
        (find?_of_nodup_mem w.db Y hnodup
          ((for_backup_mem_iff w.db dest_id Y).mp hYsel).1)

/-- Concrete environment for the C8 witness: the copy of a.txt fails
with IOError, every other copy succeeds. -/
def envC8 : BackupEnv :=
  { fs := ⟨fun _ => "M"⟩, stat := fun _ => ⟨1, 5⟩, isFile := fun _ => true,
    copyOk := fun p => if p = ⟨some "s", ["a"]⟩ then false else true,
    baseName := fun _ => "s" }

/-- Concrete table for the C8 witness. -/
def dbC8 : DbState :=
  [{ filename := ["a"], src_path := "s", size := some 9, md5_hash := "ha" },
   { filename := ["b"], src_path := "s", size := some 4, md5_hash := "hb" }]

/-- Concrete world for the C8 witness. -/
def wC8 : World := { sidecars := fun _ => [], db := dbC8, attempts := [], copies := [] }

/-- Witness for C8: with the copy of a.txt failing, the batch does not
abort, a.txt is attempted but not copied and stays selected, and b is
copied and marked visited. -/
theorem partial_failure_containment_witness :
    (copy_best_files envC8 ⟨some "T", []⟩ "D" wC8).2 = false ∧
      rowSrcPath { filename := ["a"], src_path := "s", size := some 9, md5_hash := "ha" } ∉
        (copy_best_files envC8 ⟨some "T", []⟩ "D" wC8).1.copies ∧
      { filename := ["a"], src_path := "s", size := some 9, md5_hash := "ha" } ∈
        for_backup (copy_best_files envC8 ⟨some "T", []⟩ "D" wC8).1.db "D" := by
  have h := partial_failure_containment envC8 ⟨some "T", []⟩ "D" wC8
    { filename := ["a"], src_path := "s", size := some 9, md5_hash := "ha" }
    (fun p => rfl) (by decide) (by decide) (by decide) (by decide)
    (by decide) (by decide) rfl
  exact ⟨h.1, h.2.2.1, h.2.2.2.2.1⟩

/-! Sidecar record lemmas for the synchronization phase. -/

theorem bkpXmlGet_name (dir : PyPath) (root : List BkpFile) (key : String) :
    (bkpXmlGet dir root key).name = key := by
  unfold bkpXmlGet
  cases lkupBkp root key <;> rfl

theorem bkpXmlGet_path (dir : PyPath) (root : List BkpFile) (key : String) :
    (bkpXmlGet dir root key).file_path = dir.child key := by
  unfold bkpXmlGet
  cases lkupBkp root key <;> rfl

theorem lkupBkp_setRec (root : List BkpFile) (key : String) (v : BkpFile)
    (hv : v.name = key) (nm : String) :
    lkupBkp (bkpXmlSetRec root key v) nm =
      if key = nm then some v else lkupBkp root nm := by
  induction root with
  | nil =>
    show lkupBkp [v] nm = _
    unfold lkupBkp
    by_cases h : key = nm
    · rw [if_pos h]
      simp only [List.find?_cons, show (v.name == nm) = true by simp [hv, h]]
    · rw [if_neg h]
      simp only [List.find?_cons, show (v.name == nm) = false by simp [hv, h],
        List.find?_nil]
  | cons f fls ih =>
    show lkupBkp (if f.name == key then v :: fls else f :: bkpXmlSetRec fls key v) nm = _
    by_cases hf : (f.name == key) = true
    · rw [if_pos hf]
      have hfk : f.name = key := by simpa using hf
      unfold lkupBkp
      by_cases h : key = nm
      · rw [if_pos h]
        simp only [List.find?_cons, show (v.name == nm) = true by simp [hv, h]]
      · rw [if_neg h]
        simp only [List.find?_cons, show (v.name == nm) = false by simp [hv, h],
          show (f.name == nm) = false by simp [hfk, h]]
    · rw [if_neg hf]
      unfold lkupBkp
      by_cases hm : (f.name == nm) = true
      · have h : ¬(key = nm) := by
          intro he
          subst he
          exact hf hm
        rw [if_neg h]
        simp only [List.find?_cons, hm]
      · have hmf : (f.name == nm) = false := by simpa using hm
        simp only [List.find?_cons, hmf]
        exact ih

theorem bkpXmlSet_dests (fs : FsOracle) (root : List BkpFile) (key : String)
    (v : BkpFile) (hv : v.name = key) (dir : PyPath) (nm : String) :
    (bkpXmlGet dir (bkpXmlSet fs root key v) nm).bkp_dests =
      if key = nm then v.bkp_dests else (bkpXmlGet dir root nm).bkp_dests := by
  unfold bkpXmlSet bkpXmlGet
  set v2 := if v.md5 = "" then { v with md5 := fs.contentMd5 v.file_path } else v with hv2
  have hv2n : v2.name = key := by
    rw [hv2]
    split <;> simp [hv]
  have hv2d : v2.bkp_dests = v.bkp_dests := by
    rw [hv2]
    split <;> rfl
  rw [show lkupBkp (bkpXmlSetRec root key v2) nm =
      if key = nm then some v2 else lkupBkp root nm from
    lkupBkp_setRec root key v2 hv2n nm]
  by_cases h : key = nm
  · rw [if_pos h, if_pos h]
    simp [hv2d]
  · rw [if_neg h, if_neg h]

theorem bkpXmlGet_set_other (fs : FsOracle) (root : List BkpFile) (key : String)
    (v : BkpFile) (hv : v.name = key) (dir : PyPath) (nm : String) (hne : key ≠ nm) :
    bkpXmlGet dir (bkpXmlSet fs root key v) nm = bkpXmlGet dir root nm := by
  unfold bkpXmlSet bkpXmlGet
  set v2 := if v.md5 = "" then { v with md5 := fs.contentMd5 v.file_path } else v with hv2
  have hv2n : v2.name = key := by
    rw [hv2]
    split <;> simp [hv]
  rw [show lkupBkp (bkpXmlSetRec root key v2) nm =
      if key = nm then some v2 else lkupBkp root nm from
    lkupBkp_setRec root key v2 hv2n nm]
  rw [if_neg hne]

theorem bkpXmlGet_set_self (fs : FsOracle) (root : List BkpFile) (key : String)
    (v : BkpFile) (hv : v.name = key) (dir : PyPath) (hm : v.md5 ≠ "") :
    bkpXmlGet dir (bkpXmlSet fs root key v) key =
      { v with name := key, file_path := dir.child key } := by
  unfold bkpXmlSet bkpXmlGet
  rw [if_neg hm]
  rw [show lkupBkp (bkpXmlSetRec root key v) key =
      if key = key then some v else lkupBkp root key from
    lkupBkp_setRec root key v hv key]
  rw [if_pos rfl]

theorem visit_file_dests (fs : FsOracle) (dir : PyPath) (root : List BkpFile)
    (entry : PyPath) (sr : StatResult) (nm : String) :
    (bkpXmlGet dir (visit_file fs dir root entry sr).1 nm).bkp_dests =
      (bkpXmlGet dir root nm).bkp_dests := by
  unfold visit_file
  split
  · simp only
    rw [bkpXmlSet_dests fs root entry.name
      ⟨(bkpXmlGet dir root entry.name).name, (bkpXmlGet dir root entry.name).file_path,
        some sr.st_size, some sr.st_mtime, fs.contentMd5 entry,
        (bkpXmlGet dir root entry.name).bkp_dests⟩
      (bkpXmlGet_name dir root entry.name) dir nm]
    split
    · rename_i h
      subst h
      rfl
    · rfl
  · rfl

theorem visit_file_get_other (fs : FsOracle) (dir : PyPath) (root : List BkpFile)
    (entry : PyPath) (sr : StatResult) (nm : String) (hne : entry.name ≠ nm) :
    bkpXmlGet dir (visit_file fs dir root entry sr).1 nm = bkpXmlGet dir root nm := by
  unfold visit_file
  split
  · simp only
    exact bkpXmlGet_set_other fs root entry.name
      ⟨(bkpXmlGet dir root entry.name).name, (bkpXmlGet dir root entry.name).file_path,
        some sr.st_size, some sr.st_mtime, fs.contentMd5 entry,
        (bkpXmlGet dir root entry.name).bkp_dests⟩
      (bkpXmlGet_name dir root entry.name) dir nm hne
  · rfl

theorem visit_file_get_self (fs : FsOracle) (dir : PyPath) (root : List BkpFile)
    (entry : PyPath) (sr : StatResult) (hmd5 : ∀ p, fs.contentMd5 p ≠ "") :
    (bkpXmlGet dir (visit_file fs dir root entry sr).1 entry.name).md5 ≠ "" ∧
      (bkpXmlGet dir (visit_file fs dir root entry sr).1 entry.name).mtime =
        some sr.st_mtime ∧
      (bkpXmlGet dir (visit_file fs dir root entry sr).1 entry.name).size =
        some sr.st_size ∧
      (bkpXmlGet dir (visit_file fs dir root entry sr).1 entry.name).bkp_dests =
        (bkpXmlGet dir root entry.name).bkp_dests := by
  unfold visit_file
  split
  · simp only
    rw [bkpXmlGet_set_self fs root entry.name
      ⟨(bkpXmlGet dir root entry.name).name, (bkpXmlGet dir root entry.name).file_path,
        some sr.st_size, some sr.st_mtime, fs.contentMd5 entry,
        (bkpXmlGet dir root entry.name).bkp_dests⟩
      (bkpXmlGet_name dir root entry.name) dir (hmd5 entry)]
    exact ⟨hmd5 entry, rfl, rfl, rfl⟩
  · rename_i h
    push_neg at h
    obtain ⟨h1, h2⟩ := h
    have hb : same_stats (bkpXmlGet dir root entry.name) sr = true := by
      cases hc : same_stats (bkpXmlGet dir root entry.name) sr
      · exact absurd hc h2
      · rfl
    unfold same_stats at hb
    simp only [Bool.and_eq_true, beq_iff_eq] at hb
    exact ⟨h1, hb.1, hb.2, rfl⟩

theorem prune_get (dir : PyPath) (root : List BkpFile) (names : List String)
    (nm : String) (hnm : names.contains nm = true) :
    bkpXmlGet dir (remove_if_not_in_set root names) nm = bkpXmlGet dir root nm := by
  unfold remove_if_not_in_set bkpXmlGet lkupBkp
  induction root with
  | nil => rfl
  | cons f fls ih =>
    rw [List.filter_cons]
    by_cases hf : (names.contains f.name) = true
    · rw [if_pos hf]
      by_cases hm : (f.name == nm) = true
      · simp only [List.find?_cons, hm]
      · have hmf : (f.name == nm) = false := by simpa using hm
        simp only [List.find?_cons, hmf]
        exact ih
    · rw [if_neg hf]
      have hmf : (f.name == nm) = false := by
        by_contra hc
        have : f.name = nm := by simpa using hc
        rw [this] at hf
        exact hf hnm
      have hg :
          (List.find? (fun f => f.name == nm) (f :: fls)) =
            List.find? (fun f => f.name == nm) fls := by
        simp only [List.find?_cons, hmf]
      rw [hg]
      exact ih

/-! ### The at-most-once-per-destination composition (C4 machinery) -/

theorem child_name (p : PyPath) (n : String) : (p.child n).name = n := by
  unfold PyPath.child PyPath.name
  simp

theorem child_parent (p : PyPath) (n : String) : (p.child n).parent = p := by
  unfold PyPath.child PyPath.parent
  simp

theorem relative_to_base (b : String) (l : List String) :
    (PyPath.mk (some b) l).relative_to ⟨some b, []⟩ = some l := by
  unfold PyPath.relative_to
  rw [if_pos ⟨rfl, by simp [List.isPrefixOf]⟩]
  simp

/-- The visit pass a directory's walk performs over its files. -/
def visitFold (env : BackupEnv) (dirPath : PyPath)
    (files : List (String × StatResult)) (root : List BkpFile) : List BkpFile :=
  files.foldl
    (fun r nf => (visit_file env.fs dirPath r (dirPath.child nf.1) nf.2).1) root

theorem visitFold_nil (env : BackupEnv) (dirPath : PyPath) (root : List BkpFile) :
    visitFold env dirPath [] root = root := rfl

theorem visitFold_cons (env : BackupEnv) (dirPath : PyPath)
    (nf : String × StatResult) (fs : List (String × StatResult))
    (root : List BkpFile) :
    visitFold env dirPath (nf :: fs) root =
      visitFold env dirPath fs
        (visit_file env.fs dirPath root (dirPath.child nf.1) nf.2).1 := rfl

theorem visitFold_get_other (env : BackupEnv) (dirPath : PyPath) :
    ∀ (files : List (String × StatResult)) (root : List BkpFile) (nm : String),
    nm ∉ files.map Prod.fst →
    bkpXmlGet dirPath (visitFold env dirPath files root) nm =
      bkpXmlGet dirPath root nm := by
  intro files
  induction files with
  | nil => intro root nm _; rfl
  | cons nf fs ih =>
    intro root nm hnm
    rw [visitFold_cons]
    rw [ih _ nm (fun h => hnm (by simp [h]))]
    have hne : (dirPath.child nf.1).name ≠ nm := by
      rw [child_name]
      intro h
      exact hnm (by simp [h])
    exact visit_file_get_other env.fs dirPath root (dirPath.child nf.1) nf.2 nm hne

theorem visitFold_dests (env : BackupEnv) (dirPath : PyPath) :
    ∀ (files : List (String × StatResult)) (root : List BkpFile) (nm : String),
    (bkpXmlGet dirPath (visitFold env dirPath files root) nm).bkp_dests =
      (bkpXmlGet dirPath root nm).bkp_dests := by
  intro files
  induction files with
  | nil => intro root nm; rfl
  | cons nf fs ih =>
    intro root nm
    rw [visitFold_cons, ih]
    have h := visit_file_dests env.fs dirPath root (dirPath.child nf.1) nf.2 nm
    exact h

/-- After the visit pass, every visited file's record carries a
non-empty fingerprint, the stat's mtime and size, and the destination
set it had before the pass. -/
theorem visitFold_get (env : BackupEnv) (dirPath : PyPath)
    (hmd5 : ∀ p, env.fs.contentMd5 p ≠ "") :
    ∀ (files : List (String × StatResult)) (root : List BkpFile),
    (files.map Prod.fst).Nodup →
    ∀ nf ∈ files,
      (bkpXmlGet dirPath (visitFold env dirPath files root) nf.1).md5 ≠ "" ∧
      (bkpXmlGet dirPath (visitFold env dirPath files root) nf.1).mtime =
        some nf.2.st_mtime ∧
      (bkpXmlGet dirPath (visitFold env dirPath files root) nf.1).size =
        some nf.2.st_size ∧
      (bkpXmlGet dirPath (visitFold env dirPath files root) nf.1).bkp_dests =
        (bkpXmlGet dirPath root nf.1).bkp_dests := by
  intro files
  induction files with
  | nil => intro root _ nf hnf; simp at hnf
  | cons g fs ih =>
    intro root hnd nf hnf
    have hnd2 : (fs.map Prod.fst).Nodup := by
      simp only [List.map_cons, List.nodup_cons] at hnd
      exact hnd.2
    rcases List.mem_cons.mp hnf with h | h
    · subst h
      rw [visitFold_cons]
      have hfresh : nf.1 ∉ fs.map Prod.fst := by
        simp only [List.map_cons, List.nodup_cons] at hnd
        exact hnd.1
      rw [visitFold_get_other env dirPath fs _ nf.1 hfresh]
      have hself := visit_file_get_self env.fs dirPath root (dirPath.child nf.1)
        nf.2 hmd5
      rw [child_name] at hself
      refine ⟨hself.1, hself.2.1, hself.2.2.1, ?_⟩
      exact hself.2.2.2
    · rw [visitFold_cons]
      obtain ⟨c1, c2, c3, c4⟩ := ih _ hnd2 nf h
      refine ⟨c1, c2, c3, ?_⟩
      rw [c4]
      exact visit_file_dests env.fs dirPath root (dirPath.child g.1) g.2 nf.1

/-- The per-directory world fold of the synchronizer only threads the
table through sync_one; sidecars, attempts and copies ride along. -/
theorem world_db_fold (g : (String × StatResult) → BkpFile) (src_root : String) :
    ∀ (files : List (String × StatResult)) (w : World) (b : Bool),
    files.foldl
      (fun acc nf =>
        if acc.2 then acc
        else
          let r := sync_one acc.1.db src_root (g nf)
          ({ acc.1 with db := r.1 }, r.2)) (w, b) =
      ({ w with db := (files.foldl
          (fun acc nf => if acc.2 then acc else sync_one acc.1 src_root (g nf))
          (w.db, b)).1 },
       (files.foldl
          (fun acc nf => if acc.2 then acc else sync_one acc.1 src_root (g nf))
          (w.db, b)).2) := by
  intro files
  induction files with
  | nil => intro w b; rfl
  | cons nf fs ih =>
    intro w b
    rw [List.foldl_cons, List.foldl_cons]
    by_cases hb : b = true
    · subst hb
      rw [if_pos rfl, if_pos rfl]
      exact ih w true
    · have hb2 : b = false := by
        cases b
        · rfl
        · exact absurd rfl hb
      subst hb2
      rw [if_neg (by simp), if_neg (by simp)]
      simp only
      rw [ih { w with db := (sync_one w.db src_root (g nf)).1 }
        (sync_one w.db src_root (g nf)).2]

theorem create_update_map (db : DbState) (src_root : String)
    (g : (String × StatResult) → BkpFile) (files : List (String × StatResult)) :
    create_update_db_file_entries db src_root (files.map g) =
      files.foldl
        (fun acc nf => if acc.2 then acc else sync_one acc.1 src_root (g nf))
        (db, false) := by
  unfold create_update_db_file_entries
  rw [List.foldl_map]

/-- The directory of a walked relative path under a source root. -/
def srcDirPath (src_root : String) (dirRel : List String) : PyPath :=
  ⟨some src_root, dirRel⟩

/-- The sidecar root a directory holds after its prune and visit pass. -/
def syncRoot (env : BackupEnv) (src_root : String) (dirRel : List String)
    (files : List (String × StatResult)) (w : World) : List BkpFile :=
  visitFold env (srcDirPath src_root dirRel) files
    (remove_if_not_in_set (w.sidecars (srcDirPath src_root dirRel))
      (files.map Prod.fst))

/-- The synchronizer's directory pass, factored: the sidecar root is
pruned and visited, the table is the sync_one fold over the visited
records, and nothing else of the world changes. -/
theorem sync_directory_eq (env : BackupEnv) (src_root : String) (dirRel : List String)
    (files : List (String × StatResult)) (w : World) :
    sync_directory env src_root dirRel files w =
      ({ w with
           sidecars := updMap w.sidecars (srcDirPath src_root dirRel)
             (syncRoot env src_root dirRel files w),
           db := (create_update_db_file_entries w.db src_root
             (files.map (fun nf => bkpXmlGet (srcDirPath src_root dirRel)
               (syncRoot env src_root dirRel files w) nf.1))).1 },
       (create_update_db_file_entries w.db src_root
         (files.map (fun nf => bkpXmlGet (srcDirPath src_root dirRel)
           (syncRoot env src_root dirRel files w) nf.1))).2) := by
  have h0 : sync_directory env src_root dirRel files w =
      files.foldl
        (fun acc nf =>
          if acc.2 then acc
          else
            let r := sync_one acc.1.db src_root
              (bkpXmlGet (srcDirPath src_root dirRel)
                (syncRoot env src_root dirRel files w) nf.1)
            ({ acc.1 with db := r.1 }, r.2))
        ({ w with
             sidecars := updMap w.sidecars (srcDirPath src_root dirRel)
               (syncRoot env src_root dirRel files w) }, false) := rfl
  rw [h0]
  rw [world_db_fold
    (fun nf => bkpXmlGet (srcDirPath src_root dirRel)
      (syncRoot env src_root dirRel files w) nf.1) src_root files]
  rw [create_update_map]

/-- The row a successful sync_one leaves for the visited file: every
field overwritten from the sidecar record, marked visited. -/
def syncedRow (k : List String) (src_root : String) (f : BkpFile) : BackupFileRow :=
  ⟨k, src_root, f.size, f.mtime, f.md5, 1, f.bkp_dests⟩

theorem sync_one_content (db : DbState) (src_root : String) (f : BkpFile)
    (k : List String) (hval : bkpFileFalsy f = false)
    (hk : update_file_key f src_root = some k)
    (hnd : (db.map (·.filename)).Nodup) :
    (sync_one db src_root f).2 = false ∧
    ((sync_one db src_root f).1.map (·.filename)).Nodup ∧
    (sync_one db src_root f).1.find? (fun r => r.filename == k)
      = some (syncedRow k src_root f) ∧
    (∀ name, name ≠ k →
      (sync_one db src_root f).1.find? (fun r => r.filename == name)
        = db.find? (fun r => r.filename == name)) := by
  cases hfind : db.find? (fun r => r.filename == k) with
  | none =>
    have hu := update_file_eq_none_case db f src_root k hk hfind hval
    have hnotin : ∀ r ∈ db, r.filename ≠ k := by
      intro r hr he
      have := List.find?_eq_none.mp hfind r hr
      simp [he] at this
    have hs1 : sync_one db src_root f = (db ++ [syncedRow k src_root f], false) := by
      rw [sync_one_eq db _ src_root f k hu]
      rw [updFirstByFilename_append_fresh k _ db _ hnotin rfl]
      rfl
    rw [hs1]
    refine ⟨rfl, ?_, ?_, ?_⟩
    · have hmap : ((db ++ [syncedRow k src_root f]).map (·.filename)) =
          db.map (·.filename) ++ [k] := by simp [syncedRow]
      rw [hmap, List.nodup_append]
      refine ⟨hnd, by simp, ?_⟩
      intro a ha hb
      simp only [List.mem_singleton] at hb
      obtain ⟨r, hr, he⟩ := List.mem_map.mp ha
      exact hnotin r hr (he.trans hb)
    · rw [List.find?_append, hfind]
      simp [syncedRow]
    · intro name hne
      rw [List.find?_append]
      have hsing : [syncedRow k src_root f].find? (fun r => r.filename == name)
          = none := by
        simp only [List.find?_cons, List.find?_nil]
        have : (k == name) = false := by
          simp only [beq_eq_false_iff_ne, ne_eq]
          exact fun h => hne h.symm
        simp [syncedRow, this]
      rw [hsing]
      exact Option.or_none
  | some r0 =>
    have hu := update_file_eq_some_case db f src_root k r0 hk hfind hval
    have hs1 : sync_one db src_root f =
        (updFirstByFilename k
          (fun r => { overwriteFrom f src_root r with visited := 1 }) db, false) := by
      rw [sync_one_eq db _ src_root f k hu]
      rw [updFirstByFilename_comp k _ _ (overwriteFrom_filename f src_root) db]
    have hr0k : r0.filename = k := by simpa using List.find?_some hfind
    rw [hs1]
    refine ⟨rfl, ?_, ?_, ?_⟩
    · rw [updFirstByFilename_map_filename k
        (fun r => { overwriteFrom f src_root r with visited := 1 })
        (fun r => rfl) db]
      exact hnd
    · rw [find?_updFirst_self k
        (fun r => { overwriteFrom f src_root r with visited := 1 })
        (fun r => rfl) db r0 hfind]
      have ht0 : { overwriteFrom f src_root r0 with visited := 1 } =
          syncedRow k src_root f := by
        unfold syncedRow
        rw [← hr0k]
        rfl
      rw [ht0]
    · intro name hne
      exact find?_updFirst_other k
        (fun r => { overwriteFrom f src_root r with visited := 1 })
        (fun r => rfl) db name hne

theorem sync_fold_content (src_root : String) :
    ∀ (pairs : List (List String × BkpFile)) (db : DbState),
    (∀ p ∈ pairs, bkpFileFalsy p.2 = false ∧ update_file_key p.2 src_root = some p.1) →
    ((pairs.map Prod.fst).Nodup) →
    ((db.map (·.filename)).Nodup) →
    (create_update_db_file_entries db src_root (pairs.map Prod.snd)).2 = false ∧
    (((create_update_db_file_entries db src_root
        (pairs.map Prod.snd)).1.map (·.filename)).Nodup) ∧
    (∀ p ∈ pairs,
      (create_update_db_file_entries db src_root (pairs.map Prod.snd)).1.find?
          (fun r => r.filename == p.1) = some (syncedRow p.1 src_root p.2)) ∧
    (∀ name, name ∉ pairs.map Prod.fst →
      (create_update_db_file_entries db src_root (pairs.map Prod.snd)).1.find?
          (fun r => r.filename == name) = db.find? (fun r => r.filename == name)) ∧
    (∀ name,
      hasVisitedRow (create_update_db_file_entries db src_root
        (pairs.map Prod.snd)).1 name ↔
        hasVisitedRow db name ∨ name ∈ pairs.map Prod.fst) := by
  intro pairs
  induction pairs with
  | nil =>
    intro db _ _ hnd
    exact ⟨rfl, hnd, by simp, fun name _ => rfl,
      fun name => by simp [create_update_db_file_entries]⟩
  | cons p rest ih =>
    intro db hv hknd hnd
    obtain ⟨hval, hk⟩ := hv p (by simp)
    obtain ⟨s1, s2, s3, s4⟩ := sync_one_content db src_root p.2 p.1 hval hk hnd
    obtain ⟨_, hiff⟩ := sync_one_spec db src_root p.2 p.1 hval hk
    have hknd2 : (rest.map Prod.fst).Nodup := by
      simp only [List.map_cons, List.nodup_cons] at hknd
      exact hknd.2
    have hkfresh : p.1 ∉ rest.map Prod.fst := by
      simp only [List.map_cons, List.nodup_cons] at hknd
      exact hknd.1
    have hmap : (p :: rest).map Prod.snd = p.2 :: rest.map Prod.snd := by simp
    rw [hmap, create_update_cons db src_root p.2 (rest.map Prod.snd) s1]
    obtain ⟨c1, c2, c3, c4, c5⟩ := ih (sync_one db src_root p.2).1
      (fun q hq => hv q (by simp [hq])) hknd2 s2
    refine ⟨c1, c2, ?_, ?_, ?_⟩
    · intro q hq
      rcases List.mem_cons.mp hq with h | h
      · subst h
        rw [c4 q.1 hkfresh]
        exact s3
      · exact c3 q h
    · intro name hname
      have hn1 : name ∉ rest.map Prod.fst := by
        intro h
        refine hname ?_
        rw [List.map_cons]
        exact List.mem_cons_of_mem _ h
      have hn2 : name ≠ p.1 := by
        intro h
        refine hname ?_
        rw [h, List.map_cons]
        exact List.mem_cons_self _ _
      rw [c4 name hn1]
      exact s4 name hn2
    · intro name
      rw [c5 name, hiff name]
      simp only [List.map_cons, List.mem_cons]
      tauto

/-- Relative filenames of one walked directory's files. -/
def dirKeys (dirRel : List String) (files : List (String × StatResult)) :
    List (List String) :=
  files.map (fun nf => dirRel ++ [nf.1])

theorem sourceKeys_eq (src : SourceTree) :
    sourceKeys src = src.dirs.flatMap (fun d => dirKeys d.1 d.2) := rfl

theorem dirKeys_nodup (dirRel : List String) (files : List (String × StatResult))
    (h : (files.map Prod.fst).Nodup) : (dirKeys dirRel files).Nodup := by
  have : dirKeys dirRel files = (files.map Prod.fst).map (fun n => dirRel ++ [n]) := by
    unfold dirKeys
    rw [List.map_map]
    rfl
  rw [this]
  refine h.map ?_
  intro a b hab
  have := List.append_cancel_left hab
  simpa using this

/-- One directory pass of the synchronizing walk: it never raises,
leaves attempts/copies and the other directories' sidecars alone,
refreshes each walked file's record to a complete one while preserving
its destination set, and rewrites the table rows of the walked files
from those records, marking them visited; other rows and lookups are
untouched. -/
theorem sync_directory_spec (env : BackupEnv) (src_root : String)
    (dirRel : List String) (files : List (String × StatResult)) (w : World)
    (hmd5 : ∀ p, env.fs.contentMd5 p ≠ "")
    (hmt : ∀ nf ∈ files, nf.2.st_mtime ≠ 0)
    (hfnd : (files.map Prod.fst).Nodup)
    (hnd : (w.db.map (·.filename)).Nodup) :
    (sync_directory env src_root dirRel files w).2 = false ∧
    (sync_directory env src_root dirRel files w).1.attempts = w.attempts ∧
    (sync_directory env src_root dirRel files w).1.copies = w.copies ∧
    (∀ dir, dir ≠ srcDirPath src_root dirRel →
      (sync_directory env src_root dirRel files w).1.sidecars dir = w.sidecars dir) ∧
    (((sync_directory env src_root dirRel files w).1.db.map (·.filename)).Nodup) ∧
    (∀ nf ∈ files,
      (bkpXmlGet (srcDirPath src_root dirRel)
        ((sync_directory env src_root dirRel files w).1.sidecars
          (srcDirPath src_root dirRel)) nf.1).md5 ≠ "" ∧
      (bkpXmlGet (srcDirPath src_root dirRel)
        ((sync_directory env src_root dirRel files w).1.sidecars
          (srcDirPath src_root dirRel)) nf.1).mtime = some nf.2.st_mtime ∧
      (bkpXmlGet (srcDirPath src_root dirRel)
        ((sync_directory env src_root dirRel files w).1.sidecars
          (srcDirPath src_root dirRel)) nf.1).size = some nf.2.st_size ∧
      (bkpXmlGet (srcDirPath src_root dirRel)
        ((sync_directory env src_root dirRel files w).1.sidecars
          (srcDirPath src_root dirRel)) nf.1).bkp_dests =
        (bkpXmlGet (srcDirPath src_root dirRel)
          (w.sidecars (srcDirPath src_root dirRel)) nf.1).bkp_dests ∧
      (sync_directory env src_root dirRel files w).1.db.find?
          (fun r => r.filename == dirRel ++ [nf.1]) =
        some (syncedRow (dirRel ++ [nf.1]) src_root
          (bkpXmlGet (srcDirPath src_root dirRel)
            ((sync_directory env src_root dirRel files w).1.sidecars
              (srcDirPath src_root dirRel)) nf.1))) ∧
    (∀ name, name ∉ dirKeys dirRel files →
      (sync_directory env src_root dirRel files w).1.db.find?
          (fun r => r.filename == name) =
        w.db.find? (fun r => r.filename == name)) ∧
    (∀ name, hasVisitedRow (sync_directory env src_root dirRel files w).1.db name ↔
      hasVisitedRow w.db name ∨ name ∈ dirKeys dirRel files) := by
  have hrec : ∀ nf ∈ files,
      (bkpXmlGet (srcDirPath src_root dirRel)
        (syncRoot env src_root dirRel files w) nf.1).md5 ≠ "" ∧
      (bkpXmlGet (srcDirPath src_root dirRel)
        (syncRoot env src_root dirRel files w) nf.1).mtime = some nf.2.st_mtime ∧
      (bkpXmlGet (srcDirPath src_root dirRel)
        (syncRoot env src_root dirRel files w) nf.1).size = some nf.2.st_size ∧
      (bkpXmlGet (srcDirPath src_root dirRel)
        (syncRoot env src_root dirRel files w) nf.1).bkp_dests =
        (bkpXmlGet (srcDirPath src_root dirRel)
          (w.sidecars (srcDirPath src_root dirRel)) nf.1).bkp_dests := by
    intro nf hnf
    obtain ⟨c1, c2, c3, c4⟩ := visitFold_get env (srcDirPath src_root dirRel) hmd5
      files (remove_if_not_in_set (w.sidecars (srcDirPath src_root dirRel))
        (files.map Prod.fst)) hfnd nf hnf
    refine ⟨c1, c2, c3, ?_⟩
    rw [show syncRoot env src_root dirRel files w =
      visitFold env (srcDirPath src_root dirRel) files
        (remove_if_not_in_set (w.sidecars (srcDirPath src_root dirRel))
          (files.map Prod.fst)) from rfl]
    rw [c4]
    congr 1
    refine prune_get (srcDirPath src_root dirRel)
      (w.sidecars (srcDirPath src_root dirRel)) (files.map Prod.fst) nf.1 ?_
    exact List.elem_eq_true_of_mem (List.mem_map_of_mem Prod.fst hnf)
  have hpairs :
      files.map (fun nf => bkpXmlGet (srcDirPath src_root dirRel)
          (syncRoot env src_root dirRel files w) nf.1) =
        (files.map (fun nf => (dirRel ++ [nf.1],
          bkpXmlGet (srcDirPath src_root dirRel)
            (syncRoot env src_root dirRel files w) nf.1))).map Prod.snd := by
    rw [List.map_map]
    rfl
  have hkeys :
      (files.map (fun nf => (dirRel ++ [nf.1],
        bkpXmlGet (srcDirPath src_root dirRel)
          (syncRoot env src_root dirRel files w) nf.1))).map Prod.fst =
        dirKeys dirRel files := by
    rw [List.map_map]
    rfl
  have hvalid : ∀ p ∈ files.map (fun nf => (dirRel ++ [nf.1],
      bkpXmlGet (srcDirPath src_root dirRel)
        (syncRoot env src_root dirRel files w) nf.1)),
      bkpFileFalsy p.2 = false ∧ update_file_key p.2 src_root = some p.1 := by
    intro p hp
    obtain ⟨nf, hnf, he⟩ := List.mem_map.mp hp
    obtain ⟨c1, c2, c3, c4⟩ := hrec nf hnf
    subst he
    constructor
    · unfold bkpFileFalsy
      rw [c2]
      have hne0 : nf.2.st_mtime ≠ 0 := hmt nf hnf
      simp [c1, hne0]
    · unfold update_file_key
      rw [bkpXmlGet_path]
      rw [show (srcDirPath src_root dirRel).child nf.1 =
        ⟨some src_root, dirRel ++ [nf.1]⟩ from rfl]
      rw [if_pos (by rfl)]
      exact relative_to_base src_root (dirRel ++ [nf.1])
  obtain ⟨f1, f2, f3, f4, f5⟩ := sync_fold_content src_root
    (files.map (fun nf => (dirRel ++ [nf.1],
      bkpXmlGet (srcDirPath src_root dirRel)
        (syncRoot env src_root dirRel files w) nf.1))) w.db hvalid
    (by rw [hkeys]; exact dirKeys_nodup dirRel files hfnd) hnd
  rw [← hpairs] at f1 f2 f3 f4 f5
  rw [hkeys] at f4 f5
  have hsc : (sync_directory env src_root dirRel files w).1.sidecars =
      updMap w.sidecars (srcDirPath src_root dirRel)
        (syncRoot env src_root dirRel files w) := by
    rw [sync_directory_eq]
  have hdb : (sync_directory env src_root dirRel files w).1.db =
      (create_update_db_file_entries w.db src_root
        (files.map (fun nf => bkpXmlGet (srcDirPath src_root dirRel)
          (syncRoot env src_root dirRel files w) nf.1))).1 := by
    rw [sync_directory_eq]
  have hfl : (sync_directory env src_root dirRel files w).2 =
      (create_update_db_file_entries w.db src_root
        (files.map (fun nf => bkpXmlGet (srcDirPath src_root dirRel)
          (syncRoot env src_root dirRel files w) nf.1))).2 := by
    rw [sync_directory_eq]
  have hat : (sync_directory env src_root dirRel files w).1.attempts = w.attempts := by
    rw [sync_directory_eq]
  have hcp : (sync_directory env src_root dirRel files w).1.copies = w.copies := by
    rw [sync_directory_eq]
  have hself : updMap w.sidecars (srcDirPath src_root dirRel)
      (syncRoot env src_root dirRel files w) (srcDirPath src_root dirRel) =
      syncRoot env src_root dirRel files w := by
    unfold updMap
    rw [if_pos rfl]
  refine ⟨?_, hat, hcp, ?_, ?_, ?_, ?_, ?_⟩
  · rw [hfl]
    exact f1
  · intro dir hdir
    rw [hsc]
    unfold updMap
    rw [if_neg hdir]
  · rw [hdb]
    exact f2
  · intro nf hnf
    rw [hdb, hsc, hself]
    obtain ⟨c1, c2, c3, c4⟩ := hrec nf hnf
    refine ⟨c1, c2, c3, c4, ?_⟩
    have := f3 (dirRel ++ [nf.1],
      bkpXmlGet (srcDirPath src_root dirRel)
        (syncRoot env src_root dirRel files w) nf.1)
      (List.mem_map_of_mem _ hnf)
    exact this
  · intro name hn
    rw [hdb]
    exact f4 name hn
  · intro name
    rw [hdb]
    exact f5 name

/-- The synchronizer's walk over a source's directories. -/
def sync_dirs (env : BackupEnv) (src_root : String)
    (ds : List (List String × List (String × StatResult))) (w : World) :
    World × Bool :=
  ds.foldl
    (fun acc d => if acc.2 then acc else sync_directory env src_root d.1 d.2 acc.1)
    (w, false)

theorem sync_source_eq (env : BackupEnv) (src : SourceTree) (w : World) :
    sync_source env src w = sync_dirs env src.root src.dirs w := rfl

theorem sync_dirs_cons (env : BackupEnv) (src_root : String)
    (d0 : List String × List (String × StatResult))
    (ds : List (List String × List (String × StatResult))) (w : World)
    (hok : (sync_directory env src_root d0.1 d0.2 w).2 = false) :
    sync_dirs env src_root (d0 :: ds) w =
      sync_dirs env src_root ds (sync_directory env src_root d0.1 d0.2 w).1 := by
  unfold sync_dirs
  rw [List.foldl_cons]
  congr 1
  show (if false = true then (w, false) else sync_directory env src_root d0.1 d0.2 w) = _
  rw [if_neg (by simp)]
  exact Prod.ext_iff.mpr ⟨rfl, hok⟩

theorem srcDirPath_inj (src_root : String) (a b : List String)
    (h : srcDirPath src_root a = srcDirPath src_root b) : a = b := by
  unfold srcDirPath at h
  simpa using h

/-- The full synchronizing walk over a source's directories: it never
raises, leaves attempts/copies and the sidecars of unrelated
directories alone, keeps the table's filenames duplicate-free,
refreshes every walked file's record (preserving its destination set)
and rewrites its table row from that record, leaves other lookups
untouched, and the visited rows are exactly the prior ones plus the
walked files. -/
theorem sync_dirs_spec (env : BackupEnv) (src_root : String)
    (hmd5 : ∀ p, env.fs.contentMd5 p ≠ "") :
    ∀ (ds : List (List String × List (String × StatResult))) (w : World),
    (∀ d ∈ ds, ∀ nf ∈ d.2, nf.2.st_mtime ≠ 0) →
    ((ds.map Prod.fst).Nodup) →
    (∀ d ∈ ds, (d.2.map Prod.fst).Nodup) →
    ((w.db.map (·.filename)).Nodup) →
    (sync_dirs env src_root ds w).2 = false ∧
    (sync_dirs env src_root ds w).1.attempts = w.attempts ∧
    (sync_dirs env src_root ds w).1.copies = w.copies ∧
    (((sync_dirs env src_root ds w).1.db.map (·.filename)).Nodup) ∧
    (∀ dir, dir ∉ ds.map (fun d => srcDirPath src_root d.1) →
      (sync_dirs env src_root ds w).1.sidecars dir = w.sidecars dir) ∧
    (∀ d ∈ ds, ∀ nf ∈ d.2,
      (bkpXmlGet (srcDirPath src_root d.1)
        ((sync_dirs env src_root ds w).1.sidecars (srcDirPath src_root d.1))
          nf.1).md5 ≠ "" ∧
      (bkpXmlGet (srcDirPath src_root d.1)
        ((sync_dirs env src_root ds w).1.sidecars (srcDirPath src_root d.1))
          nf.1).mtime = some nf.2.st_mtime ∧
      (bkpXmlGet (srcDirPath src_root d.1)
        ((sync_dirs env src_root ds w).1.sidecars (srcDirPath src_root d.1))
          nf.1).size = some nf.2.st_size ∧
      (bkpXmlGet (srcDirPath src_root d.1)
        ((sync_dirs env src_root ds w).1.sidecars (srcDirPath src_root d.1))
          nf.1).bkp_dests =
        (bkpXmlGet (srcDirPath src_root d.1)
          (w.sidecars (srcDirPath src_root d.1)) nf.1).bkp_dests ∧
      (sync_dirs env src_root ds w).1.db.find?
          (fun r => r.filename == d.1 ++ [nf.1]) =
        some (syncedRow (d.1 ++ [nf.1]) src_root
          (bkpXmlGet (srcDirPath src_root d.1)
            ((sync_dirs env src_root ds w).1.sidecars (srcDirPath src_root d.1))
              nf.1))) ∧
    (∀ name, name ∉ ds.flatMap (fun d => dirKeys d.1 d.2) →
      (sync_dirs env src_root ds w).1.db.find? (fun r => r.filename == name) =
        w.db.find? (fun r => r.filename == name)) ∧
    (∀ name, hasVisitedRow (sync_dirs env src_root ds w).1.db name ↔
      hasVisitedRow w.db name ∨ name ∈ ds.flatMap (fun d => dirKeys d.1 d.2)) := by
  intro ds
  induction ds with
  | nil =>
    intro w _ _ _ hnd
    exact ⟨rfl, rfl, rfl, hnd, fun dir _ => rfl, by simp, fun name _ => rfl,
      fun name => by simp [sync_dirs]⟩
  | cons d0 rest ih =>
    intro w hmt hdnd hfnd hnd
    obtain ⟨b1, b2, b3, b4, b5, b6, b7, b8⟩ :=
      sync_directory_spec env src_root d0.1 d0.2 w hmd5
        (hmt d0 (by simp)) (hfnd d0 (by simp)) hnd
    have hd0fresh : d0.1 ∉ rest.map Prod.fst := by
      simp only [List.map_cons, List.nodup_cons] at hdnd
      exact hdnd.1
    have hdnd2 : (rest.map Prod.fst).Nodup := by
      simp only [List.map_cons, List.nodup_cons] at hdnd
      exact hdnd.2
    have hcons := sync_dirs_cons env src_root d0 rest w b1
    obtain ⟨i1, i2, i3, i4, i5, i6, i7, i8⟩ :=
      ih (sync_directory env src_root d0.1 d0.2 w).1
        (fun d hd nf hnf => hmt d (by simp [hd]) nf hnf) hdnd2
        (fun d hd => hfnd d (by simp [hd])) b5
    have hP0 : srcDirPath src_root d0.1 ∉
        rest.map (fun d => srcDirPath src_root d.1) := by
      intro hmem
      obtain ⟨d, hd, he⟩ := List.mem_map.mp hmem
      exact hd0fresh ((srcDirPath_inj src_root d.1 d0.1 he) ▸
        List.mem_map_of_mem Prod.fst hd)
    have hk0disj : ∀ nf ∈ d0.2, (d0.1 ++ [nf.1]) ∉
        rest.flatMap (fun d => dirKeys d.1 d.2) := by
      intro nf _ hmem
      obtain ⟨d, hd, hk⟩ := List.mem_flatMap.mp hmem
      obtain ⟨ng, _, he⟩ := List.mem_map.mp hk
      have hdl := congrArg List.dropLast he
      simp only [List.dropLast_concat] at hdl
      exact hd0fresh (hdl ▸ List.mem_map_of_mem Prod.fst hd)
    refine ⟨?_, ?_, ?_, ?_, ?_, ?_, ?_, ?_⟩
    · rw [hcons]
      exact i1
    · rw [hcons, i2, b2]
    · rw [hcons, i3, b3]
    · rw [hcons]
      exact i4
    · intro dir hdir
      have h1 : dir ∉ rest.map (fun d => srcDirPath src_root d.1) := by
        intro h
        exact hdir (by simp only [List.map_cons]; exact List.mem_cons_of_mem _ h)
      have h2 : dir ≠ srcDirPath src_root d0.1 := by
        intro h
        exact hdir (by simp only [List.map_cons]; rw [h]; exact List.mem_cons_self _ _)
      rw [hcons, i5 dir h1, b4 dir h2]
    · intro d hd nf hnf
      rcases List.mem_cons.mp hd with h | h
      · subst h
        have hscP : (sync_dirs env src_root (d :: rest) w).1.sidecars
            (srcDirPath src_root d.1) =
            (sync_directory env src_root d.1 d.2 w).1.sidecars
              (srcDirPath src_root d.1) := by
          rw [hcons]
          exact i5 _ hP0
        obtain ⟨c1, c2, c3, c4, c5⟩ := b6 nf hnf
        rw [hscP]
        refine ⟨c1, c2, c3, c4, ?_⟩
        rw [hcons, i7 _ (hk0disj nf hnf)]
        exact c5
      · have hdne : d.1 ≠ d0.1 := by
          intro he
          exact hd0fresh (he ▸ List.mem_map_of_mem Prod.fst h)
        have hPne : srcDirPath src_root d.1 ≠ srcDirPath src_root d0.1 :=
          fun he => hdne (srcDirPath_inj src_root d.1 d0.1 he)
        obtain ⟨c1, c2, c3, c4, c5⟩ := i6 d h nf hnf
        rw [hcons]
        refine ⟨c1, c2, c3, ?_, c5⟩
        rw [c4, b4 _ hPne]
    · intro name hn
      have h1 : name ∉ rest.flatMap (fun d => dirKeys d.1 d.2) := by
        intro h
        refine hn ?_
        rw [List.flatMap_cons]
        exact List.mem_append_right _ h
      have h2 : name ∉ dirKeys d0.1 d0.2 := by
        intro h
        refine hn ?_
        rw [List.flatMap_cons]
        exact List.mem_append_left _ h
      rw [hcons, i7 name h1, b7 name h2]
    · intro name
      rw [hcons, i8 name, b8 name]
      rw [List.flatMap_cons, List.mem_append]
      tauto

theorem setAddDest_mem (dest_id : VolumeId) (p : BkpFile) :
    dest_id ∈ (setAddDest dest_id p).bkp_dests := by
  unfold setAddDest
  split
  · assumption
  · simp

theorem setAddDest_mono (dest_id x : VolumeId) (p : BkpFile)
    (h : x ∈ p.bkp_dests) : x ∈ (setAddDest dest_id p).bkp_dests := by
  unfold setAddDest
  split
  · exact h
  · simp [h]

theorem setAddDest_name (dest_id : VolumeId) (p : BkpFile) :
    (setAddDest dest_id p).name = p.name := by
  unfold setAddDest
  split <;> rfl

theorem add_tag_filename (dest_id : VolumeId) (r : BackupFileRow) :
    (add_tag_obj_to_backup_file dest_id r).filename = r.filename := by
  unfold add_tag_obj_to_backup_file
  split <;> rfl

theorem add_tag_src_path (dest_id : VolumeId) (r : BackupFileRow) :
    (add_tag_obj_to_backup_file dest_id r).src_path = r.src_path := by
  unfold add_tag_obj_to_backup_file
  split <;> rfl

theorem updFirst_mem_exists (k : List String) (f : BackupFileRow → BackupFileRow)
    (db : DbState) (r : BackupFileRow) (hr : r ∈ updFirstByFilename k f db) :
    ∃ r0 ∈ db, r = r0 ∨ r = f r0 := by
  induction db with
  | nil => simp [updFirstByFilename_nil] at hr
  | cons x xs ih =>
    rw [updFirstByFilename_cons] at hr
    by_cases hx : (x.filename == k) = true
    · rw [if_pos hx] at hr
      rcases List.mem_cons.mp hr with h | h
      · exact ⟨x, by simp, Or.inr h⟩
      · exact ⟨r, by simp [h], Or.inl rfl⟩
    · rw [if_neg hx] at hr
      rcases List.mem_cons.mp hr with h | h
      · exact ⟨x, by simp, Or.inl h⟩
      · obtain ⟨r0, hr0, hor⟩ := ih h
        exact ⟨r0, by simp [hr0], hor⟩

theorem markCopied_map_filename (env : BackupEnv) :
    ∀ (sel : List BackupFileRow) (db : DbState),
    (markCopied env sel db).map (·.filename) = db.map (·.filename) := by
  intro sel
  induction sel with
  | nil => intro db; rfl
  | cons Y rest ih =>
    intro db
    unfold markCopied
    rw [List.foldl_cons]
    split
    · exact ih db
    · show (markCopied env rest _).map (·.filename) = _
      rw [ih _]
      exact updFirstByFilename_map_filename Y.filename
        (fun r => { r with visited := 1 }) (fun r => rfl) db

/-- The row the sweep leaves for a synchronized file. -/
def sweptRow (k : List String) (src_root : String) (f : BkpFile) : BackupFileRow :=
  ⟨k, src_root, f.size, f.mtime, f.md5, 0, f.bkp_dests⟩

theorem sweptRow_eq (k : List String) (src_root : String) (f : BkpFile) :
    { syncedRow k src_root f with visited := 0 } = sweptRow k src_root f := rfl

/-- After the walk over a source and the sweep, the table holds
exactly one row per walked file, rebuilt from the file's refreshed
sidecar record with the visited flag cleared. -/
theorem sync_sweep_content (env : BackupEnv) (src_root : String)
    (ds : List (List String × List (String × StatResult))) (w : World)
    (hmd5 : ∀ p, env.fs.contentMd5 p ≠ "")
    (hmt : ∀ d ∈ ds, ∀ nf ∈ d.2, nf.2.st_mtime ≠ 0)
    (hdnd : (ds.map Prod.fst).Nodup)
    (hfnd : ∀ d ∈ ds, (d.2.map Prod.fst).Nodup)
    (hnd : (w.db.map (·.filename)).Nodup)
    (h0 : ∀ r ∈ w.db, r.visited = 0) :
    (∀ r ∈ remove_unvisited_files_from_database (sync_dirs env src_root ds w).1.db,
      ∃ d, d ∈ ds ∧ ∃ nf, nf ∈ d.2 ∧
        r = sweptRow (d.1 ++ [nf.1]) src_root
          (bkpXmlGet (srcDirPath src_root d.1)
            ((sync_dirs env src_root ds w).1.sidecars (srcDirPath src_root d.1))
              nf.1)) ∧
    (∀ d ∈ ds, ∀ nf ∈ d.2,
      sweptRow (d.1 ++ [nf.1]) src_root
        (bkpXmlGet (srcDirPath src_root d.1)
          ((sync_dirs env src_root ds w).1.sidecars (srcDirPath src_root d.1)) nf.1) ∈
        remove_unvisited_files_from_database (sync_dirs env src_root ds w).1.db) ∧
    (((remove_unvisited_files_from_database
        (sync_dirs env src_root ds w).1.db).map (·.filename)).Nodup) := by
  obtain ⟨a1, a2, a3, a4, a5, a6, a7, a8⟩ :=
    sync_dirs_spec env src_root hmd5 ds w hmt hdnd hfnd hnd
  refine ⟨?_, ?_, ?_⟩
  · intro r hr
    obtain ⟨r0, hr0, hv0, he⟩ := (sweep_mem _ _).mp hr
    have hvis : hasVisitedRow (sync_dirs env src_root ds w).1.db r0.filename :=
      ⟨r0, hr0, rfl, hv0⟩
    rw [a8 r0.filename] at hvis
    rcases hvis with h | h
    · obtain ⟨rz, hrz, _, hvz⟩ := h
      exact absurd (h0 rz hrz) hvz
    · obtain ⟨d, hd, hk⟩ := List.mem_flatMap.mp h
      obtain ⟨nf, hnf, hke⟩ := List.mem_map.mp hk
      refine ⟨d, hd, nf, hnf, ?_⟩
      obtain ⟨_, _, _, _, c5⟩ := a6 d hd nf hnf
      have hfr0 : (sync_dirs env src_root ds w).1.db.find?
          (fun r2 => r2.filename == r0.filename) = some r0 :=
        find?_of_nodup_mem _ r0 a4 hr0
      rw [← hke] at hfr0
      rw [c5] at hfr0
      have hsr : syncedRow (d.1 ++ [nf.1]) src_root
          (bkpXmlGet (srcDirPath src_root d.1)
            ((sync_dirs env src_root ds w).1.sidecars (srcDirPath src_root d.1))
              nf.1) = r0 := by
        injection hfr0
      rw [he, ← hsr, sweptRow_eq]
  · intro d hd nf hnf
    obtain ⟨_, _, _, _, c5⟩ := a6 d hd nf hnf
    have hmem : syncedRow (d.1 ++ [nf.1]) src_root
        (bkpXmlGet (srcDirPath src_root d.1)
          ((sync_dirs env src_root ds w).1.sidecars (srcDirPath src_root d.1))
            nf.1) ∈ (sync_dirs env src_root ds w).1.db :=
      List.mem_of_find?_eq_some c5
    rw [← sweptRow_eq]
    exact (sweep_mem _ _).mpr ⟨_, hmem, by simp [syncedRow], rfl⟩
  · unfold remove_unvisited_files_from_database
    rw [List.map_map]
    show ((((sync_dirs env src_root ds w).1.db.filter
      (fun r => !(r.visited == 0))).map (·.filename)).Nodup)
    exact a4.sublist
      ((List.filter_sublist ((sync_dirs env src_root ds w).1.db)).map
        (fun r : BackupFileRow => r.filename))

/-- One step of update_source_directory_entries' per-entry fold. -/
def usdeStep (env : BackupEnv) (dest_id : VolumeId) (acc : World × Bool)
    (k : List String) : World × Bool :=
  if acc.2 then acc
  else
    match acc.1.db.find? (fun r => r.filename == k) with
    | none => acc
    | some file_entry =>
      let db1 := updFirstByFilename k (add_tag_obj_to_backup_file dest_id) acc.1.db
      let full_src : PyPath := ⟨some file_entry.src_path, file_entry.filename⟩
      if env.isFile full_src = false then ({ acc.1 with db := db1 }, true)
      else
        let dirP := full_src.parent
        let fname := full_src.name
        let root1 := (visit_file env.fs dirP (acc.1.sidecars dirP) full_src
          (env.stat full_src)).1
        let props2 := setAddDest dest_id (bkpXmlGet dirP root1 fname)
        let root2 := bkpXmlSet env.fs root1 fname props2
        ({ acc.1 with db := db1, sidecars := updMap acc.1.sidecars dirP root2 },
          false)

theorem update_source_eq (env : BackupEnv) (dest_id : VolumeId) (w : World) :
    update_source_directory_entries env dest_id w =
      ((w.db.filter (fun r => !(r.visited == 0))).map (·.filename)).foldl
        (usdeStep env dest_id) (w, false) := rfl

/-- The sidecar root the write-back pass leaves for a row's directory:
the row's file re-visited, then its record written back with the
destination added. -/
def usdeVisitRoot (env : BackupEnv) (w : World) (r : BackupFileRow) : List BkpFile :=
  (visit_file env.fs (rowSrcPath r).parent (w.sidecars (rowSrcPath r).parent)
    (rowSrcPath r) (env.stat (rowSrcPath r))).1

def usdeRoot (env : BackupEnv) (dest_id : VolumeId) (w : World) (r : BackupFileRow) :
    List BkpFile :=
  bkpXmlSet env.fs (usdeVisitRoot env w r) (rowSrcPath r).name
    (setAddDest dest_id (bkpXmlGet (rowSrcPath r).parent (usdeVisitRoot env w r)
      (rowSrcPath r).name))

theorem usdeStep_eq (env : BackupEnv) (dest_id : VolumeId) (w : World)
    (k : List String) (r : BackupFileRow)
    (hfind : w.db.find? (fun r2 => r2.filename == k) = some r)
    (hfile : env.isFile (rowSrcPath r) = true) :
    usdeStep env dest_id (w, false) k =
      ({ w with
           sidecars := updMap w.sidecars (rowSrcPath r).parent
             (usdeRoot env dest_id w r),
           db := updFirstByFilename k (add_tag_obj_to_backup_file dest_id) w.db },
        false) := by
  unfold usdeStep
  rw [if_neg (by simp)]
  rw [show ((w, false) : World × Bool).1 = w from rfl]
  rw [hfind]
  show (if env.isFile ⟨some r.src_path, r.filename⟩ = false then _ else _) = _
  rw [if_neg (by
    rw [show env.isFile ⟨some r.src_path, r.filename⟩ = true from hfile]
    simp)]
  rfl

theorem usdeRoot_dests (env : BackupEnv) (dest_id : VolumeId) (w : World)
    (r : BackupFileRow) (nm : String) :
    (bkpXmlGet (rowSrcPath r).parent (usdeRoot env dest_id w r) nm).bkp_dests =
      if (rowSrcPath r).name = nm
      then (setAddDest dest_id (bkpXmlGet (rowSrcPath r).parent
        (usdeVisitRoot env w r) (rowSrcPath r).name)).bkp_dests
      else (bkpXmlGet (rowSrcPath r).parent
        (w.sidecars (rowSrcPath r).parent) nm).bkp_dests := by
  unfold usdeRoot
  rw [bkpXmlSet_dests env.fs (usdeVisitRoot env w r) (rowSrcPath r).name
    (setAddDest dest_id (bkpXmlGet (rowSrcPath r).parent (usdeVisitRoot env w r)
      (rowSrcPath r).name))
    (by rw [setAddDest_name, bkpXmlGet_name]) (rowSrcPath r).parent nm]
  split
  · rfl
  · unfold usdeVisitRoot
    exact visit_file_dests env.fs (rowSrcPath r).parent
      (w.sidecars (rowSrcPath r).parent) (rowSrcPath r) (env.stat (rowSrcPath r)) nm

/-- The write-back pass never aborts (all sources on disk), does not
touch attempts/copies or the table's filenames, only grows sidecar
destination sets, and afterwards every processed row's source sidecar
record carries the destination. -/
theorem usde_fold_spec (env : BackupEnv) (dest_id : VolumeId) (src_root : String)
    (hfile : ∀ p, env.isFile p = true) :
    ∀ (ks : List (List String)) (w : World),
    (∀ k ∈ ks, ∃ r ∈ w.db, r.filename = k) →
    (∀ r ∈ w.db, r.src_path = src_root) →
    (ks.foldl (usdeStep env dest_id) (w, false)).2 = false ∧
    (ks.foldl (usdeStep env dest_id) (w, false)).1.attempts = w.attempts ∧
    (ks.foldl (usdeStep env dest_id) (w, false)).1.copies = w.copies ∧
    (∀ dir nm (x : VolumeId), x ∈ (bkpXmlGet dir (w.sidecars dir) nm).bkp_dests →
      x ∈ (bkpXmlGet dir ((ks.foldl (usdeStep env dest_id) (w, false)).1.sidecars
        dir) nm).bkp_dests) ∧
    (∀ k ∈ ks, dest_id ∈ (bkpXmlGet (PyPath.mk (some src_root) k).parent
      (((ks.foldl (usdeStep env dest_id) (w, false)).1.sidecars
        (PyPath.mk (some src_root) k).parent))
      ((PyPath.mk (some src_root) k).name)).bkp_dests) ∧
    (ks.foldl (usdeStep env dest_id) (w, false)).1.db.map (·.filename) =
      w.db.map (·.filename) := by
  intro ks
  induction ks with
  | nil =>
    intro w _ _
    exact ⟨rfl, rfl, rfl, fun dir nm x h => h, by simp, rfl⟩
  | cons k0 rest ih =>
    intro w hks hsrc
    obtain ⟨r, hrmem, hrfn⟩ := hks k0 (by simp)
    have hsome : (w.db.find? (fun r2 => r2.filename == k0)).isSome :=
      List.find?_isSome.mpr ⟨r, hrmem, by simp [hrfn]⟩
    obtain ⟨Y, hY⟩ := Option.isSome_iff_exists.mp hsome
    have hYmem : Y ∈ w.db := List.mem_of_find?_eq_some hY
    have hYfn : Y.filename = k0 := by simpa using List.find?_some hY
    have hYsrc : Y.src_path = src_root := hsrc Y hYmem
    have hYpath : rowSrcPath Y = PyPath.mk (some src_root) k0 := by
      unfold rowSrcPath
      rw [hYsrc, hYfn]
    rw [List.foldl_cons, usdeStep_eq env dest_id w k0 Y hY (hfile _)]
    set w1 : World :=
      { w with
          sidecars := updMap w.sidecars (rowSrcPath Y).parent
            (usdeRoot env dest_id w Y),
          db := updFirstByFilename k0 (add_tag_obj_to_backup_file dest_id) w.db }
      with hw1
    have hmapfn : w1.db.map (·.filename) = w.db.map (·.filename) := by
      rw [hw1]
      exact updFirstByFilename_map_filename k0 (add_tag_obj_to_backup_file dest_id)
        (add_tag_filename dest_id) w.db
    have hks1 : ∀ k ∈ rest, ∃ r2 ∈ w1.db, r2.filename = k := by
      intro k hk
      obtain ⟨r2, hr2, he2⟩ := hks k (by simp [hk])
      have : k ∈ w1.db.map (·.filename) := by
        rw [hmapfn]
        exact he2 ▸ List.mem_map_of_mem (·.filename) hr2
      obtain ⟨r3, hr3, he3⟩ := List.mem_map.mp this
      exact ⟨r3, hr3, he3⟩
    have hsrc1 : ∀ r2 ∈ w1.db, r2.src_path = src_root := by
      intro r2 hr2
      rw [hw1] at hr2
      obtain ⟨r0, hr0, hor⟩ := updFirst_mem_exists k0
        (add_tag_obj_to_backup_file dest_id) w.db r2 hr2
      rcases hor with h | h
      · rw [h]
        exact hsrc r0 hr0
      · rw [h, add_tag_src_path]
        exact hsrc r0 hr0
    have hmono1 : ∀ dir nm (x : VolumeId),
        x ∈ (bkpXmlGet dir (w.sidecars dir) nm).bkp_dests →
        x ∈ (bkpXmlGet dir (w1.sidecars dir) nm).bkp_dests := by
      intro dir nm x hx
      rw [hw1]
      show x ∈ (bkpXmlGet dir (updMap w.sidecars (rowSrcPath Y).parent
        (usdeRoot env dest_id w Y) dir) nm).bkp_dests
      unfold updMap
      by_cases hd : dir = (rowSrcPath Y).parent
      · rw [if_pos hd]
        subst hd
        rw [usdeRoot_dests]
        split
        · rename_i hnm
          refine setAddDest_mono dest_id x _ ?_
          unfold usdeVisitRoot
          rw [visit_file_dests, hnm]
          exact hx
        · exact hx
      · rw [if_neg hd]
        exact hx
    obtain ⟨i1, i2, i3, i4, i5, i6⟩ := ih w1 hks1 hsrc1
    refine ⟨i1, by rw [i2, hw1], by rw [i3, hw1], ?_, ?_, i6.trans hmapfn⟩
    · intro dir nm x hx
      exact i4 dir nm x (hmono1 dir nm x hx)
    · intro k hk
      rcases List.mem_cons.mp hk with h | h
      · subst h
        refine i4 _ _ dest_id ?_
        rw [← hYpath]
        rw [hw1]
        show dest_id ∈ (bkpXmlGet (rowSrcPath Y).parent
          (updMap w.sidecars (rowSrcPath Y).parent (usdeRoot env dest_id w Y)
            (rowSrcPath Y).parent) (rowSrcPath Y).name).bkp_dests
        unfold updMap
        rw [if_pos rfl, usdeRoot_dests, if_pos rfl]
        exact setAddDest_mem dest_id _
      · exact i5 k h

theorem bkpXmlGet_nil (dir : PyPath) (nm : String) :
    bkpXmlGet dir [] nm = { name := nm, file_path := dir.child nm } := rfl

theorem for_backup_nil (db : DbState) (dest_name : VolumeId)
    (h : ∀ r ∈ db, r.backup_dest.contains dest_name = true) :
    for_backup db dest_name = [] := by
  unfold for_backup
  have hfil : db.filter (fun r => !(r.backup_dest.contains dest_name)) = [] := by
    rw [List.filter_eq_nil_iff]
    intro r hr
    rw [h r hr]
    simp
  rw [hfil]
  rfl

theorem copy_best_files_of_nil (env : BackupEnv) (dest_path : PyPath)
    (dest_id : VolumeId) (w : World) (h : for_backup w.db dest_id = []) :
    copy_best_files env dest_path dest_id w = (w, false) := by
  unfold copy_best_files
  rw [h]
  rfl

theorem markCopied_mem_exists (env : BackupEnv) :
    ∀ (sel : List BackupFileRow) (db : DbState) (r : BackupFileRow),
    r ∈ markCopied env sel db →
    ∃ r0 ∈ db, r = r0 ∨ r = { r0 with visited := 1 } := by
  intro sel
  induction sel with
  | nil =>
    intro db r hr
    exact ⟨r, hr, Or.inl rfl⟩
  | cons Y rest ih =>
    intro db r hr
    unfold markCopied at hr
    rw [List.foldl_cons] at hr
    rcases hc : env.copyOk (rowSrcPath Y) with _ | _
    · rw [if_pos (by rw [hc])] at hr
      exact ih db r hr
    · rw [if_neg (by rw [hc]; simp)] at hr
      have hr2 : r ∈ markCopied env rest
          (updFirstByFilename Y.filename (fun q => { q with visited := 1 }) db) := hr
      obtain ⟨r0, hr0, hor0⟩ := ih _ r hr2
      obtain ⟨r1, hr1, hor1⟩ := updFirst_mem_exists Y.filename
        (fun q => { q with visited := 1 }) db r0 hr0
      refine ⟨r1, hr1, ?_⟩
      rcases hor0 with h0 | h0 <;> rcases hor1 with h1 | h1
      · exact Or.inl (h0.trans h1)
      · exact Or.inr (h0.trans h1)
      · exact Or.inr (by rw [h0, h1])
      · exact Or.inr (by rw [h0, h1])

theorem flatMap_dirKeys_nodup :
    ∀ (ds : List (List String × List (String × StatResult))),
    ((ds.map Prod.fst).Nodup) →
    (∀ d ∈ ds, (d.2.map Prod.fst).Nodup) →
    (ds.flatMap (fun d => dirKeys d.1 d.2)).Nodup := by
  intro ds
  induction ds with
  | nil => intro _ _; simp
  | cons d0 rest ih =>
    intro hdnd hfnd
    rw [List.flatMap_cons, List.nodup_append]
    have hd0fresh : d0.1 ∉ rest.map Prod.fst := by
      simp only [List.map_cons, List.nodup_cons] at hdnd
      exact hdnd.1
    refine ⟨dirKeys_nodup d0.1 d0.2 (hfnd d0 (by simp)), ?_, ?_⟩
    · refine ih ?_ (fun d hd => hfnd d (by simp [hd]))
      simp only [List.map_cons, List.nodup_cons] at hdnd
      exact hdnd.2
    · intro k hk hk2
      obtain ⟨nf, _, he⟩ := List.mem_map.mp hk
      obtain ⟨d, hd, hkd⟩ := List.mem_flatMap.mp hk2
      obtain ⟨ng, _, he2⟩ := List.mem_map.mp hkd
      have h1 := congrArg List.dropLast he
      have h2 := congrArg List.dropLast he2
      simp only [List.dropLast_concat] at h1 h2
      refine hd0fresh ?_
      rw [h1.trans h2.symm]
      exact List.mem_map_of_mem Prod.fst hd

theorem sourceKeys_nodup (src : SourceTree)
    (hdnd : (src.dirs.map Prod.fst).Nodup)
    (hfnd : ∀ d ∈ src.dirs, (d.2.map Prod.fst).Nodup) :
    (sourceKeys src).Nodup := by
  rw [sourceKeys_eq]
  exact flatMap_dirKeys_nodup src.dirs hdnd hfnd

theorem backup_files_single_eq (env : BackupEnv) (src : SourceTree)
    (dest_path : PyPath) (dest_id : VolumeId) (w : World)
    (h1 : (sync_source env src w).2 = false)
    (h3 : (copy_best_files env dest_path dest_id
      { (sync_source env src w).1 with
          db := remove_unvisited_files_from_database
            (sync_source env src w).1.db }).2 = false) :
    backup_files env [src] dest_path dest_id w =
      update_source_directory_entries env dest_id
        (copy_best_files env dest_path dest_id
          { (sync_source env src w).1 with
              db := remove_unvisited_files_from_database
                (sync_source env src w).1.db }).1 := by
  show (if (sync_source env src w).2 = true then sync_source env src w
    else
      if (copy_best_files env dest_path dest_id
          { (sync_source env src w).1 with
              db := remove_unvisited_files_from_database
                (sync_source env src w).1.db }).2 = true
      then copy_best_files env dest_path dest_id
        { (sync_source env src w).1 with
            db := remove_unvisited_files_from_database
              (sync_source env src w).1.db }
      else update_source_directory_entries env dest_id
        (copy_best_files env dest_path dest_id
          { (sync_source env src w).1 with
              db := remove_unvisited_files_from_database
                (sync_source env src w).1.db }).1) = _
  rw [if_neg (by rw [h1]; simp), if_neg (by rw [h3]; simp)]

theorem backup_session_eq (env : BackupEnv) (sources : List SourceTree)
    (dest_path : PyPath) (dest_id : VolumeId) (w : World)
    (h : (backup_files env sources dest_path dest_id w).2 = false) :
    backup_session env sources dest_path dest_id w =
      ({ (backup_files env sources dest_path dest_id w).1 with
          db := clear_all_visited
            (backup_files env sources dest_path dest_id w).1.db }, false) := by
  show (if (backup_files env sources dest_path dest_id w).2 = true
    then backup_files env sources dest_path dest_id w
    else ({ (backup_files env sources dest_path dest_id w).1 with
        db := clear_all_visited
          (backup_files env sources dest_path dest_id w).1.db }, false)) = _
  rw [if_neg (by rw [h]; simp)]

/-- A backup run over a source each of whose files' sidecar records
already carries the destination: the run completes and performs no
copy invocation at all - the table rebuilt from the sidecars cannot
select any file, regardless of what rows the table held before. -/
theorem backup_run_two (env : BackupEnv) (src : SourceTree) (dest_path : PyPath)
    (dest_id : VolumeId) (w1 : World)
    (hmd5 : ∀ p, env.fs.contentMd5 p ≠ "")
    (hmt : ∀ d ∈ src.dirs, ∀ nf ∈ d.2, nf.2.st_mtime ≠ 0)
    (hdnd : (src.dirs.map Prod.fst).Nodup)
    (hfnd : ∀ d ∈ src.dirs, (d.2.map Prod.fst).Nodup)
    (hnd1 : (w1.db.map (·.filename)).Nodup)
    (hvis1 : ∀ r ∈ w1.db, r.visited = 0)
    (hdests : ∀ d ∈ src.dirs, ∀ nf ∈ d.2,
      dest_id ∈ (bkpXmlGet (srcDirPath src.root d.1)
        (w1.sidecars (srcDirPath src.root d.1)) nf.1).bkp_dests) :
    (backup_session env [src] dest_path dest_id w1).2 = false ∧
    (backup_session env [src] dest_path dest_id w1).1.attempts = w1.attempts ∧
    (backup_session env [src] dest_path dest_id w1).1.copies = w1.copies := by
  obtain ⟨a1, a2, a3, a4, a5, a6, a7, a8⟩ :=
    sync_dirs_spec env src.root hmd5 src.dirs w1 hmt hdnd hfnd hnd1
  obtain ⟨p1, p2, p3⟩ :=
    sync_sweep_content env src.root src.dirs w1 hmd5 hmt hdnd hfnd hnd1 hvis1
  have hss : sync_source env src w1 = sync_dirs env src.root src.dirs w1 :=
    sync_source_eq env src w1
  have hcontains : ∀ r ∈ remove_unvisited_files_from_database
      (sync_dirs env src.root src.dirs w1).1.db,
      r.backup_dest.contains dest_id = true := by
    intro r hr
    obtain ⟨d, hd, nf, hnf, he⟩ := p1 r hr
    obtain ⟨_, _, _, c4, _⟩ := a6 d hd nf hnf
    rw [he]
    show ((bkpXmlGet (srcDirPath src.root d.1)
      ((sync_dirs env src.root src.dirs w1).1.sidecars (srcDirPath src.root d.1))
        nf.1).bkp_dests).contains dest_id = true
    rw [c4]
    exact List.elem_eq_true_of_mem (hdests d hd nf hnf)
  have hvis2 : ∀ r ∈ remove_unvisited_files_from_database
      (sync_dirs env src.root src.dirs w1).1.db, r.visited = 0 := by
    intro r hr
    obtain ⟨d, hd, nf, hnf, he⟩ := p1 r hr
    rw [he]
    rfl
  have hfb : for_backup (remove_unvisited_files_from_database
      (sync_dirs env src.root src.dirs w1).1.db) dest_id = [] :=
    for_backup_nil _ _ hcontains
  have hcbf : copy_best_files env dest_path dest_id
      { (sync_dirs env src.root src.dirs w1).1 with
          db := remove_unvisited_files_from_database
            (sync_dirs env src.root src.dirs w1).1.db } =
      ({ (sync_dirs env src.root src.dirs w1).1 with
          db := remove_unvisited_files_from_database
            (sync_dirs env src.root src.dirs w1).1.db }, false) :=
    copy_best_files_of_nil env dest_path dest_id _ hfb
  have husde : update_source_directory_entries env dest_id
      { (sync_dirs env src.root src.dirs w1).1 with
          db := remove_unvisited_files_from_database
            (sync_dirs env src.root src.dirs w1).1.db } =
      ({ (sync_dirs env src.root src.dirs w1).1 with
          db := remove_unvisited_files_from_database
            (sync_dirs env src.root src.dirs w1).1.db }, false) := by
    rw [update_source_eq]
    have hfil : (remove_unvisited_files_from_database
        (sync_dirs env src.root src.dirs w1).1.db).filter
        (fun r => !(r.visited == 0)) = [] := by
      rw [List.filter_eq_nil_iff]
      intro r hr
      rw [hvis2 r hr]
      simp
    rw [show ({ (sync_dirs env src.root src.dirs w1).1 with
        db := remove_unvisited_files_from_database
          (sync_dirs env src.root src.dirs w1).1.db } : World).db =
      remove_unvisited_files_from_database
        (sync_dirs env src.root src.dirs w1).1.db from rfl]
    rw [hfil]
    rfl
  have h1 : (sync_source env src w1).2 = false := by
    rw [hss]
    exact a1
  have h3 : (copy_best_files env dest_path dest_id
      { (sync_source env src w1).1 with
          db := remove_unvisited_files_from_database
            (sync_source env src w1).1.db }).2 = false := by
    rw [hss, hcbf]
  have hbf2 : backup_files env [src] dest_path dest_id w1 =
      ({ (sync_dirs env src.root src.dirs w1).1 with
          db := remove_unvisited_files_from_database
            (sync_dirs env src.root src.dirs w1).1.db }, false) := by
    rw [backup_files_single_eq env src dest_path dest_id w1 h1 h3]
    rw [hss, hcbf]
    exact husde
  have hsess := backup_session_eq env [src] dest_path dest_id w1 (by rw [hbf2])
  rw [hsess, hbf2]
  exact ⟨rfl, a2, a3⟩

theorem concatPath_parent (b : String) (l : List String) (a : String) :
    (PyPath.mk (some b) (l ++ [a])).parent = PyPath.mk (some b) l := by
  unfold PyPath.parent
  simp

theorem concatPath_name (b : String) (l : List String) (a : String) :
    (PyPath.mk (some b) (l ++ [a])).name = a := by
  unfold PyPath.name
  simp

theorem clear_map_filename (db : DbState) :
    (clear_all_visited db).map (·.filename) = db.map (·.filename) := by
  unfold clear_all_visited
  rw [List.map_map]
  refine List.map_congr_left ?_
  intro r _
  show (if r.visited ≠ 0 then { r with visited := 0 } else r).filename = r.filename
  split <;> rfl

theorem clear_vis (db : DbState) : ∀ r ∈ clear_all_visited db, r.visited = 0 := by
  intro r hr
  unfold clear_all_visited at hr
  obtain ⟨r0, _, he⟩ := List.mem_map.mp hr
  by_cases h : r0.visited ≠ 0
  · rw [if_pos h] at he
    rw [← he]
  · rw [if_neg h] at he
    rw [← he]
    exact Decidable.not_not.mp (fun hc => h (by exact hc))

/-- The copy batch followed by the write-back pass, over a freshly
swept table whose rows carry no destination yet: every row is
selected and copied once, rows keep their filenames, and afterwards
every row's source sidecar record carries the destination. -/
theorem copy_writeback_run (env : BackupEnv) (dest_path : PyPath)
    (dest_id : VolumeId) (src_root : String) (W2 : World)
    (hfile : ∀ p, env.isFile p = true)
    (hok : ∀ p, env.copyOk p = true)
    (hnd2 : (W2.db.map (·.filename)).Nodup)
    (hvisW : ∀ r ∈ W2.db, r.visited = 0)
    (hsrcW : ∀ r ∈ W2.db, r.src_path = src_root)
    (hbdW : ∀ r ∈ W2.db, r.backup_dest = [])
    (hguard0 : ∀ r ∈ W2.db, dest_id ∉ (bkpXmlGet (rowSrcPath r).parent
      (W2.sidecars (rowSrcPath r).parent) (rowSrcPath r).name).bkp_dests)
    (hbase2 : ∀ r ∈ W2.db, dest_path.base ≠ some r.src_path) :
    (copy_best_files env dest_path dest_id W2).2 = false ∧
    (update_source_directory_entries env dest_id
      (copy_best_files env dest_path dest_id W2).1).2 = false ∧
    (update_source_directory_entries env dest_id
      (copy_best_files env dest_path dest_id W2).1).1.attempts =
      W2.attempts ++ (for_backup W2.db dest_id).map rowSrcPath ∧
    (update_source_directory_entries env dest_id
      (copy_best_files env dest_path dest_id W2).1).1.copies =
      W2.copies ++ (for_backup W2.db dest_id).map rowSrcPath ∧
    List.Perm (for_backup W2.db dest_id) W2.db ∧
    (update_source_directory_entries env dest_id
      (copy_best_files env dest_path dest_id W2).1).1.db.map (·.filename) =
      W2.db.map (·.filename) ∧
    (∀ k, (∃ r ∈ W2.db, r.filename = k) →
      dest_id ∈ (bkpXmlGet (PyPath.mk (some src_root) k).parent
        ((update_source_directory_entries env dest_id
          (copy_best_files env dest_path dest_id W2).1).1.sidecars
          (PyPath.mk (some src_root) k).parent)
        ((PyPath.mk (some src_root) k).name)).bkp_dests) := by
  obtain ⟨c1, c2, c3, c4, c5⟩ :=
    copy_best_files_spec env dest_path dest_id W2 hfile hnd2 hvisW hguard0 hbase2
  have hselperm : List.Perm (for_backup W2.db dest_id) W2.db := by
    refine (for_backup_perm W2.db dest_id).trans ?_
    rw [List.filter_eq_self.mpr (fun r hr => by rw [hbdW r hr]; rfl)]
  have hselnd : ((for_backup W2.db dest_id).map (·.filename)).Nodup :=
    for_backup_map_nodup W2.db dest_id hnd2
  have hfilok : (for_backup W2.db dest_id).filter
      (fun Y => env.copyOk (rowSrcPath Y)) = for_backup W2.db dest_id :=
    List.filter_eq_self.mpr (fun Y _ => by rw [hok (rowSrcPath Y)])
  have hcopies3 : (copy_best_files env dest_path dest_id W2).1.copies =
      W2.copies ++ (for_backup W2.db dest_id).map rowSrcPath := by
    rw [c3, hfilok]
  have hdb3 : (copy_best_files env dest_path dest_id W2).1.db =
      markCopied env (for_backup W2.db dest_id) W2.db := c4
  have hrow3 : ∀ r ∈ (copy_best_files env dest_path dest_id W2).1.db,
      r.src_path = src_root := by
    intro r hr
    rw [hdb3] at hr
    obtain ⟨r0, hr0, hor⟩ := markCopied_mem_exists env _ _ r hr
    rcases hor with h | h
    · rw [h]
      exact hsrcW r0 hr0
    · rw [h]
      show r0.src_path = src_root
      exact hsrcW r0 hr0
  have hks : ∀ k ∈ ((copy_best_files env dest_path dest_id W2).1.db.filter
      (fun r => !(r.visited == 0))).map (·.filename),
      ∃ r ∈ (copy_best_files env dest_path dest_id W2).1.db, r.filename = k := by
    intro k hk
    obtain ⟨r, hr, he⟩ := List.mem_map.mp hk
    exact ⟨r, (List.mem_filter.mp hr).1, he⟩
  obtain ⟨u1, u2, u3, u4, u5, u6⟩ := usde_fold_spec env dest_id src_root hfile
    (((copy_best_files env dest_path dest_id W2).1.db.filter
      (fun r => !(r.visited == 0))).map (·.filename))
    (copy_best_files env dest_path dest_id W2).1 hks hrow3
  rw [← update_source_eq] at u1 u2 u3 u4 u5 u6
  refine ⟨c1, u1, ?_, ?_, hselperm, ?_, ?_⟩
  · rw [u2, c2]
  · rw [u3, hcopies3]
  · rw [u6, hdb3, markCopied_map_filename]
  · intro k hkr
    obtain ⟨r, hr, he⟩ := hkr
    have hrsel : r ∈ for_backup W2.db dest_id := by
      rw [(for_backup_mem_iff W2.db dest_id r)]
      refine ⟨hr, ?_⟩
      rw [hbdW r hr]
      rfl
    have hfindr : W2.db.find? (fun q => q.filename == r.filename) = some r :=
      find?_of_nodup_mem W2.db r hnd2 hr
    have hmark := markCopied_find_visited env (for_backup W2.db dest_id) W2.db r
      hselnd hrsel (hok _) hfindr
    have hmem3 : ({ r with visited := 1 } : BackupFileRow) ∈
        (copy_best_files env dest_path dest_id W2).1.db := by
      rw [hdb3]
      exact List.mem_of_find?_eq_some hmark
    have hkK : k ∈ ((copy_best_files env dest_path dest_id W2).1.db.filter
        (fun q => !(q.visited == 0))).map (·.filename) := by
      refine List.mem_map.mpr ⟨{ r with visited := 1 }, ?_, ?_⟩
      · exact List.mem_filter.mpr ⟨hmem3, by simp⟩
      · show r.filename = k
        exact he
    exact u5 k hkK

/-- A first backup run from a fresh index and fresh sidecars: it
completes, every file of the source is attempted and copied exactly
once, the final table holds one clean row per file, and every file's
source sidecar record carries the destination. -/
theorem backup_run_one (env : BackupEnv) (src : SourceTree) (dest_path : PyPath)
    (dest_id : VolumeId) (w : World)
    (hfile : ∀ p, env.isFile p = true)
    (hmd5 : ∀ p, env.fs.contentMd5 p ≠ "")
    (hok : ∀ p, env.copyOk p = true)
    (hmt : ∀ d ∈ src.dirs, ∀ nf ∈ d.2, nf.2.st_mtime ≠ 0)
    (hdnd : (src.dirs.map Prod.fst).Nodup)
    (hfnd : ∀ d ∈ src.dirs, (d.2.map Prod.fst).Nodup)
    (hdb0 : w.db = [])
    (hsc0 : ∀ dir, w.sidecars dir = [])
    (hat0 : w.attempts = [])
    (hcp0 : w.copies = [])
    (hbase : dest_path.base ≠ some src.root) :
    (backup_session env [src] dest_path dest_id w).2 = false ∧
    (backup_session env [src] dest_path dest_id w).1.attempts =
      (backup_session env [src] dest_path dest_id w).1.copies ∧
    List.Perm (backup_session env [src] dest_path dest_id w).1.copies
      ((sourceKeys src).map (fun k => PyPath.mk (some src.root) k)) ∧
    (backup_session env [src] dest_path dest_id w).1.copies.Nodup ∧
    ((backup_session env [src] dest_path dest_id w).1.db.map (·.filename)).Nodup ∧
    (∀ r ∈ (backup_session env [src] dest_path dest_id w).1.db, r.visited = 0) ∧
    (∀ d ∈ src.dirs, ∀ nf ∈ d.2,
      dest_id ∈ (bkpXmlGet (srcDirPath src.root d.1)
        ((backup_session env [src] dest_path dest_id w).1.sidecars
          (srcDirPath src.root d.1)) nf.1).bkp_dests) := by
  obtain ⟨a1, a2, a3, a4, a5, a6, a7, a8⟩ :=
    sync_dirs_spec env src.root hmd5 src.dirs w hmt hdnd hfnd (by rw [hdb0]; simp)
  obtain ⟨p1, p2, p3⟩ := sync_sweep_content env src.root src.dirs w hmd5 hmt hdnd
    hfnd (by rw [hdb0]; simp) (by rw [hdb0]; simp)
  have hdest0 : ∀ d ∈ src.dirs, ∀ nf ∈ d.2,
      (bkpXmlGet (srcDirPath src.root d.1)
        ((sync_dirs env src.root src.dirs w).1.sidecars (srcDirPath src.root d.1))
        nf.1).bkp_dests = [] := by
    intro d hd nf hnf
    obtain ⟨_, _, _, c4, _⟩ := a6 d hd nf hnf
    rw [c4, hsc0]
    rfl
  have hvisD : ∀ r ∈ remove_unvisited_files_from_database
      (sync_dirs env src.root src.dirs w).1.db, r.visited = 0 := by
    intro r hr
    obtain ⟨d, hd, nf, hnf, he⟩ := p1 r hr
    rw [he]
    rfl
  have hsrcD : ∀ r ∈ remove_unvisited_files_from_database
      (sync_dirs env src.root src.dirs w).1.db, r.src_path = src.root := by
    intro r hr
    obtain ⟨d, hd, nf, hnf, he⟩ := p1 r hr
    rw [he]
    rfl
  have hbdD : ∀ r ∈ remove_unvisited_files_from_database
      (sync_dirs env src.root src.dirs w).1.db, r.backup_dest = [] := by
    intro r hr
    obtain ⟨d, hd, nf, hnf, he⟩ := p1 r hr
    rw [he]
    show (bkpXmlGet (srcDirPath src.root d.1)
      ((sync_dirs env src.root src.dirs w).1.sidecars (srcDirPath src.root d.1))
        nf.1).bkp_dests = []
    exact hdest0 d hd nf hnf
  have hguard0 : ∀ r ∈ remove_unvisited_files_from_database
      (sync_dirs env src.root src.dirs w).1.db, dest_id ∉ (bkpXmlGet (rowSrcPath r).parent
      ((sync_dirs env src.root src.dirs w).1.sidecars (rowSrcPath r).parent)
      (rowSrcPath r).name).bkp_dests := by
    intro r hr
    obtain ⟨d, hd, nf, hnf, he⟩ := p1 r hr
    rw [he]
    rw [show rowSrcPath (sweptRow (d.1 ++ [nf.1]) src.root
      (bkpXmlGet (srcDirPath src.root d.1)
        ((sync_dirs env src.root src.dirs w).1.sidecars (srcDirPath src.root d.1))
          nf.1)) = PyPath.mk (some src.root) (d.1 ++ [nf.1]) from rfl]
    rw [concatPath_parent, concatPath_name]
    rw [show PyPath.mk (some src.root) d.1 = srcDirPath src.root d.1 from rfl]
    rw [hdest0 d hd nf hnf]
    simp
  have hbase2 : ∀ r ∈ remove_unvisited_files_from_database
      (sync_dirs env src.root src.dirs w).1.db, dest_path.base ≠ some r.src_path := by
    intro r hr
    rw [hsrcD r hr]
    exact hbase
  obtain ⟨q1, q2, q3, q4, q5, q6, q7⟩ :=
    copy_writeback_run env dest_path dest_id src.root
      { (sync_dirs env src.root src.dirs w).1 with
          db := remove_unvisited_files_from_database
            (sync_dirs env src.root src.dirs w).1.db }
      hfile hok p3 hvisD hsrcD hbdD hguard0 hbase2
  have h1 : (sync_source env src w).2 = false := by
    rw [sync_source_eq]
    exact a1
  have h3 : (copy_best_files env dest_path dest_id
      { (sync_source env src w).1 with
          db := remove_unvisited_files_from_database
            (sync_source env src w).1.db }).2 = false := by
    rw [sync_source_eq]
    exact q1
  have hbf : backup_files env [src] dest_path dest_id w =
      update_source_directory_entries env dest_id
        (copy_best_files env dest_path dest_id
          { (sync_dirs env src.root src.dirs w).1 with
          db := remove_unvisited_files_from_database
            (sync_dirs env src.root src.dirs w).1.db }).1 := by
    rw [backup_files_single_eq env src dest_path dest_id w h1 h3, sync_source_eq]
  have hs4flag : (backup_files env [src] dest_path dest_id w).2 = false := by
    rw [hbf]
    exact q2
  have hsess := backup_session_eq env [src] dest_path dest_id w hs4flag
  have hat2 : ({ (sync_dirs env src.root src.dirs w).1 with
          db := remove_unvisited_files_from_database
            (sync_dirs env src.root src.dirs w).1.db } : World).attempts = [] := by
    show (sync_dirs env src.root src.dirs w).1.attempts = []
    rw [a2, hat0]
  have hcp2 : ({ (sync_dirs env src.root src.dirs w).1 with
          db := remove_unvisited_files_from_database
            (sync_dirs env src.root src.dirs w).1.db } : World).copies = [] := by
    show (sync_dirs env src.root src.dirs w).1.copies = []
    rw [a3, hcp0]
  have hATT : (backup_session env [src] dest_path dest_id w).1.attempts =
      (for_backup ({ (sync_dirs env src.root src.dirs w).1 with
          db := remove_unvisited_files_from_database
            (sync_dirs env src.root src.dirs w).1.db } : World).db dest_id).map rowSrcPath := by
    rw [hsess]
    show (backup_files env [src] dest_path dest_id w).1.attempts = _
    rw [hbf, q3, hat2, List.nil_append]
  have hCPY : (backup_session env [src] dest_path dest_id w).1.copies =
      (for_backup ({ (sync_dirs env src.root src.dirs w).1 with
          db := remove_unvisited_files_from_database
            (sync_dirs env src.root src.dirs w).1.db } : World).db dest_id).map rowSrcPath := by
    rw [hsess]
    show (backup_files env [src] dest_path dest_id w).1.copies = _
    rw [hbf, q4, hcp2, List.nil_append]
  have hkeysnodup := sourceKeys_nodup src hdnd hfnd
  have hkeysmem : ∀ k, k ∈ (remove_unvisited_files_from_database
      (sync_dirs env src.root src.dirs w).1.db).map (·.filename) ↔ k ∈ sourceKeys src := by
    intro k
    constructor
    · intro hk
      obtain ⟨r, hr, he⟩ := List.mem_map.mp hk
      obtain ⟨d, hd, nf, hnf, he2⟩ := p1 r hr
      rw [← he, he2]
      rw [sourceKeys_eq]
      refine List.mem_flatMap.mpr ⟨d, hd, ?_⟩
      exact List.mem_map_of_mem _ hnf
    · intro hk
      rw [sourceKeys_eq] at hk
      obtain ⟨d, hd, hkd⟩ := List.mem_flatMap.mp hk
      obtain ⟨nf, hnf, he⟩ := List.mem_map.mp hkd
      refine List.mem_map.mpr ⟨sweptRow (d.1 ++ [nf.1]) src.root
        (bkpXmlGet (srcDirPath src.root d.1)
          ((sync_dirs env src.root src.dirs w).1.sidecars
            (srcDirPath src.root d.1)) nf.1), p2 d hd nf hnf, he⟩
  have hdbperm : List.Perm ((remove_unvisited_files_from_database
      (sync_dirs env src.root src.dirs w).1.db).map (·.filename)) (sourceKeys src) :=
    (List.perm_ext_iff_of_nodup p3 hkeysnodup).mpr hkeysmem
  have hmapsrc : (remove_unvisited_files_from_database
      (sync_dirs env src.root src.dirs w).1.db).map rowSrcPath =
      ((remove_unvisited_files_from_database
      (sync_dirs env src.root src.dirs w).1.db).map (·.filename)).map (fun k => PyPath.mk (some src.root) k) := by
    rw [List.map_map]
    refine List.map_congr_left ?_
    intro r hr
    show rowSrcPath r = PyPath.mk (some src.root) r.filename
    unfold rowSrcPath
    rw [hsrcD r hr]
  have hpathinj : Function.Injective (fun k : List String =>
      PyPath.mk (some src.root) k) := by
    intro a b h
    simpa using h
  have hperm3 : List.Perm
      ((for_backup ({ (sync_dirs env src.root src.dirs w).1 with
          db := remove_unvisited_files_from_database
            (sync_dirs env src.root src.dirs w).1.db } : World).db dest_id).map rowSrcPath)
      ((sourceKeys src).map (fun k => PyPath.mk (some src.root) k)) := by
    refine (q5.map rowSrcPath).trans ?_
    show List.Perm ((remove_unvisited_files_from_database
      (sync_dirs env src.root src.dirs w).1.db).map rowSrcPath) _
    rw [hmapsrc]
    exact hdbperm.map _
  have hDBmap : (backup_session env [src] dest_path dest_id w).1.db.map
      (·.filename) = (remove_unvisited_files_from_database
      (sync_dirs env src.root src.dirs w).1.db).map (·.filename) := by
    rw [hsess]
    show (clear_all_visited (backup_files env [src] dest_path dest_id w).1.db).map
      (·.filename) = _
    rw [clear_map_filename, hbf, q6]
  have hSCfin : (backup_session env [src] dest_path dest_id w).1.sidecars =
      (update_source_directory_entries env dest_id
        (copy_best_files env dest_path dest_id
          { (sync_dirs env src.root src.dirs w).1 with
          db := remove_unvisited_files_from_database
            (sync_dirs env src.root src.dirs w).1.db }).1).1.sidecars := by
    rw [hsess]
    show (backup_files env [src] dest_path dest_id w).1.sidecars = _
    rw [hbf]
  refine ⟨by rw [hsess], hATT.trans hCPY.symm, ?_, ?_, ?_, ?_, ?_⟩
  · rw [hCPY]
    exact hperm3
  · rw [hCPY]
    exact hperm3.nodup_iff.mpr (hkeysnodup.map hpathinj)
  · rw [hDBmap]
    exact p3
  · intro r hr
    rw [hsess] at hr
    exact clear_vis _ r hr
  · intro d hd nf hnf
    rw [hSCfin]
    have hq := q7 (d.1 ++ [nf.1]) ⟨sweptRow (d.1 ++ [nf.1]) src.root
      (bkpXmlGet (srcDirPath src.root d.1)
        ((sync_dirs env src.root src.dirs w).1.sidecars
          (srcDirPath src.root d.1)) nf.1), p2 d hd nf hnf, rfl⟩
    rw [concatPath_parent, concatPath_name] at hq
    exact hq

/-- C4: at-most-once copy per destination.  (i) _backup_file skips -
without contacting the copier or touching any state - every file
whose source sidecar record already carries the destination's
VolumeId, independently of the central index.  (ii) A backup run of a
source from a fresh index copies every file exactly once: the copy
invocations (attempts) coincide with the successful copies and are a
duplicate-free enumeration of the source's files.  (iii) A second run
to the same destination performs zero copy invocations - whatever
rows the central index holds at that point, including rows missing
the destination association or missing entirely. -/
theorem at_most_once_per_destination (env : BackupEnv) (src : SourceTree)
    (dest_path : PyPath) (dest_id : VolumeId) (w : World)
    (hfile : ∀ p, env.isFile p = true)
    (hmd5 : ∀ p, env.fs.contentMd5 p ≠ "")
    (hok : ∀ p, env.copyOk p = true)
    (hmt : ∀ d ∈ src.dirs, ∀ nf ∈ d.2, nf.2.st_mtime ≠ 0)
    (hdnd : (src.dirs.map Prod.fst).Nodup)
    (hfnd : ∀ d ∈ src.dirs, (d.2.map Prod.fst).Nodup)
    (hdb0 : w.db = [])
    (hsc0 : ∀ dir, w.sidecars dir = [])
    (hat0 : w.attempts = [])
    (hcp0 : w.copies = [])
    (hbase : dest_path.base ≠ some src.root) :
    (∀ (s d : PyPath) (key : List String) (w2 : World),
      dest_id ∈ (bkpXmlGet s.parent (w2.sidecars s.parent) s.name).bkp_dests →
      _backup_file env dest_id s d key w2 = w2) ∧
    (backup_session env [src] dest_path dest_id w).2 = false ∧
    (backup_session env [src] dest_path dest_id w).1.attempts =
      (backup_session env [src] dest_path dest_id w).1.copies ∧
    List.Perm (backup_session env [src] dest_path dest_id w).1.copies
      ((sourceKeys src).map (fun k => PyPath.mk (some src.root) k)) ∧
    (backup_session env [src] dest_path dest_id w).1.copies.Nodup ∧
    (∀ db2 : DbState, (db2.map (·.filename)).Nodup →
      (∀ r ∈ db2, r.visited = 0) →
      (backup_session env [src] dest_path dest_id
        { (backup_session env [src] dest_path dest_id w).1 with db := db2 }).2 =
        false ∧
      (backup_session env [src] dest_path dest_id
        { (backup_session env [src] dest_path dest_id w).1 with
            db := db2 }).1.attempts =
        (backup_session env [src] dest_path dest_id w).1.attempts ∧
      (backup_session env [src] dest_path dest_id
        { (backup_session env [src] dest_path dest_id w).1 with
            db := db2 }).1.copies =
        (backup_session env [src] dest_path dest_id w).1.copies) := by
  obtain ⟨r1, r2, r3, r4, r5, r6, r7⟩ := backup_run_one env src dest_path dest_id w
    hfile hmd5 hok hmt hdnd hfnd hdb0 hsc0 hat0 hcp0 hbase
  refine ⟨?_, r1, r2, r3, r4, ?_⟩
  · intro s d key w2 hmem
    exact backup_file_no_copy_when_sidecar_has_dest env dest_id s d key w2 hmem
  · intro db2 hnd2 hvis2
    obtain ⟨t1, t2, t3⟩ := backup_run_two env src dest_path dest_id
      { (backup_session env [src] dest_path dest_id w).1 with db := db2 }
      hmd5 hmt hdnd hfnd hnd2 hvis2 r7
    exact ⟨t1, t2, t3⟩

/-- Concrete environment for the C4 witness. -/
def envC4 : BackupEnv :=
  { fs := ⟨fun _ => "M"⟩, stat := fun _ => ⟨7, 3⟩, isFile := fun _ => true,
    copyOk := fun _ => true, baseName := fun _ => "s" }

/-- Concrete source tree for the C4 witness: one file in the root
directory and one in a subdirectory. -/
def srcC4 : SourceTree :=
  { root := "s", dirs := [([], [("a", ⟨7, 3⟩)]), (["d"], [("b", ⟨5, 3⟩)])] }

/-- Empty initial world for the C4 witness. -/
def wC4 : World := { sidecars := fun _ => [], db := [], attempts := [], copies := [] }

/-- Witness for C4: the first run copies both files exactly once and a
second run over an emptied central index copies nothing. -/
theorem at_most_once_per_destination_witness :
    (backup_session envC4 [srcC4] ⟨some "T", []⟩ "D" wC4).2 = false ∧
    List.Perm (backup_session envC4 [srcC4] ⟨some "T", []⟩ "D" wC4).1.copies
      ((sourceKeys srcC4).map (fun k => PyPath.mk (some "s") k)) ∧
    (backup_session envC4 [srcC4] ⟨some "T", []⟩ "D" wC4).1.copies.Nodup ∧
    (backup_session envC4 [srcC4] ⟨some "T", []⟩ "D"
      { (backup_session envC4 [srcC4] ⟨some "T", []⟩ "D" wC4).1 with
          db := [] }).1.copies =
      (backup_session envC4 [srcC4] ⟨some "T", []⟩ "D" wC4).1.copies := by
  have h := at_most_once_per_destination envC4 srcC4 ⟨some "T", []⟩ "D" wC4
    (fun p => rfl) (fun p => by show ("M" : String) ≠ ""; decide) (fun p => rfl)
    (by decide) (by decide) (by decide) rfl (fun dir => rfl) rfl rfl (by decide)
  exact ⟨h.2.1, h.2.2.2.1, h.2.2.2.2.1,
    (h.2.2.2.2.2 [] (by decide) (by decide)).2.2⟩

/-! ### Restore context (src/py/medorg/restore/structs.py,
Bdsa.add_restore_context)

The XML attribute text domain is embedded semantically: to_element
writes str(x) where x is None, an int, or a datetime; int() inverts
the canonical rendering of an int, raises ValueError on "None" and on
a datetime rendering (which contains date separators).  The three
string classes are disjoint, so they are modelled as a three-way sum,
int() as the partial inverse.  Python sets are kept as
first-occurrence dedup lists in iteration order. -/

inductive PyAttrStr where
  | noneStr
  | intStr (n : Int)
  | datetimeStr (t : Int)
deriving DecidableEq, Repr

def pyInt : PyAttrStr → Option Int
  | .intStr n => some n
  | _ => none

/-- Python set construction from an iterable, as the insertion-ordered
list of first occurrences. -/
def pySetList {α : Type} [DecidableEq α] (l : List α) : List α :=
  l.foldl (fun acc x => if x ∈ acc then acc else acc ++ [x]) []

/-- The XML elements the restore context serialization uses: file
records, directories, per-source roots, and the document root.
findall(tag) selects the direct children with that tag, in order. -/
inductive XElem where
  | file (name : String) (size : PyAttrStr) (mtime : PyAttrStr) (md5 : String)
      (bds : List String)
  | dr (name : String) (children : List XElem)
  | rc (src_path : String) (children : List XElem)
  | root (children : List XElem)

/-- restore.structs.RestoreFile (the fields serialization uses). -/
structure RestoreFile where
  name : String
  size : Option Int
  mtime : Option Int
  md5 : String
  bkp_dests : List String
deriving DecidableEq, Repr

def sizeAttr : Option Int → PyAttrStr
  | none => .noneStr
  | some i => .intStr i

def mtimeAttr : Option Int → PyAttrStr
  | none => .noneStr
  | some t => .datetimeStr t

def RestoreFile.to_element (rf : RestoreFile) : XElem :=
  .file rf.name (sizeAttr rf.size) (mtimeAttr rf.mtime) rf.md5 rf.bkp_dests

/-- RestoreFile.from_element: int(size) may raise; mtime is parsed
unless it is the "None" sentinel; the bd texts are collected into a
set. -/
def RestoreFile.from_element : XElem → Option RestoreFile
  | .file n s m md bds =>
      match pyInt s with
      | none => none
      | some sz =>
        match (if m == PyAttrStr.noneStr then some none
               else (pyInt m).map some) with
        | none => none
        | some mt => some ⟨n, some sz, mt, md, pySetList bds⟩
  | _ => none

/-- A file record the serialization round-trips exactly: a present
integer size, no timestamp, and an already-deduplicated destination
set. -/
def goodFile (rf : RestoreFile) : Bool :=
  rf.size.isSome && (rf.mtime == none) && (pySetList rf.bkp_dests == rf.bkp_dests)

theorem restoreFile_roundtrip (rf : RestoreFile) (h : goodFile rf = true) :
    RestoreFile.from_element (RestoreFile.to_element rf) = some rf := by
  obtain ⟨n, sz, mt, md, bds⟩ := rf
  unfold goodFile at h
  simp only [Bool.and_eq_true, beq_iff_eq, Option.isSome_iff_exists] at h
  obtain ⟨⟨⟨v, hv⟩, hmt⟩, hbds⟩ := h
  subst hv
  subst hmt
  unfold RestoreFile.to_element RestoreFile.from_element
  simp [sizeAttr, mtimeAttr, pyInt, hbds]

/-- restore.structs.RestoreDirectory. -/
inductive RestoreDirectory where
  | mk (name : String) (files : List RestoreFile)
      (subdirectories : List RestoreDirectory)

def RestoreDirectory.name : RestoreDirectory → String
  | ⟨n, _, _⟩ => n

def RestoreDirectory.files : RestoreDirectory → List RestoreFile
  | ⟨_, fs, _⟩ => fs

def RestoreDirectory.subdirectories : RestoreDirectory → List RestoreDirectory
  | ⟨_, _, ds⟩ => ds

mutual

/-- RestoreDirectory.to_element: the dr element with the files'
elements followed by the subdirectories' elements. -/
def RestoreDirectory.to_element : RestoreDirectory → XElem
  | ⟨n, fs, ds⟩ => .dr n (fs.map RestoreFile.to_element ++ dirsToElems ds)

def dirsToElems : List RestoreDirectory → List XElem
  | [] => []
  | d :: ds => RestoreDirectory.to_element d :: dirsToElems ds

end

/-- findall("file") fused with RestoreFile.from_element over each hit;
a parse failure (ValueError) propagates. -/
def parseFilesOf : List XElem → Option (List RestoreFile)
  | [] => some []
  | .file n s m md bds :: rest =>
      match RestoreFile.from_element (.file n s m md bds) with
      | none => none
      | some f =>
        match parseFilesOf rest with
        | none => none
        | some fs => some (f :: fs)
  | _ :: rest => parseFilesOf rest

mutual

/-- RestoreDirectory.from_element (only ever applied to dr elements). -/
def RestoreDirectory.from_element : XElem → Option RestoreDirectory
  | .dr n cs =>
      match parseFilesOf cs with
      | none => none
      | some fs =>
        match dirsOfParse cs with
        | none => none
        | some ds => some ⟨n, fs, ds⟩
  | _ => none

/-- findall("dr") fused with RestoreDirectory.from_element over each hit. -/
def dirsOfParse : List XElem → Option (List RestoreDirectory)
  | [] => some []
  | .dr n cs :: rest =>
      match RestoreDirectory.from_element (.dr n cs) with
      | none => none
      | some d =>
        match dirsOfParse rest with
        | none => none
        | some ds => some (d :: ds)
  | _ :: rest => dirsOfParse rest

end

mutual

def goodDir : RestoreDirectory → Bool
  | ⟨_, fs, ds⟩ => fs.all goodFile && goodDirs ds

def goodDirs : List RestoreDirectory → Bool
  | [] => true
  | d :: ds => goodDir d && goodDirs ds

end

theorem parseFilesOf_drs (ds : List RestoreDirectory) :
    parseFilesOf (dirsToElems ds) = some [] := by
  induction ds with
  | nil => rfl
  | cons d ds ih =>
    obtain ⟨n, fs, subs⟩ := d
    simp only [dirsToElems, RestoreDirectory.to_element]
    simp only [parseFilesOf]
    exact ih

theorem parseFilesOf_good (fs : List RestoreFile) (ds : List RestoreDirectory)
    (h : fs.all goodFile = true) :
    parseFilesOf (fs.map RestoreFile.to_element ++ dirsToElems ds) = some fs := by
  induction fs with
  | nil => simpa using parseFilesOf_drs ds
  | cons f fs2 ih =>
    simp only [List.all_cons, Bool.and_eq_true] at h
    rw [List.map_cons, List.cons_append]
    have hfe : RestoreFile.to_element f =
        .file f.name (sizeAttr f.size) (mtimeAttr f.mtime) f.md5 f.bkp_dests := rfl
    rw [hfe]
    simp only [parseFilesOf]
    rw [← hfe, restoreFile_roundtrip f h.1]
    rw [ih h.2]

theorem dirsOfParse_past_files (fs : List RestoreFile) (B : List XElem) :
    dirsOfParse (fs.map RestoreFile.to_element ++ B) = dirsOfParse B := by
  induction fs with
  | nil => rfl
  | cons f fs2 ih =>
    rw [List.map_cons, List.cons_append]
    have hfe : RestoreFile.to_element f =
        .file f.name (sizeAttr f.size) (mtimeAttr f.mtime) f.md5 f.bkp_dests := rfl
    rw [hfe]
    simp only [dirsOfParse]
    exact ih

mutual

theorem dir_roundtrip : ∀ (d : RestoreDirectory), goodDir d = true →
    RestoreDirectory.from_element (RestoreDirectory.to_element d) = some d
  | ⟨n, fs, subs⟩, h => by
    simp only [goodDir, Bool.and_eq_true] at h
    simp only [RestoreDirectory.to_element]
    simp only [RestoreDirectory.from_element]
    rw [parseFilesOf_good fs subs h.1]
    rw [dirsOfParse_past_files fs (dirsToElems subs)]
    rw [dirs_roundtrip subs h.2]

theorem dirs_roundtrip : ∀ (ds : List RestoreDirectory), goodDirs ds = true →
    dirsOfParse (dirsToElems ds) = some ds
  | [], _ => rfl
  | ⟨n, fs, subs⟩ :: rest, h => by
    simp only [goodDirs, Bool.and_eq_true] at h
    simp only [dirsToElems]
    simp only [RestoreDirectory.to_element]
    simp only [dirsOfParse]
    rw [show XElem.dr n (fs.map RestoreFile.to_element ++ dirsToElems subs) =
      RestoreDirectory.to_element ⟨n, fs, subs⟩ from rfl]
    rw [dir_roundtrip ⟨n, fs, subs⟩ h.1]
    rw [dirs_roundtrip rest h.2]

end

mutual

/-- The descend-or-create insertion build_file_structure performs: walk
the intermediate path parts, descending into the first subdirectory of
each name and appending a fresh one when absent, then append the file
at the leaf. -/
def addToDir : List String → RestoreDirectory → RestoreFile → RestoreDirectory
  | [], ⟨n, fs, ds⟩, f => ⟨n, fs ++ [f], ds⟩
  | p :: ps, ⟨n, fs, ds⟩, f => ⟨n, fs, addInSubs ps p ds f⟩
termination_by parts _ _ => (parts.length, 0)

def addInSubs : List String → String → List RestoreDirectory → RestoreFile →
    List RestoreDirectory
  | ps, p, [], f => [addToDir ps ⟨p, [], []⟩ f]
  | ps, p, d :: ds, f =>
      if d.name = p then addToDir ps d f :: ds else d :: addInSubs ps p ds f
termination_by ps _ subs _ => (ps.length, subs.length + 1)

end

theorem addToDir_name (parts : List String) (d : RestoreDirectory)
    (f : RestoreFile) : (addToDir parts d f).name = d.name := by
  cases parts with
  | nil =>
    cases d with
    | mk n fs ds => simp [addToDir, RestoreDirectory.name]
  | cons p ps =>
    cases d with
    | mk n fs ds => simp [addToDir, RestoreDirectory.name]

mutual

/-- The leaves of a directory tree: each file with the path of
intermediate directories it sits under. -/
def dirLeaves : List String → RestoreDirectory → List (List String × RestoreFile)
  | parent, ⟨_, fs, ds⟩ => fs.map (fun f => (parent, f)) ++ dirsLeaves parent ds

def dirsLeaves : List String → List RestoreDirectory →
    List (List String × RestoreFile)
  | _, [] => []
  | parent, d :: ds => dirLeaves (parent ++ [d.name]) d ++ dirsLeaves parent ds

end

mutual

theorem addToDir_leaves : ∀ (parts : List String) (d : RestoreDirectory)
    (f : RestoreFile) (parent : List String),
    List.Perm (dirLeaves parent (addToDir parts d f))
      ((parent ++ parts, f) :: dirLeaves parent d)
  | [], ⟨n, fs, ds⟩, f, parent => by
    simp only [addToDir, dirLeaves, List.map_append, List.map_singleton,
      List.append_nil]
    rw [List.append_assoc, List.singleton_append]
    exact List.perm_middle
  | p :: ps, ⟨n, fs, ds⟩, f, parent => by
    simp only [addToDir, dirLeaves]
    refine (List.Perm.append_left (fs.map (fun f => (parent, f)))
      (addInSubs_leaves ps p ds f parent)).trans ?_
    rw [show parent ++ [p] ++ ps = parent ++ p :: ps by simp]
    exact List.perm_middle
termination_by parts _ _ _ => (parts.length, 0)

theorem addInSubs_leaves : ∀ (ps : List String) (p : String)
    (subs : List RestoreDirectory) (f : RestoreFile) (parent : List String),
    List.Perm (dirsLeaves parent (addInSubs ps p subs f))
      ((parent ++ [p] ++ ps, f) :: dirsLeaves parent subs)
  | ps, p, [], f, parent => by
    simp only [addInSubs, dirsLeaves]
    rw [addToDir_name]
    simp only [RestoreDirectory.name, List.append_nil]
    have h := addToDir_leaves ps ⟨p, [], []⟩ f (parent ++ [p])
    simp only [dirLeaves, dirsLeaves, List.map_nil, List.nil_append,
      List.append_nil] at h
    exact h
  | ps, p, d :: ds, f, parent => by
    simp only [addInSubs]
    by_cases hd : d.name = p
    · rw [if_pos hd]
      simp only [dirsLeaves]
      rw [addToDir_name]
      refine (List.Perm.append_right (dirsLeaves parent ds)
        (addToDir_leaves ps d f (parent ++ [d.name]))).trans ?_
      rw [List.cons_append, hd]
    · rw [if_neg hd]
      simp only [dirsLeaves]
      refine (List.Perm.append_left _ (addInSubs_leaves ps p ds f parent)).trans ?_
      exact List.perm_middle
termination_by ps _ subs _ _ => (ps.length, subs.length + 1)

end

mutual

theorem addToDir_good : ∀ (parts : List String) (d : RestoreDirectory)
    (f : RestoreFile), goodDir d = true → goodFile f = true →
    goodDir (addToDir parts d f) = true
  | [], ⟨n, fs, ds⟩, f, hd, hf => by
    simp only [addToDir, goodDir, Bool.and_eq_true] at hd ⊢
    refine ⟨?_, hd.2⟩
    rw [List.all_append]
    simp [hd.1, List.all_cons, hf]
  | p :: ps, ⟨n, fs, ds⟩, f, hd, hf => by
    simp only [addToDir, goodDir, Bool.and_eq_true] at hd ⊢
    exact ⟨hd.1, addInSubs_good ps p ds f hd.2 hf⟩
termination_by parts _ _ => (parts.length, 0)

theorem addInSubs_good : ∀ (ps : List String) (p : String)
    (subs : List RestoreDirectory) (f : RestoreFile),
    goodDirs subs = true → goodFile f = true →
    goodDirs (addInSubs ps p subs f) = true
  | ps, p, [], f, _, hf => by
    simp only [addInSubs, goodDirs, Bool.and_eq_true]
    refine ⟨addToDir_good ps ⟨p, [], []⟩ f ?_ hf, trivial⟩
    simp [goodDir, goodDirs]
  | ps, p, d :: ds, f, hs, hf => by
    simp only [goodDirs, Bool.and_eq_true] at hs
    simp only [addInSubs]
    by_cases hnm : d.name = p
    · rw [if_pos hnm]
      simp only [goodDirs, Bool.and_eq_true]
      exact ⟨addToDir_good ps d f hs.1 hf, hs.2⟩
    · rw [if_neg hnm]
      simp only [goodDirs, Bool.and_eq_true]
      exact ⟨hs.1, addInSubs_good ps p ds f hs.2 hf⟩
termination_by ps _ subs _ => (ps.length, subs.length + 1)

end

theorem addToDir_cons_files (p : String) (ps : List String)
    (d : RestoreDirectory) (f : RestoreFile) :
    (addToDir (p :: ps) d f).files = d.files := by
  cases d with
  | mk n fs ds => simp [addToDir, RestoreDirectory.files]

/-- The foldl behind pySetList. -/
theorem pySetFold_nodup {α : Type} [DecidableEq α] :
    ∀ (l acc : List α), acc.Nodup →
    (l.foldl (fun a x => if x ∈ a then a else a ++ [x]) acc).Nodup := by
  intro l
  induction l with
  | nil => intro acc h; exact h
  | cons x l2 ih =>
    intro acc h
    rw [List.foldl_cons]
    by_cases hx : x ∈ acc
    · rw [if_pos hx]
      exact ih acc h
    · rw [if_neg hx]
      refine ih _ ?_
      rw [List.nodup_append]
      exact ⟨h, by simp, by intro a ha hb; simp at hb; exact hx (hb ▸ ha)⟩

theorem pySetFold_of_fresh {α : Type} [DecidableEq α] :
    ∀ (l acc : List α), l.Nodup → (∀ x ∈ l, x ∉ acc) →
    l.foldl (fun a x => if x ∈ a then a else a ++ [x]) acc = acc ++ l := by
  intro l
  induction l with
  | nil => intro acc _ _; simp
  | cons x l2 ih =>
    intro acc hnd hfr
    rw [List.foldl_cons, if_neg (hfr x (by simp))]
    rw [List.nodup_cons] at hnd
    rw [ih (acc ++ [x]) hnd.2 ?_]
    · simp
    · intro y hy
      rw [List.mem_append, List.mem_singleton]
      rintro (h | h)
      · exact hfr y (by simp [hy]) h
      · exact hnd.1 (h ▸ hy)

theorem pySetList_nodup {α : Type} [DecidableEq α] (l : List α) :
    (pySetList l).Nodup :=
  pySetFold_nodup l [] (by simp)

theorem pySetList_of_nodup {α : Type} [DecidableEq α] (l : List α)
    (h : l.Nodup) : pySetList l = l := by
  unfold pySetList
  rw [pySetFold_of_fresh l [] h (by simp)]
  simp

theorem pySetList_idem {α : Type} [DecidableEq α] (l : List α) :
    pySetList (pySetList l) = pySetList l :=
  pySetList_of_nodup _ (pySetList_nodup l)

theorem add_bkp_dests_dests (L : List VolumeId) :
    ∀ (row : BackupFileRow),
    (add_bkp_dests_to_backup_file L row).backup_dest =
      L.foldl (fun a x => if x ∈ a then a else a ++ [x]) row.backup_dest := by
  unfold add_bkp_dests_to_backup_file
  induction L with
  | nil => intro row; rfl
  | cons x L2 ih =>
    intro row
    rw [List.foldl_cons, List.foldl_cons]
    unfold add_tag_obj_to_backup_file
    by_cases hx : x ∈ row.backup_dest
    · rw [if_pos hx, if_pos hx]
      exact ih row
    · rw [if_neg hx, if_neg hx]
      exact ih _

/-- RestoreContext (the file_structure dict in insertion order). -/
structure RestoreContext where
  file_structure : List (String × RestoreDirectory)

/-- The find-or-create update build_file_structure performs on the
per-source dict. -/
def ctxInsert (fs : List (String × RestoreDirectory)) (sp : String)
    (parts : List String) (rf : RestoreFile) : List (String × RestoreDirectory) :=
  match fs with
  | [] => [(sp, addToDir parts ⟨sp, [], []⟩ rf)]
  | (s, d) :: rest =>
      if s = sp then (s, addToDir parts d rf) :: rest
      else (s, d) :: ctxInsert rest sp parts rf

/-- The RestoreFile build_file_structure creates for a row. -/
def rfOf (r : BackupFileRow) : RestoreFile :=
  ⟨r.filename.getLast?.getD "", r.size.map (fun n => (n : Int)), r.timestamp,
   r.md5_hash, pySetList r.backup_dest⟩

/-- RestoreContext.build_file_structure over the table's rows. -/
def build_file_structure (db : DbState) : List (String × RestoreDirectory) :=
  db.foldl (fun fs r => ctxInsert fs r.src_path r.filename.dropLast (rfOf r)) []

/-- RestoreContext.to_element: one rc element per source, holding the
root directory's files' elements then its subdirectories' elements. -/
def RestoreContext.to_element (ctx : RestoreContext) : XElem :=
  .root (ctx.file_structure.map (fun sd =>
    .rc sd.1 (sd.2.files.map RestoreFile.to_element ++
      dirsToElems sd.2.subdirectories)))

/-- Python dict assignment on the insertion-ordered structure. -/
def ctxSet (fs : List (String × RestoreDirectory)) (sp : String)
    (d : RestoreDirectory) : List (String × RestoreDirectory) :=
  match fs with
  | [] => [(sp, d)]
  | (s, d0) :: rest =>
      if s = sp then (s, d) :: rest else (s, d0) :: ctxSet rest sp d

/-- RestoreContext.from_element's loop over findall("rc"): each rc
element yields a directory holding ONLY the parsed dr children - the
rc element's own file children are never read. -/
def rcParse : List XElem → List (String × RestoreDirectory) →
    Option (List (String × RestoreDirectory))
  | [], acc => some acc
  | .rc sp cs :: rest, acc =>
      match dirsOfParse cs with
      | none => none
      | some ds => rcParse rest (ctxSet acc sp ⟨sp, [], ds⟩)
  | _ :: rest, acc => rcParse rest acc

def XElem.children : XElem → List XElem
  | .file _ _ _ _ _ => []
  | .dr _ cs => cs
  | .rc _ cs => cs
  | .root cs => cs

def RestoreContext.from_element (e : XElem) : Option RestoreContext :=
  (rcParse e.children []).map RestoreContext.mk

/-- The row Bdsa._add_directory_to_db adds for one restore file. -/
def rowOfRestoreFile (sp : String) (parent : List String) (rf : RestoreFile) :
    BackupFileRow :=
  add_bkp_dests_to_backup_file rf.bkp_dests
    ⟨parent ++ [rf.name], sp, rf.size.map Int.toNat, some (rf.mtime.getD 0),
     rf.md5, 0, []⟩

mutual

/-- Bdsa._add_directory_to_db: append a row per file of the directory,
then recurse into the subdirectories with the extended parent path. -/
def _add_directory_to_db (sp : String) (rd : RestoreDirectory)
    (parent : List String) (db : DbState) : DbState :=
  match rd with
  | ⟨_, fs, ds⟩ =>
      addSubdirsToDb sp ds parent
        (fs.foldl (fun acc rf => acc ++ [rowOfRestoreFile sp parent rf]) db)

def addSubdirsToDb (sp : String) (ds : List RestoreDirectory)
    (parent : List String) (db : DbState) : DbState :=
  match ds with
  | [] => db
  | d :: rest =>
      addSubdirsToDb sp rest parent
        (_add_directory_to_db sp d (parent ++ [d.name]) db)

end

/-- Bdsa.add_restore_context: refuse when any source already has rows,
else add every directory tree. -/
def add_restore_context (db : DbState) (ctx : RestoreContext) : Option DbState :=
  if ctx.file_structure.any (fun sd => db.any (fun r => r.src_path == sd.1))
  then none
  else some (ctx.file_structure.foldl
    (fun acc sd => _add_directory_to_db sd.1 sd.2 [] acc) db)

/-- The full restore round trip: export the table, serialize, parse,
and import into a fresh central index. -/
def roundTrip (db : DbState) : Option DbState :=
  match RestoreContext.from_element
      (RestoreContext.to_element ⟨build_file_structure db⟩) with
  | none => none
  | some ctx => add_restore_context [] ctx

theorem foldl_append_map {α β : Type} (g : α → β) :
    ∀ (l : List α) (acc : List β),
    l.foldl (fun a x => a ++ [g x]) acc = acc ++ l.map g := by
  intro l
  induction l with
  | nil => intro acc; simp
  | cons x l2 ih =>
    intro acc
    rw [List.foldl_cons, ih, List.map_cons]
    simp

mutual

theorem add_dir_rows : ∀ (rd : RestoreDirectory) (sp : String)
    (parent : List String) (db : DbState),
    _add_directory_to_db sp rd parent db =
      db ++ (dirLeaves parent rd).map (fun pf => rowOfRestoreFile sp pf.1 pf.2)
  | ⟨n, fs, ds⟩, sp, parent, db => by
    simp only [_add_directory_to_db, dirLeaves]
    rw [foldl_append_map (rowOfRestoreFile sp parent) fs db]
    rw [add_subdirs_rows ds sp parent (db ++ fs.map (rowOfRestoreFile sp parent))]
    rw [List.map_append, List.map_map]
    rw [List.append_assoc]
    rfl
termination_by rd _ _ _ => sizeOf rd

theorem add_subdirs_rows : ∀ (ds : List RestoreDirectory) (sp : String)
    (parent : List String) (db : DbState),
    addSubdirsToDb sp ds parent db =
      db ++ (dirsLeaves parent ds).map (fun pf => rowOfRestoreFile sp pf.1 pf.2)
  | [], sp, parent, db => by simp [addSubdirsToDb, dirsLeaves]
  | d :: rest, sp, parent, db => by
    simp only [addSubdirsToDb, dirsLeaves]
    rw [add_dir_rows d sp (parent ++ [d.name]) db]
    rw [add_subdirs_rows rest sp parent _]
    rw [List.map_append, List.append_assoc]
termination_by ds _ _ _ => sizeOf ds

end

/-- The leaves of the whole context: each file tagged with its source
and its intermediate path. -/
def ctxLeaves (fs : List (String × RestoreDirectory)) :
    List (String × List String × RestoreFile) :=
  fs.flatMap (fun sd => (dirLeaves [] sd.2).map (fun pf => (sd.1, pf.1, pf.2)))

theorem ctxInsert_leaves (sp : String) (parts : List String) (rf : RestoreFile) :
    ∀ (fs : List (String × RestoreDirectory)),
    List.Perm (ctxLeaves (ctxInsert fs sp parts rf))
      ((sp, parts, rf) :: ctxLeaves fs) := by
  intro fs
  induction fs with
  | nil =>
    simp only [ctxInsert, ctxLeaves, List.flatMap_cons, List.flatMap_nil,
      List.append_nil]
    have h := (addToDir_leaves parts ⟨sp, [], []⟩ rf []).map
      (fun pf => (sp, pf.1, pf.2))
    simp only [dirLeaves, dirsLeaves, List.map_nil, List.nil_append,
      List.append_nil, List.map_cons] at h
    exact h
  | cons sd rest ih =>
    obtain ⟨s, d⟩ := sd
    simp only [ctxInsert]
    by_cases hs : s = sp
    · rw [if_pos hs]
      simp only [ctxLeaves, List.flatMap_cons]
      refine (List.Perm.append_right _ ((addToDir_leaves parts d rf []).map
        (fun pf => (s, pf.1, pf.2)))).trans ?_
      rw [List.map_cons, List.cons_append, hs]
      simp only [List.nil_append]
      exact List.Perm.refl _
    · rw [if_neg hs]
      simp only [ctxLeaves, List.flatMap_cons]
      refine (List.Perm.append_left _ ih).trans ?_
      exact List.perm_middle
  
theorem build_leaves (db : DbState) :
    List.Perm (ctxLeaves (build_file_structure db))
      (db.map (fun r => (r.src_path, r.filename.dropLast, rfOf r))) := by
  unfold build_file_structure
  have hgen : ∀ (l : DbState) (fs : List (String × RestoreDirectory)),
      List.Perm (ctxLeaves (l.foldl
        (fun a r => ctxInsert a r.src_path r.filename.dropLast (rfOf r)) fs))
        (ctxLeaves fs ++ l.map (fun r => (r.src_path, r.filename.dropLast, rfOf r))) := by
    intro l
    induction l with
    | nil => intro fs; simp
    | cons r l2 ih =>
      intro fs
      rw [List.foldl_cons]
      refine (ih _).trans ?_
      rw [List.map_cons]
      refine (List.Perm.append_right _
        (ctxInsert_leaves r.src_path r.filename.dropLast (rfOf r) fs)).trans ?_
      rw [List.cons_append]
      exact (List.perm_middle).symm
  have h := hgen db []
  simp only [ctxLeaves, List.flatMap_nil, List.nil_append] at h
  exact h

theorem ctxSet_fresh (sp : String) (d : RestoreDirectory) :
    ∀ (fs : List (String × RestoreDirectory)), sp ∉ fs.map Prod.fst →
    ctxSet fs sp d = fs ++ [(sp, d)] := by
  intro fs
  induction fs with
  | nil => intro _; rfl
  | cons sd rest ih =>
    intro h
    obtain ⟨s, d0⟩ := sd
    simp only [ctxSet]
    have hs : ¬(s = sp) := by
      intro he
      exact h (by simp [he])
    rw [if_neg hs, ih (fun hm => h (by simp [hm]))]
    rfl

theorem rcParse_good :
    ∀ (fs acc : List (String × RestoreDirectory)),
    (∀ sd ∈ fs, sd.2.name = sd.1 ∧ sd.2.files = [] ∧ goodDir sd.2 = true) →
    rcParse (fs.map (fun sd =>
        XElem.rc sd.1 (sd.2.files.map RestoreFile.to_element ++
          dirsToElems sd.2.subdirectories))) acc =
      some (fs.foldl (fun a sd => ctxSet a sd.1 sd.2) acc) := by
  intro fs
  induction fs with
  | nil => intro acc _; rfl
  | cons sd rest ih =>
    intro acc hprops
    obtain ⟨sp, d⟩ := sd
    obtain ⟨hn, hf, hg⟩ := hprops (sp, d) (by simp)
    obtain ⟨n0, fs0, ds0⟩ := d
    simp only [RestoreDirectory.files] at hf
    simp only [RestoreDirectory.name] at hn
    subst hf
    subst hn
    simp only [List.map_cons]
    rw [show XElem.rc n0
        ((RestoreDirectory.mk n0 [] ds0).files.map RestoreFile.to_element ++
          dirsToElems (RestoreDirectory.mk n0 [] ds0).subdirectories) =
      XElem.rc n0 (dirsToElems ds0) from rfl]
    simp only [rcParse]
    simp only [goodDir, Bool.and_eq_true] at hg
    rw [dirs_roundtrip ds0 hg.2]
    show rcParse (rest.map (fun sd =>
        XElem.rc sd.1 (sd.2.files.map RestoreFile.to_element ++
          dirsToElems sd.2.subdirectories)))
        (ctxSet acc n0 ⟨n0, [], ds0⟩) =
      some (rest.foldl (fun a sd => ctxSet a sd.1 sd.2) (ctxSet acc n0 ⟨n0, [], ds0⟩))
    exact ih (ctxSet acc n0 ⟨n0, [], ds0⟩) (fun q hq => hprops q (by simp [hq]))

theorem foldl_ctxSet_fresh :
    ∀ (fs acc : List (String × RestoreDirectory)),
    (fs.map Prod.fst).Nodup →
    (∀ k ∈ fs.map Prod.fst, k ∉ acc.map Prod.fst) →
    fs.foldl (fun a sd => ctxSet a sd.1 sd.2) acc = acc ++ fs := by
  intro fs
  induction fs with
  | nil => intro acc _ _; simp
  | cons sd rest ih =>
    intro acc hnd hfr
    rw [List.foldl_cons, ctxSet_fresh sd.1 sd.2 acc (hfr sd.1 (by simp))]
    simp only [List.map_cons, List.nodup_cons] at hnd
    rw [ih (acc ++ [sd]) hnd.2 ?_]
    · simp
    · intro k hk
      rw [List.map_append, List.mem_append]
      rintro (h | h)
      · exact hfr k (by simp [hk]) h
      · simp only [List.map_cons, List.map_nil, List.mem_singleton] at h
        exact hnd.1 (h ▸ hk)

/-- Export followed by parse reproduces the context exactly, for a
structure whose per-source roots hold no direct files. -/
theorem ctx_roundtrip (fs : List (String × RestoreDirectory))
    (hprops : ∀ sd ∈ fs, sd.2.name = sd.1 ∧ sd.2.files = [] ∧ goodDir sd.2 = true)
    (hnd : (fs.map Prod.fst).Nodup) :
    RestoreContext.from_element (RestoreContext.to_element ⟨fs⟩) =
      some ⟨fs⟩ := by
  unfold RestoreContext.from_element RestoreContext.to_element
  simp only [XElem.children]
  rw [rcParse_good fs [] hprops]
  rw [foldl_ctxSet_fresh fs [] hnd (by simp)]
  simp

theorem dropLast_append_getLastD :
    ∀ (l : List String), l ≠ [] → l.dropLast ++ [l.getLast?.getD ""] = l := by
  intro l
  induction l with
  | nil => intro h; exact absurd rfl h
  | cons x t ih =>
    intro _
    cases t with
    | nil => rfl
    | cons y t2 =>
      have h2 := ih (by simp)
      rw [show (x :: y :: t2).dropLast = x :: (y :: t2).dropLast from rfl]
      rw [show (x :: y :: t2).getLast? = (y :: t2).getLast? from rfl]
      rw [List.cons_append, h2]

/-- The projection the amended round-trip claim compares: source root,
relative filename, size, fingerprint, and the destination set. -/
def projC1 (r : BackupFileRow) : String × List String × Option Nat × String ×
    List VolumeId :=
  (r.src_path, r.filename, r.size, r.md5_hash, pySetList r.backup_dest)

theorem add_tag_size (dest_id : VolumeId) (r : BackupFileRow) :
    (add_tag_obj_to_backup_file dest_id r).size = r.size := by
  unfold add_tag_obj_to_backup_file
  split <;> rfl

theorem add_bkp_dests_fields (L : List VolumeId) : ∀ (row : BackupFileRow),
    (add_bkp_dests_to_backup_file L row).filename = row.filename ∧
    (add_bkp_dests_to_backup_file L row).src_path = row.src_path ∧
    (add_bkp_dests_to_backup_file L row).size = row.size ∧
    (add_bkp_dests_to_backup_file L row).md5_hash = row.md5_hash := by
  unfold add_bkp_dests_to_backup_file
  induction L with
  | nil => intro row; exact ⟨rfl, rfl, rfl, rfl⟩
  | cons x L2 ih =>
    intro row
    rw [List.foldl_cons]
    obtain ⟨a, b, c, d⟩ := ih (add_tag_obj_to_backup_file x row)
    exact ⟨a.trans (add_tag_filename x row), b.trans (add_tag_src_path x row),
      c.trans (add_tag_size x row), d.trans (add_tag_md5 x row)⟩

theorem map_intCast_toNat : ∀ (o : Option Nat),
    (o.map (fun n => (n : Int))).map Int.toNat = o := by
  intro o
  cases o <;> simp

theorem row_proj (r : BackupFileRow) (h1 : r.filename ≠ []) :
    projC1 (rowOfRestoreFile r.src_path r.filename.dropLast (rfOf r)) =
      projC1 r := by
  unfold projC1 rowOfRestoreFile rfOf
  obtain ⟨ha, hb, hc, hd⟩ := add_bkp_dests_fields (pySetList r.backup_dest)
    ⟨r.filename.dropLast ++ [r.filename.getLast?.getD ""], r.src_path,
     (r.size.map (fun n => (n : Int))).map Int.toNat,
     some ((r.timestamp).getD 0), r.md5_hash, 0, []⟩
  have he := add_bkp_dests_dests (pySetList r.backup_dest)
    ⟨r.filename.dropLast ++ [r.filename.getLast?.getD ""], r.src_path,
     (r.size.map (fun n => (n : Int))).map Int.toNat,
     some ((r.timestamp).getD 0), r.md5_hash, 0, []⟩
  rw [ha, hb, hc, hd, he]
  dsimp only
  rw [show (pySetList r.backup_dest).foldl
      (fun a x => if x ∈ a then a else a ++ [x]) [] =
    pySetList (pySetList r.backup_dest) from rfl]
  rw [pySetList_idem, pySetList_idem]
  rw [dropLast_append_getLastD r.filename h1]
  rw [map_intCast_toNat r.size]

theorem ctxInsert_keys (sp : String) (parts : List String) (rf : RestoreFile) :
    ∀ (fs : List (String × RestoreDirectory)),
    (ctxInsert fs sp parts rf).map Prod.fst =
      if sp ∈ fs.map Prod.fst then fs.map Prod.fst
      else fs.map Prod.fst ++ [sp] := by
  intro fs
  induction fs with
  | nil => simp [ctxInsert]
  | cons sd rest ih =>
    obtain ⟨s, d⟩ := sd
    simp only [ctxInsert]
    by_cases hs : s = sp
    · rw [if_pos hs, if_pos (by simp [hs])]
      simp
    · rw [if_neg hs, List.map_cons, ih]
      by_cases hm : sp ∈ rest.map Prod.fst
      · rw [if_pos hm, if_pos (by simp [hm])]
        rfl
      · rw [if_neg hm, if_neg ?_]
        · simp
        · simp only [List.map_cons, List.mem_cons]
          rintro (h | h)
          · exact hs h.symm
          · exact hm h

theorem ctxInsert_props (sp : String) (parts : List String) (rf : RestoreFile)
    (hparts : parts ≠ []) (hrf : goodFile rf = true) :
    ∀ (fs : List (String × RestoreDirectory)),
    (∀ sd ∈ fs, sd.2.name = sd.1 ∧ sd.2.files = [] ∧ goodDir sd.2 = true) →
    ∀ sd ∈ ctxInsert fs sp parts rf,
      sd.2.name = sd.1 ∧ sd.2.files = [] ∧ goodDir sd.2 = true := by
  obtain ⟨p, ps, hpe⟩ : ∃ p ps, parts = p :: ps := by
    cases parts with
    | nil => exact absurd rfl hparts
    | cons p ps => exact ⟨p, ps, rfl⟩
  subst hpe
  intro fs
  induction fs with
  | nil =>
    intro _ sd hsd
    simp only [ctxInsert, List.mem_singleton] at hsd
    subst hsd
    refine ⟨?_, ?_, ?_⟩
    · rw [addToDir_name]
      rfl
    · rw [addToDir_cons_files]
      rfl
    · refine addToDir_good (p :: ps) ⟨sp, [], []⟩ rf ?_ hrf
      simp [goodDir, goodDirs]
  | cons sd0 rest ih =>
    intro hfs sd hsd
    obtain ⟨s, d⟩ := sd0
    simp only [ctxInsert] at hsd
    obtain ⟨hn0, hf0, hg0⟩ := hfs (s, d) (by simp)
    by_cases hs : s = sp
    · rw [if_pos hs] at hsd
      rcases List.mem_cons.mp hsd with h | h
      · subst h
        refine ⟨?_, ?_, ?_⟩
        · rw [addToDir_name]
          exact hn0
        · rw [addToDir_cons_files]
          exact hf0
        · exact addToDir_good (p :: ps) d rf hg0 hrf
      · exact hfs sd (by simp [h])
    · rw [if_neg hs] at hsd
      rcases List.mem_cons.mp hsd with h | h
      · subst h
        exact hfs (s, d) (by simp)
      · exact ih (fun q hq => hfs q (by simp [hq])) sd h

theorem build_props (db : DbState)
    (hparts : ∀ r ∈ db, r.filename.dropLast ≠ [])
    (hgood : ∀ r ∈ db, goodFile (rfOf r) = true) :
    (∀ sd ∈ build_file_structure db,
      sd.2.name = sd.1 ∧ sd.2.files = [] ∧ goodDir sd.2 = true) ∧
    ((build_file_structure db).map Prod.fst).Nodup := by
  unfold build_file_structure
  have hgen : ∀ (l : DbState) (fs : List (String × RestoreDirectory)),
      (∀ r ∈ l, r.filename.dropLast ≠ []) →
      (∀ r ∈ l, goodFile (rfOf r) = true) →
      (∀ sd ∈ fs, sd.2.name = sd.1 ∧ sd.2.files = [] ∧ goodDir sd.2 = true) →
      ((fs.map Prod.fst).Nodup) →
      (∀ sd ∈ l.foldl
          (fun a r => ctxInsert a r.src_path r.filename.dropLast (rfOf r)) fs,
        sd.2.name = sd.1 ∧ sd.2.files = [] ∧ goodDir sd.2 = true) ∧
      ((l.foldl (fun a r => ctxInsert a r.src_path r.filename.dropLast (rfOf r))
        fs).map Prod.fst).Nodup := by
    intro l
    induction l with
    | nil =>
      intro fs _ _ hP hN
      exact ⟨hP, hN⟩
    | cons r l2 ih =>
      intro fs hp hg hP hN
      rw [List.foldl_cons]
      refine ih _ (fun q hq => hp q (by simp [hq]))
        (fun q hq => hg q (by simp [hq])) ?_ ?_
      · exact ctxInsert_props r.src_path r.filename.dropLast (rfOf r)
          (hp r (by simp)) (hg r (by simp)) fs hP
      · rw [ctxInsert_keys]
        split
        · exact hN
        · rw [List.nodup_append]
          refine ⟨hN, by simp, ?_⟩
          intro a ha hb
          simp only [List.mem_singleton] at hb
          rename_i hnm
          exact hnm (hb ▸ ha)
  exact hgen db [] hparts hgood (by simp) (by simp)

/-- C1 (amended): restore round trip away from the dropped cases.  For
every central index state in which each row's relative filename has at
least one intermediate directory component (so no file sits directly
in a source root), each timestamp is empty, and each size is present,
exporting the restore context, serializing, parsing, and importing
into a fresh central index reproduces exactly the rows' source root,
relative filename, size, fingerprint and destination set, as a
multiset. -/
theorem restore_round_trip (db : DbState)
    (h1 : ∀ r ∈ db, 2 ≤ r.filename.length)
    (h2 : ∀ r ∈ db, r.timestamp = none)
    (h3 : ∀ r ∈ db, r.size.isSome = true) :
    ∃ db2, roundTrip db = some db2 ∧
      List.Perm (db2.map projC1) (db.map projC1) := by
  have hne : ∀ r ∈ db, r.filename ≠ [] := by
    intro r hr he
    have hl := h1 r hr
    rw [he] at hl
    simp at hl
  have hparts : ∀ r ∈ db, r.filename.dropLast ≠ [] := by
    intro r hr he
    have hl := congrArg List.length he
    rw [List.length_dropLast] at hl
    have := h1 r hr
    simp only [List.length_nil] at hl
    omega
  have hgood : ∀ r ∈ db, goodFile (rfOf r) = true := by
    intro r hr
    obtain ⟨v, hv⟩ := Option.isSome_iff_exists.mp (h3 r hr)
    unfold goodFile rfOf
    simp [h2 r hr, hv, pySetList_idem]
  obtain ⟨hP, hK⟩ := build_props db hparts hgood
  have hctx := ctx_roundtrip (build_file_structure db) hP hK
  unfold roundTrip
  rw [hctx]
  show ∃ db2,
    add_restore_context [] ⟨build_file_structure db⟩ = some db2 ∧
      List.Perm (db2.map projC1) (db.map projC1)
  unfold add_restore_context
  rw [if_neg (by simp)]
  have himp : ∀ (fs2 : List (String × RestoreDirectory)) (acc : DbState),
      fs2.foldl (fun a sd => _add_directory_to_db sd.1 sd.2 [] a) acc =
        acc ++ (ctxLeaves fs2).map
          (fun t => rowOfRestoreFile t.1 t.2.1 t.2.2) := by
    intro fs2
    induction fs2 with
    | nil =>
      intro acc
      simp [ctxLeaves]
    | cons sd rest ih =>
      intro acc
      rw [List.foldl_cons, add_dir_rows sd.2 sd.1 [] acc, ih]
      simp only [ctxLeaves, List.flatMap_cons, List.map_append, List.map_map]
      rw [List.append_assoc]
      rfl
  refine ⟨_, rfl, ?_⟩
  rw [himp, List.nil_append, List.map_map]
  have h4 := (build_leaves db).map
    (fun t => projC1 (rowOfRestoreFile t.1 t.2.1 t.2.2))
  have h5 : (db.map
      (fun r => (r.src_path, r.filename.dropLast, rfOf r))).map
        (fun t => projC1 (rowOfRestoreFile t.1 t.2.1 t.2.2)) =
      db.map projC1 := by
    rw [List.map_map]
    refine List.map_congr_left ?_
    intro r hr
    exact row_proj r (hne r hr)
  rw [h5] at h4
  exact h4

/-- Concrete table for the C1 witness: one nested file with a
duplicate destination tag. -/
def dbC1 : DbState :=
  [{ filename := ["d", "b"], src_path := "s2", size := some 4,
     timestamp := none, md5_hash := "hb", visited := 0,
     backup_dest := ["X", "X"] },
   { filename := ["d", "e", "c"], src_path := "s2", size := some 7,
     timestamp := none, md5_hash := "hc", visited := 0, backup_dest := [] }]

/-- Witness for C1: the amended round trip applies to a concrete
nested table. -/
theorem restore_round_trip_witness :
    (∀ r ∈ dbC1, 2 ≤ r.filename.length) ∧
    (∀ r ∈ dbC1, r.timestamp = none) ∧
    (∀ r ∈ dbC1, r.size.isSome = true) ∧
    ∃ db2, roundTrip dbC1 = some db2 ∧
      List.Perm (db2.map projC1) (dbC1.map projC1) :=
  ⟨by decide, by decide, by decide,
   restore_round_trip dbC1 (by decide) (by decide) (by decide)⟩

/-- Concrete row for the C1 counterexample: a file directly in the
source root. -/
def rowC1 : BackupFileRow :=
  { filename := ["a.txt"], src_path := "src1", size := some 3,
    timestamp := none, md5_hash := "h", visited := 0, backup_dest := [] }

/-- C1 counterexample: a file sitting directly in a source root is
serialized as a file child of its rc element, but from_element reads
only the dr children, so the round trip of a one-row index imports an
empty table. -/
theorem restore_root_file_dropped :
    (∃ r ∈ [rowC1], r.filename = ["a.txt"]) ∧
    roundTrip [rowC1] = some [] := by
  refine ⟨⟨rowC1, by simp, rfl⟩, ?_⟩
  have hb : build_file_structure [rowC1] =
      [("src1", ⟨"src1", [rfOf rowC1], []⟩)] := by
    unfold build_file_structure
    rw [List.foldl_cons, List.foldl_nil]
    simp only [ctxInsert]
    rw [show rowC1.src_path = "src1" from rfl,
      show rowC1.filename.dropLast = [] from rfl]
    simp [addToDir]
  unfold roundTrip
  rw [hb]
  unfold RestoreContext.to_element RestoreContext.from_element
  simp only [List.map_cons, List.map_nil, XElem.children]
  simp only [RestoreDirectory.files, RestoreDirectory.subdirectories,
    dirsToElems, List.append_nil]
  simp only [List.map_cons, List.map_nil]
  have h1 : dirsOfParse [RestoreFile.to_element (rfOf rowC1)] = some [] := by
    rw [show RestoreFile.to_element (rfOf rowC1) = XElem.file (rfOf rowC1).name
      (sizeAttr (rfOf rowC1).size) (mtimeAttr (rfOf rowC1).mtime)
      (rfOf rowC1).md5 (rfOf rowC1).bkp_dests from rfl]
    simp only [dirsOfParse]
  have h2 : rcParse [XElem.rc "src1" [RestoreFile.to_element (rfOf rowC1)]] [] =
      some [("src1", (⟨"src1", [], []⟩ : RestoreDirectory))] := by
    simp only [rcParse]
    rw [h1]
    rfl
  rw [h2]
  show add_restore_context []
    ⟨[("src1", (⟨"src1", [], []⟩ : RestoreDirectory))]⟩ = some []
  unfold add_restore_context
  rw [if_neg (by simp)]
  rw [List.foldl_cons, List.foldl_nil]
  simp [_add_directory_to_db, addSubdirsToDb]

end Medorg
